import Mathlib

/-!
# BSP tree of convex polyhedra: embedding of `bsp.h` / `bsp.cpp`

The tree module of the repository is embedded as pure Lean functions.

* The geometry kernel (CGAL, exact rational arithmetic) is not part of the
  repository sources; points and planes are modelled from the specification
  as rational triples and rational plane equations, classified exactly.
* A `Polyhedron_3` is reduced to what the tree module reads: its identity,
  its planes, its vertices and the result of `is_valid`.
* Heap nodes become an inductive tree.  A non-null `parent` pointer always
  designates the node that holds the pointing node, so an `InternalNode`
  records only whether its parent pointer is null.
  `std::set<Polyhedron_3>` (ordered by identity) becomes a list kept strictly
  ascending in the identity.
* C++ exceptions, null dereferences, uses of deleted nodes, unbounded
  recursion, and a return that leaves a deleted node linked into the tree
  are explicit results (`Fault`).
* Where the language leaves the evaluation order of two operands open and
  both orders are defined, the order is a parameter (`leftFirst`); where one
  of the orders is undefined, the result is the fault.
-/

namespace BSP

/-! ## Geometry kernel -/

/-- Modelled from the spec: the point type `Point_3` of the exact kernel
(`CGAL::Simple_cartesian<CGAL::Gmpq>`), three rational coordinates. -/
structure Point_3 where
  x : ℚ
  y : ℚ
  z : ℚ
deriving DecidableEq

/-- Modelled from the spec: the plane type `Plane_3` of the exact kernel, the
oriented plane `a*x + b*y + c*z + d = 0`. -/
structure Plane_3 where
  a : ℚ
  b : ℚ
  c : ℚ
  d : ℚ
deriving DecidableEq

/-- The three values of `CGAL::Oriented_side`. -/
inductive Oriented_side where
  | ON_NEGATIVE_SIDE
  | ON_ORIENTED_BOUNDARY
  | ON_POSITIVE_SIDE
deriving DecidableEq

/-- Value of the plane equation at a point. -/
def Plane_3.eval (pl : Plane_3) (p : Point_3) : ℚ :=
  pl.a * p.x + pl.b * p.y + pl.c * p.z + pl.d

/-- Modelled from the spec: `classify(plane, point)`, exact and without
tolerance (`Plane_3::oriented_side(const Point_3&)` of the kernel): the sign
of the plane equation at the point. -/
def Plane_3.oriented_side (pl : Plane_3) (p : Point_3) : Oriented_side :=
  if pl.eval p < 0 then Oriented_side.ON_NEGATIVE_SIDE
  else if pl.eval p = 0 then Oriented_side.ON_ORIENTED_BOUNDARY
  else Oriented_side.ON_POSITIVE_SIDE

/-- The default constructed `Plane_3` (all coefficients zero), the value of
the local `plane` of `create_node` when no divider was assigned to it. -/
def Plane_3.default : Plane_3 := ⟨0, 0, 0, 0⟩

/-! ## Polyhedra -/

/-- The part of `Polyhedron_3` read by the tree module: the identity `_id`,
the planes (`planes_begin .. planes_end`), the vertices
(`points_begin .. points_end`) and the result of `is_valid()`. -/
structure Polyhedron_3 where
  id : Nat
  planes : List Plane_3
  points : List Point_3
  valid : Bool
deriving DecidableEq

/-- The `Polyhedron_3::operator==`: equality of identities. -/
def Polyhedron_3.same (p q : Polyhedron_3) : Bool := q.id == p.id

/-- Flag `ON_NEGATIVE_SIDE = 1 << 1` of the enum `OrientedSide`. -/
def ON_NEGATIVE_SIDE : Nat := 2
/-- Flag `ON_ORIENTED_BOUNDARY = 1 << 2` of the enum `OrientedSide`. -/
def ON_ORIENTED_BOUNDARY : Nat := 4
/-- Flag `ON_POSITIVE_SIDE = 1 << 3` of the enum `OrientedSide`. -/
def ON_POSITIVE_SIDE : Nat := 8

/-- The local `max` of `oriented_side`: the sum of the three flags. -/
def side_max : Nat := ON_NEGATIVE_SIDE + ON_ORIENTED_BOUNDARY + ON_POSITIVE_SIDE

/-- The body of the loop of `oriented_side` for one vertex: the switch that
ors one flag into `res`. -/
def side_step (plane : Plane_3) (res : Nat) (p : Point_3) : Nat :=
  match plane.oriented_side p with
  | Oriented_side.ON_NEGATIVE_SIDE => res ||| ON_NEGATIVE_SIDE
  | Oriented_side.ON_ORIENTED_BOUNDARY => res ||| ON_ORIENTED_BOUNDARY
  | Oriented_side.ON_POSITIVE_SIDE => res ||| ON_POSITIVE_SIDE

/-- The loop of `oriented_side`: it runs while vertices remain and
`res < max`. -/
def side_loop (plane : Plane_3) : List Point_3 → Nat → Nat
  | [], res => res
  | p :: ps, res => if res < side_max then side_loop plane ps (side_step plane res p) else res

/-- The function `oriented_side(const Plane_3&, const Polyhedron_3&)`. -/
def oriented_side (plane : Plane_3) (poly : Polyhedron_3) : Nat :=
  side_loop plane poly.points 0

/-- The function `point_in_polyhedron`: every plane of `poly` that does not
contain `p` must have every vertex of `poly` on its boundary or on the side
of `p`. -/
def point_in_polyhedron (poly : Polyhedron_3) (p : Point_3) : Bool :=
  poly.planes.all fun pl =>
    let side := pl.oriented_side p
    if side = Oriented_side.ON_ORIENTED_BOUNDARY then true
    else poly.points.all fun q =>
      let side2 := pl.oriented_side q
      !(side2 ≠ Oriented_side.ON_ORIENTED_BOUNDARY && side2 ≠ side)

/-! ## Sets of polyhedra ordered by identity -/

/-- The `std::set<Polyhedron_3>::insert`: ordered insertion, nothing happens
when an element of the same identity is present. -/
def set_insert (x : Polyhedron_3) : List Polyhedron_3 → List Polyhedron_3
  | [] => [x]
  | y :: ys =>
    if x.id < y.id then x :: y :: ys
    else if y.id < x.id then y :: set_insert x ys
    else y :: ys

/-- The `std::set<Polyhedron_3>::erase(const Polyhedron_3&)`: removes the
elements of the same identity. -/
def set_erase (x : Polyhedron_3) (s : List Polyhedron_3) : List Polyhedron_3 :=
  s.filter fun y => !(y.id == x.id)

/-- The range constructor `std::set<Polyhedron_3>(first, last)`. -/
def set_of_list (v : List Polyhedron_3) : List Polyhedron_3 :=
  v.foldl (fun s x => set_insert x s) []

/-! ## Nodes and faults -/

/-- The two node classes.  `InternalNode` keeps the argument order of its
constructor (`_left, _right, _plane, _polys, _parent`); the constructor
dereferences both children, so neither is null.

The member `parent` of an `InternalNode` is recorded as a Boolean: `false`
is the null pointer, `true` is a pointer to the node that holds this node as
a child (every assignment of a non-null parent pointer in `bsp.cpp` is made
by, or on behalf of, that holder).  The parent pointer of a `LeafNode` is not
recorded: it is set by the constructor of the holder and by line 237 of
`remove`, and designates the holder wherever the code reads it. -/
inductive Node where
  | LeafNode (poly : Polyhedron_3)
  | InternalNode (left right : Node) (plane : Plane_3) (polys : List Polyhedron_3)
      (parent : Bool)
deriving DecidableEq

deriving instance DecidableEq for Except

/-- The ways a call can end other than by returning with a tree. -/
inductive Fault where
  /-- The exception `std::runtime_error("Intersecting polyhedrons!")`. -/
  | intersecting
  /-- The behaviour is undefined: a null pointer is dereferenced, or a node
  is read after its deletion. -/
  | memory
  /-- The call of `remove` returns `true` and leaves a deleted node linked:
  `root` points at the deleted Leaf (line 244) when `viaRoot` holds, else a
  child slot points at the deleted grandparent of the Leaf.  What `root`
  reaches is then no longer a tree. -/
  | dangling (viaRoot : Bool)
  /-- The recursion does not end (the fuel of the model ran out). -/
  | diverges
deriving DecidableEq

/-- The member function `has_children`. -/
def Node.has_children : Node → Bool
  | Node.LeafNode _ => false
  | Node.InternalNode _ _ _ _ _ => true

/-- The solids held in the Leaves, left to right. -/
def Node.leaves : Node → List Polyhedron_3
  | Node.LeafNode poly => [poly]
  | Node.InternalNode l r _ _ _ => l.leaves ++ r.leaves

/-- The assignment `node->parent = p`, with `b` telling whether `p` is
non-null. -/
def Node.set_parent (b : Bool) : Node → Node
  | Node.LeafNode poly => Node.LeafNode poly
  | Node.InternalNode l r plane polys _ => Node.InternalNode l r plane polys b

/-! ## Pairwise splitter -/

/-- The test that makes both loops of `split` skip a plane. -/
def split_skip (side1 side2 : Nat) : Bool :=
  decide ((side1 : Int) = side2) || decide ((side1 : Int) - ON_ORIENTED_BOUNDARY = side2)
    || decide ((side1 : Int) = (side2 : Int) - ON_ORIENTED_BOUNDARY)

/-- The first loop of `split`, over the planes of `poly1`; `none` when the
loop ends without returning. -/
def split_loop1 (poly1 poly2 : Polyhedron_3) : List Plane_3 → Option Node
  | [] => none
  | it :: rest =>
    let side1 := oriented_side it poly1
    let side2 := oriented_side it poly2
    if split_skip side1 side2 then split_loop1 poly1 poly2 rest
    else if side2 = ON_NEGATIVE_SIDE + ON_ORIENTED_BOUNDARY then
      some (Node.InternalNode (Node.LeafNode poly2) (Node.LeafNode poly1) it
        (set_insert poly2 [poly1]) false)
    else if side2 = ON_NEGATIVE_SIDE then
      some (Node.InternalNode (Node.LeafNode poly2) (Node.LeafNode poly1) it [poly1] false)
    else if side2 = ON_POSITIVE_SIDE + ON_ORIENTED_BOUNDARY then
      some (Node.InternalNode (Node.LeafNode poly1) (Node.LeafNode poly2) it
        (set_insert poly2 [poly1]) false)
    else if side2 = ON_POSITIVE_SIDE then
      some (Node.InternalNode (Node.LeafNode poly1) (Node.LeafNode poly2) it [poly1] false)
    else split_loop1 poly1 poly2 rest

/-- The second loop of `split`, over the planes of `poly2`. -/
def split_loop2 (poly1 poly2 : Polyhedron_3) : List Plane_3 → Option Node
  | [] => none
  | it :: rest =>
    let side1 := oriented_side it poly1
    let side2 := oriented_side it poly2
    if split_skip side2 side1 then split_loop2 poly1 poly2 rest
    else if side1 = ON_NEGATIVE_SIDE + ON_ORIENTED_BOUNDARY then
      some (Node.InternalNode (Node.LeafNode poly1) (Node.LeafNode poly2) it
        (set_insert poly1 [poly2]) false)
    else if side1 = ON_NEGATIVE_SIDE then
      some (Node.InternalNode (Node.LeafNode poly1) (Node.LeafNode poly2) it [poly2] false)
    else if side1 = ON_POSITIVE_SIDE + ON_ORIENTED_BOUNDARY then
      some (Node.InternalNode (Node.LeafNode poly2) (Node.LeafNode poly1) it
        (set_insert poly1 [poly2]) false)
    else if side1 = ON_POSITIVE_SIDE then
      some (Node.InternalNode (Node.LeafNode poly2) (Node.LeafNode poly1) it [poly2] false)
    else split_loop2 poly1 poly2 rest

/-- The function `split`: the planes of `poly1`, then those of `poly2`, then
the exception. -/
def split (poly1 poly2 : Polyhedron_3) : Except Fault Node :=
  match split_loop1 poly1 poly2 poly1.planes with
  | some n => Except.ok n
  | none =>
    match split_loop2 poly1 poly2 poly2.planes with
    | some n => Except.ok n
    | none => Except.error Fault.intersecting

/-! ## Tree builder -/

/-- The solids pushed to `left` for one candidate plane (lines 398-401). -/
def group_left (plane : Plane_3) (v : List Polyhedron_3) : List Polyhedron_3 :=
  v.filter fun poly => oriented_side plane poly &&& ON_NEGATIVE_SIDE ≠ 0

/-- The solids pushed to `right` for one candidate plane (lines 402-403). -/
def group_right (plane : Plane_3) (v : List Polyhedron_3) : List Polyhedron_3 :=
  v.filter fun poly => oriented_side plane poly &&& ON_POSITIVE_SIDE ≠ 0

/-- The solids pushed to `polys` for one candidate plane (lines 404-405). -/
def group_polys (plane : Plane_3) (v : List Polyhedron_3) : List Polyhedron_3 :=
  v.filter fun poly => oriented_side plane poly &&& ON_ORIENTED_BOUNDARY ≠ 0

/-- The test of line 408 on the two groups of a candidate plane. -/
def qualifies (plane : Plane_3) (v : List Polyhedron_3) : Bool :=
  decide ((group_left plane v).length ≠ 0) && decide ((group_left plane v).length < v.length)
    && decide ((group_right plane v).length ≠ 0) && decide ((group_right plane v).length < v.length)

/-- The locals `left`, `right`, `polys` and `plane` of `create_node`, and
whether the jump to `found_divider` was taken. -/
structure Search where
  left : List Polyhedron_3
  right : List Polyhedron_3
  polys : List Polyhedron_3
  plane : Plane_3
  found : Bool
deriving DecidableEq

/-- The candidate planes in the order of the two nested loops of
`create_node`: the solids of `v`, then the planes of that solid. -/
def candidates (v : List Polyhedron_3) : List Plane_3 :=
  v.flatMap fun poly => poly.planes

/-- The search of `create_node` over the remaining candidates.  Every
candidate overwrites the three groups; `plane` is assigned only when the
test of line 408 succeeds. -/
def find_divider (v : List Polyhedron_3) : List Plane_3 → Search → Search
  | [], st => st
  | plane_it :: rest, st =>
    if qualifies plane_it v then
      ⟨group_left plane_it v, group_right plane_it v, group_polys plane_it v, plane_it, true⟩
    else
      find_divider v rest
        ⟨group_left plane_it v, group_right plane_it v, group_polys plane_it v, st.plane, false⟩

/-- The state of the locals before the loops. -/
def Search.init : Search := ⟨[], [], [], Plane_3.default, false⟩

/-- The function `create_node`, with fuel for its recursion.  When the loops
end without a divider, control still reaches `found_divider` with the groups
of the last candidate and the default plane.  A null `node_left` or
`node_right` is dereferenced by the `InternalNode` constructor, which sets
the parent pointer of both children; the new node has a null parent. -/
def create_node : Nat → List Polyhedron_3 → Except Fault (Option Node)
  | _, [] => Except.ok none
  | _, [a] => Except.ok (some (Node.LeafNode a))
  | _, [a, b] =>
    match split a b with
    | Except.ok n => Except.ok (some n)
    | Except.error e => Except.error e
  | 0, _ :: _ :: _ :: _ => Except.error Fault.diverges
  | fuel + 1, a :: b :: c :: rest =>
    let st := find_divider (a :: b :: c :: rest) (candidates (a :: b :: c :: rest)) Search.init
    match create_node fuel st.left with
    | Except.error e => Except.error e
    | Except.ok node_left =>
      match create_node fuel st.right with
      | Except.error e => Except.error e
      | Except.ok node_right =>
        match node_left, node_right with
        | some l, some r =>
          Except.ok (some (Node.InternalNode (l.set_parent true) (r.set_parent true) st.plane
            (set_of_list st.polys) false))
        | _, _ => Except.error Fault.memory

/-! ## The tree -/

/-- The class `BSPTree`: the root pointer, null for the empty tree. -/
structure BSPTree where
  root : Option Node
deriving DecidableEq

/-- The constructor `BSPTree(const std::vector<Polyhedron_3>&)`.  The fuel
is the number of solids: every call made after a divider was found receives
fewer solids than its caller. -/
def BSPTree.build (v : List Polyhedron_3) : Except Fault BSPTree :=
  match create_node v.length v with
  | Except.ok r => Except.ok ⟨r⟩
  | Except.error e => Except.error e

/-- The member function `empty`. -/
def BSPTree.empty (t : BSPTree) : Bool := t.root.isNone

/-- The member function `clear`. -/
def BSPTree.clear (_t : BSPTree) : BSPTree := ⟨none⟩

/-- The solids held in the Leaves of the tree. -/
def BSPTree.leaves (t : BSPTree) : List Polyhedron_3 :=
  match t.root with
  | none => []
  | some n => n.leaves

/-! ## Locator -/

/-- The loop of `BSPTree::locate` and the code after `point_on_plane`, from
the node `node`: `some poly` is the result `true` with `poly` assigned,
`none` is the result `false`. -/
def locate_node : Node → Point_3 → Option Polyhedron_3
  | Node.LeafNode poly, p => if point_in_polyhedron poly p then some poly else none
  | Node.InternalNode left right plane polys _, p =>
    match plane.oriented_side p with
    | Oriented_side.ON_POSITIVE_SIDE => locate_node right p
    | Oriented_side.ON_NEGATIVE_SIDE => locate_node left p
    | Oriented_side.ON_ORIENTED_BOUNDARY => polys.find? fun poly => point_in_polyhedron poly p

/-- The member function `BSPTree::locate`. -/
def BSPTree.locate (t : BSPTree) (p : Point_3) : Option Polyhedron_3 :=
  match t.root with
  | none => none
  | some node => locate_node node p

/-! ## Inserter -/

/-- The free function `insert(Node*, const Polyhedron_3&)`.  The result is
the content of the slot that held `node` after the call, and the returned
value or the exception.  The subtree returned by `split` is stored in the
slot of the Leaf as it is: its parent pointer stays null (lines 185-187).
The operands of `insert(left) & insert(right)` are evaluated in an order the
language leaves open: `leftFirst` fixes it.  An exception of the first
operand leaves the second subtree untouched. -/
def insert_node (leftFirst : Bool) : Node → Polyhedron_3 → Node × Except Fault Bool
  | Node.LeafNode lpoly, poly =>
    match split poly lpoly with
    | Except.ok n => (n, Except.ok true)
    | Except.error e => (Node.LeafNode lpoly, Except.error e)
  | Node.InternalNode left right plane polys parent, poly =>
    let side := oriented_side plane poly
    let l := side &&& ON_NEGATIVE_SIDE
    let r := side &&& ON_POSITIVE_SIDE
    if l ≠ 0 ∧ r ≠ 0 then
      if leftFirst then
        match insert_node leftFirst left poly with
        | (left2, Except.error e) =>
          (Node.InternalNode left2 right plane polys parent, Except.error e)
        | (left2, Except.ok b1) =>
          match insert_node leftFirst right poly with
          | (right2, Except.error e) =>
            (Node.InternalNode left2 right2 plane polys parent, Except.error e)
          | (right2, Except.ok b2) =>
            (Node.InternalNode left2 right2 plane polys parent, Except.ok (b1 && b2))
      else
        match insert_node leftFirst right poly with
        | (right2, Except.error e) =>
          (Node.InternalNode left right2 plane polys parent, Except.error e)
        | (right2, Except.ok b2) =>
          match insert_node leftFirst left poly with
          | (left2, Except.error e) =>
            (Node.InternalNode left2 right2 plane polys parent, Except.error e)
          | (left2, Except.ok b1) =>
            (Node.InternalNode left2 right2 plane polys parent, Except.ok (b1 && b2))
    else if l ≠ 0 then
      match insert_node leftFirst left poly with
      | (left2, res) => (Node.InternalNode left2 right plane polys parent, res)
    else
      match insert_node leftFirst right poly with
      | (right2, res) => (Node.InternalNode left right2 plane polys parent, res)

/-- The member function `BSPTree::insert`: the tree after the call and the
returned value or the exception. -/
def BSPTree.insert (leftFirst : Bool) (t : BSPTree) (poly : Polyhedron_3) :
    BSPTree × Except Fault Bool :=
  if !poly.valid then (t, Except.ok false)
  else
    match t.root with
    | none => (⟨some (Node.LeafNode poly)⟩, Except.ok true)
    | some (Node.LeafNode rpoly) =>
      match split rpoly poly with
      | Except.ok n => (⟨some n⟩, Except.ok true)
      | Except.error e => (t, Except.error e)
    | some (Node.InternalNode left right plane polys parent) =>
      match insert_node leftFirst (Node.InternalNode left right plane polys parent) poly with
      | (n, res) => (⟨some n⟩, res)

/-! ## Remover -/

/-- Whether `node` is a Leaf whose solid has the identity of `poly`. -/
def Node.holds (node : Node) (poly : Polyhedron_3) : Bool :=
  match node with
  | Node.LeafNode lpoly => lpoly.same poly
  | Node.InternalNode _ _ _ _ _ => false

/-- What a call of the free function `remove` did to the node it was given. -/
inductive Removal where
  /-- The node is still in its slot, with the content `node`; the call
  returned `found`. -/
  | kept (found : Bool) (node : Node)
  /-- The node was deleted and the slot that held it, a child slot of its
  parent, received `node` (lines 240-242); the call returned `true`. -/
  | moved (node : Node)
  /-- An Internal node at or below the node was deleted and `root` received
  `node` (line 244), because the parent pointer of the deleted node was
  null; the call returned `true`. -/
  | rooted (node : Node)
deriving DecidableEq

/-- The value returned by the call. -/
def Removal.found : Removal → Bool
  | Removal.kept b _ => b
  | Removal.moved _ => true
  | Removal.rooted _ => true

/-- The result of `remove(left) | remove(right)` at a node that both calls
leave in place: the node with the two slots updated, unless a call assigned
`root`; when both did, the call evaluated last decides. -/
def Removal.both (leftFirst : Bool) (plane : Plane_3) (polys : List Polyhedron_3)
    (parent : Bool) : Removal → Removal → Removal
  | Removal.rooted a, Removal.rooted b => Removal.rooted (if leftFirst then b else a)
  | Removal.rooted a, _ => Removal.rooted a
  | _, Removal.rooted b => Removal.rooted b
  | Removal.kept b1 left2, Removal.kept b2 right2 =>
    Removal.kept (b1 || b2) (Node.InternalNode left2 right2 plane polys parent)
  | Removal.kept _ left2, Removal.moved right2 =>
    Removal.kept true (Node.InternalNode left2 right2 plane polys parent)
  | Removal.moved left2, Removal.kept _ right2 =>
    Removal.kept true (Node.InternalNode left2 right2 plane polys parent)
  | Removal.moved left2, Removal.moved right2 =>
    Removal.kept true (Node.InternalNode left2 right2 plane polys parent)

/-- Whether a call of `remove` for `poly` on `node` reaches the right child of
`node` at once, by the loop or by the call `remove(inode->right)`, and finds
there a Leaf that holds `poly`: lines 235-247 then delete the parent of
`node`, or dereference its null parent pointer. -/
def Node.drops_parent (node : Node) (poly : Polyhedron_3) : Bool :=
  match node with
  | Node.LeafNode _ => false
  | Node.InternalNode _ right plane _ _ =>
    (decide (oriented_side plane poly &&& ON_NEGATIVE_SIDE = 0) ||
      decide (oriented_side plane poly &&& ON_POSITIVE_SIDE ≠ 0)) && right.holds poly

/-- The fault of `remove(left) | remove(right)` when both calls end in a
fault: undefined behaviour in one call is undefined behaviour; otherwise both
calls have returned `true` with a deleted node linked, and `root` points at a
deleted Leaf when one of them left it so. -/
def Fault.join : Fault → Fault → Fault
  | Fault.memory, _ => Fault.memory
  | _, Fault.memory => Fault.memory
  | Fault.dangling a, Fault.dangling b => Fault.dangling (a || b)
  | e, _ => e

/-- The result of `remove(left) | remove(right)` when one call has returned
with the result `res` and the other has ended in the fault `e`; `resLast`
tells whether the call that returned was evaluated last.  A call that assigns
a live subtree to `root` (line 244) leaves a tree, whatever the other call
deleted below its own child, unless the other call has left `root` pointing
at a deleted Leaf and was evaluated last. -/
def Removal.rescue (resLast : Bool) : Removal → Fault → Except Fault Removal
  | Removal.rooted x, Fault.dangling viaRoot =>
    if viaRoot && !resLast then Except.error (Fault.dangling true)
    else Except.ok (Removal.rooted x)
  | _, e => Except.error e

/-- The result of `remove(left) | remove(right)` from the results of the two
calls, when neither call touches the node that makes them. -/
def Removal.join (leftFirst : Bool) (plane : Plane_3) (polys : List Polyhedron_3)
    (parent : Bool) : Except Fault Removal → Except Fault Removal → Except Fault Removal
  | Except.ok res1, Except.ok res2 => Except.ok (Removal.both leftFirst plane polys parent res1 res2)
  | Except.ok res1, Except.error e => Removal.rescue (!leftFirst) res1 e
  | Except.error e, Except.ok res2 => Removal.rescue leftFirst res2 e
  | Except.error e1, Except.error e2 => Except.error (Fault.join e1 e2)

/-- The free function `remove(Node*, const Polyhedron_3&, Node*&)`, on a node
whose holder has a non-null parent pointer exactly when `up` holds.

* A matching Leaf that is the left child of its parent (line 235, first
  branch): the sibling is the right child; it receives the parent pointer of
  the parent (line 237) and is stored in the grandparent (lines 240-242) when
  that pointer is non-null, in `root` (line 244) when it is null; the parent
  and the Leaf are deleted.
* A matching Leaf that is the right child: line 235 selects
  `lnode->parent->right` again, the Leaf itself, and line 237 overwrites the
  parent pointer of the Leaf with the parent pointer of its parent.  When
  that pointer is null, line 239 dereferences it.  When it is non-null, it
  designates the grandparent: lines 239-244 store the Leaf in the right slot
  of the grandparent, or in `root` when the grandparent has a null parent
  pointer; lines 246-247 delete the grandparent and the Leaf, and the call
  returns `true` with a deleted node still linked.
* `remove(left) | remove(right)` at a node `inode`.  A call that deletes
  `inode` makes the other operand, when it is evaluated afterwards, read the
  deleted `inode`: this is so when the left child is a matching Leaf, and
  when a child is an Internal node whose call reaches at once its matching
  right Leaf (the grandparent deleted there is `inode`, or the null parent
  pointer is dereferenced).  When the right child is a matching Leaf, the
  call on it deletes the holder of `inode` and the Leaf, not `inode`, unless
  the parent pointer of `inode` is null and is dereferenced.  Otherwise the
  two operands work on disjoint subtrees and the order of their evaluation,
  which the language leaves open and `leftFirst` fixes, matters only for the
  last assignment of `root`.
* A matching Leaf without parent is never passed by `BSPTree::remove`; its
  null parent would be dereferenced. -/
def remove_node (leftFirst : Bool) (up : Bool) : Node → Polyhedron_3 → Except Fault Removal
  | Node.LeafNode lpoly, poly =>
    if !(lpoly.same poly) then Except.ok (Removal.kept false (Node.LeafNode lpoly))
    else Except.error Fault.memory
  | Node.InternalNode left right plane polys parent, poly =>
    let side := oriented_side plane poly
    let l := side &&& ON_NEGATIVE_SIDE
    let r := side &&& ON_POSITIVE_SIDE
    let z := side &&& ON_ORIENTED_BOUNDARY
    let polys2 := if z ≠ 0 then set_erase poly polys else polys
    if l ≠ 0 ∧ r ≠ 0 then
      if left.holds poly || left.drops_parent poly || right.drops_parent poly then
        Except.error Fault.memory
      else
        Removal.join leftFirst plane polys2 parent (remove_node leftFirst parent left poly)
          (if right.holds poly then
            (if parent then Except.error (Fault.dangling !up) else Except.error Fault.memory)
          else remove_node leftFirst parent right poly)
    else if l ≠ 0 then
      if left.holds poly then
        if parent then Except.ok (Removal.moved (right.set_parent true))
        else Except.ok (Removal.rooted (right.set_parent false))
      else
        match remove_node leftFirst parent left poly with
        | Except.error e => Except.error e
        | Except.ok (Removal.kept b left2) =>
          Except.ok (Removal.kept b (Node.InternalNode left2 right plane polys2 parent))
        | Except.ok (Removal.moved left2) =>
          Except.ok (Removal.kept true (Node.InternalNode left2 right plane polys2 parent))
        | Except.ok (Removal.rooted n) => Except.ok (Removal.rooted n)
    else
      if right.holds poly then
        if parent then Except.error (Fault.dangling !up) else Except.error Fault.memory
      else
        match remove_node leftFirst parent right poly with
        | Except.error e => Except.error e
        | Except.ok (Removal.kept b right2) =>
          Except.ok (Removal.kept b (Node.InternalNode left right2 plane polys2 parent))
        | Except.ok (Removal.moved right2) =>
          Except.ok (Removal.kept true (Node.InternalNode left right2 plane polys2 parent))
        | Except.ok (Removal.rooted n) => Except.ok (Removal.rooted n)

/-- The member function `BSPTree::remove`.  The root has no holder.  No
operation leaves a root with a non-null parent pointer; lines 240-242 would
dereference it. -/
def BSPTree.remove (leftFirst : Bool) (t : BSPTree) (poly : Polyhedron_3) :
    Except Fault (Bool × BSPTree) :=
  match t.root with
  | none => Except.ok (false, t)
  | some (Node.LeafNode rpoly) =>
    if !(poly.same rpoly) then Except.ok (false, t)
    else Except.ok (true, ⟨none⟩)
  | some (Node.InternalNode left right plane polys parent) =>
    match remove_node leftFirst false (Node.InternalNode left right plane polys parent) poly with
    | Except.error e => Except.error e
    | Except.ok (Removal.kept b n) => Except.ok (b, ⟨some n⟩)
    | Except.ok (Removal.moved _) => Except.error Fault.memory
    | Except.ok (Removal.rooted n) => Except.ok (true, ⟨some n⟩)

/-! ## Notions used to state the properties -/

/-- The integer that holds the three flags `n`, `b`, `p`. -/
def flags3 (n b p : Bool) : Nat :=
  (if n then ON_NEGATIVE_SIDE else 0) ||| (if b then ON_ORIENTED_BOUNDARY else 0)
    ||| (if p then ON_POSITIVE_SIDE else 0)

/-- Whether some point of `pts` is classified `side` by the plane. -/
def any_side (pl : Plane_3) (pts : List Point_3) (side : Oriented_side) : Bool :=
  pts.any fun q => decide (pl.oriented_side q = side)

/-- The union of the classifications of all points of `pts`, as flags. -/
def side_flags (pl : Plane_3) (pts : List Point_3) : Nat :=
  flags3 (any_side pl pts Oriented_side.ON_NEGATIVE_SIDE)
    (any_side pl pts Oriented_side.ON_ORIENTED_BOUNDARY)
    (any_side pl pts Oriented_side.ON_POSITIVE_SIDE)

/-- The weighted sum of the numbers `es` with the weights `w`. -/
def wsum : List ℚ → List ℚ → ℚ
  | a :: w, e :: es => a * e + wsum w es
  | _, _ => 0

/-- The combination of the points `pts` with the weights `w`. -/
def combine (w : List ℚ) (pts : List Point_3) : Point_3 :=
  ⟨wsum w (pts.map fun q => q.x), wsum w (pts.map fun q => q.y), wsum w (pts.map fun q => q.z)⟩

/-- The point `p` belongs to the solid: it is a convex combination of the
vertices. -/
def Polyhedron_3.Hull (s : Polyhedron_3) (p : Point_3) : Prop :=
  ∃ w : List ℚ, w.length = s.points.length ∧ (∀ a ∈ w, 0 ≤ a) ∧ w.sum = 1 ∧
    p = combine w s.points

/-- The point `p` is strictly interior to the solid: it is a convex
combination of the vertices in which every vertex has a positive weight. -/
def Polyhedron_3.Interior (s : Polyhedron_3) (p : Point_3) : Prop :=
  ∃ w : List ℚ, w.length = s.points.length ∧ (∀ a ∈ w, 0 < a) ∧ w.sum = 1 ∧
    p = combine w s.points

/-- Every plane of the solid has all vertices of the solid on one of its
closed sides. -/
def Polyhedron_3.Supporting (s : Polyhedron_3) : Prop :=
  ∀ pl ∈ s.planes, (∀ q ∈ s.points, pl.eval q ≤ 0) ∨ (∀ q ∈ s.points, 0 ≤ pl.eval q)

/-- Every plane of the solid passes through a vertex of the solid. -/
def Polyhedron_3.FacesTouch (s : Polyhedron_3) : Prop :=
  ∀ pl ∈ s.planes, ∃ q ∈ s.points, pl.eval q = 0

/-- The planes of the solid are face planes of a convex solid: each one
passes through a vertex and has all vertices on one closed side. -/
def Polyhedron_3.Convex (s : Polyhedron_3) : Prop := s.Supporting ∧ s.FacesTouch

instance (s : Polyhedron_3) : Decidable s.Supporting := by
  unfold Polyhedron_3.Supporting; infer_instance

instance (s : Polyhedron_3) : Decidable s.FacesTouch := by
  unfold Polyhedron_3.FacesTouch; infer_instance

instance (s : Polyhedron_3) : Decidable s.Convex := by
  unfold Polyhedron_3.Convex; infer_instance

/-- The two solids have no point in common. -/
def Polyhedron_3.DisjointFrom (a b : Polyhedron_3) : Prop :=
  ∀ p, ¬ (a.Hull p ∧ b.Hull p)

/-- The face plane `pl` separates its owner from the other solid: the two lie
on opposite closed sides, each with a vertex off the plane. -/
def face_separates (pl : Plane_3) (own oth : Polyhedron_3) : Prop :=
  ((∀ q ∈ own.points, pl.eval q ≤ 0) ∧ (∃ q ∈ own.points, pl.eval q < 0) ∧
    (∀ q ∈ oth.points, 0 ≤ pl.eval q) ∧ (∃ q ∈ oth.points, 0 < pl.eval q)) ∨
  ((∀ q ∈ own.points, 0 ≤ pl.eval q) ∧ (∃ q ∈ own.points, 0 < pl.eval q) ∧
    (∀ q ∈ oth.points, pl.eval q ≤ 0) ∧ (∃ q ∈ oth.points, pl.eval q < 0))

/-- The results that a loop of `split` can return at the plane `pl` of the
solid `own`, by the classification of the other solid. -/
def split_result (own oth : Polyhedron_3) (pl : Plane_3) (n : Node) : Prop :=
  (oriented_side pl oth = ON_NEGATIVE_SIDE + ON_ORIENTED_BOUNDARY ∧
      n = Node.InternalNode (Node.LeafNode oth) (Node.LeafNode own) pl (set_insert oth [own]) false) ∨
  (oriented_side pl oth = ON_NEGATIVE_SIDE ∧
      n = Node.InternalNode (Node.LeafNode oth) (Node.LeafNode own) pl [own] false) ∨
  (oriented_side pl oth = ON_POSITIVE_SIDE + ON_ORIENTED_BOUNDARY ∧
      n = Node.InternalNode (Node.LeafNode own) (Node.LeafNode oth) pl (set_insert oth [own]) false) ∨
  (oriented_side pl oth = ON_POSITIVE_SIDE ∧
      n = Node.InternalNode (Node.LeafNode own) (Node.LeafNode oth) pl [own] false)

/-- The descent of `locate` for `p` ends at a Leaf: `p` is on none of the
planes it meets. -/
def Node.reaches_leaf : Node → Point_3 → Bool
  | Node.LeafNode _, _ => true
  | Node.InternalNode left right plane _ _, p =>
    match plane.oriented_side p with
    | Oriented_side.ON_POSITIVE_SIDE => right.reaches_leaf p
    | Oriented_side.ON_NEGATIVE_SIDE => left.reaches_leaf p
    | Oriented_side.ON_ORIENTED_BOUNDARY => false

/-- The descent of `locate` for `p` in the tree ends at a Leaf. -/
def BSPTree.reaches_leaf (t : BSPTree) (p : Point_3) : Bool :=
  match t.root with
  | none => false
  | some n => n.reaches_leaf p

/-- The separation invariant: at every Internal node each solid held in the
left subtree lies on the closed negative side of the plane with a vertex
strictly inside it, and each solid held in the right subtree lies on the
closed positive side with a vertex strictly inside it. -/
def Node.Separated : Node → Prop
  | Node.LeafNode _ => True
  | Node.InternalNode left right plane _ _ =>
    (∀ e ∈ left.leaves, (∀ q ∈ e.points, plane.eval q ≤ 0) ∧ ∃ q ∈ e.points, plane.eval q < 0) ∧
    (∀ e ∈ right.leaves, (∀ q ∈ e.points, 0 ≤ plane.eval q) ∧ ∃ q ∈ e.points, 0 < plane.eval q) ∧
    left.Separated ∧ right.Separated

/-- The separation invariant of a tree. -/
def BSPTree.Separated (t : BSPTree) : Prop :=
  match t.root with
  | none => True
  | some n => n.Separated

/-- Every boundary set of the node is strictly ascending in the identity,
the order of `std::set<Polyhedron_3>`. -/
def Node.sets_sorted : Node → Prop
  | Node.LeafNode _ => True
  | Node.InternalNode left right _ polys _ =>
    (polys.Pairwise fun a b => a.id < b.id) ∧ left.sets_sorted ∧ right.sets_sorted

/-- The node with the identity of `s` erased from every boundary set. -/
def Node.strip (s : Polyhedron_3) : Node → Node
  | Node.LeafNode poly => Node.LeafNode poly
  | Node.InternalNode left right plane polys parent =>
    Node.InternalNode (left.strip s) (right.strip s) plane (set_erase s polys) parent

/-- The tree with the identity of `s` erased from every boundary set. -/
def BSPTree.strip (s : Polyhedron_3) (t : BSPTree) : BSPTree :=
  ⟨t.root.map (Node.strip s)⟩

/-- No boundary set of the node holds the identity of `s`. -/
def Node.sets_free (s : Polyhedron_3) : Node → Prop
  | Node.LeafNode _ => True
  | Node.InternalNode left right _ polys _ =>
    (∀ e ∈ polys, e.id ≠ s.id) ∧ left.sets_free s ∧ right.sets_free s

/-- No boundary set of the tree holds the identity of `s`. -/
def BSPTree.sets_free (s : Polyhedron_3) (t : BSPTree) : Prop :=
  match t.root with
  | none => True
  | some n => n.sets_free s

/-- One call of `remove` for each solid of `order`, in that order, as long as
no call faults. -/
def remove_all (leftFirst : Bool) : BSPTree → List Polyhedron_3 → Except Fault BSPTree
  | t, [] => Except.ok t
  | t, s :: rest =>
    match t.remove leftFirst s with
    | Except.error e => Except.error e
    | Except.ok (_, t2) => remove_all leftFirst t2 rest

instance (pl : Plane_3) (own oth : Polyhedron_3) : Decidable (face_separates pl own oth) := by
  unfold face_separates; infer_instance

/-- The separation invariant is decidable. -/
def Node.decSeparated : (n : Node) → Decidable n.Separated
  | Node.LeafNode _ => isTrue trivial
  | Node.InternalNode left right plane _ _ =>
    have := Node.decSeparated left
    have := Node.decSeparated right
    inferInstanceAs (Decidable (
      (∀ e ∈ left.leaves, (∀ q ∈ e.points, plane.eval q ≤ 0) ∧ ∃ q ∈ e.points, plane.eval q < 0) ∧
      (∀ e ∈ right.leaves, (∀ q ∈ e.points, 0 ≤ plane.eval q) ∧ ∃ q ∈ e.points, 0 < plane.eval q) ∧
      left.Separated ∧ right.Separated))

instance (n : Node) : Decidable n.Separated := Node.decSeparated n

instance (t : BSPTree) : Decidable t.Separated := by
  unfold BSPTree.Separated
  cases t.root <;> infer_instance

/-- The tree that the constructor returns for `v`; the empty tree when the
constructor does not return. -/
def built (v : List Polyhedron_3) : BSPTree :=
  match BSPTree.build v with
  | Except.ok t => t
  | Except.error _ => ⟨none⟩

/-! ## Concrete solids -/

/-- The axis-parallel box of `cube` in `main.cpp`: the eight corners in the
order of its three loops, and the six face planes with the outward normal
(the orientation of the facets of a convex hull), here in the order
`x-`, `x+`, `y-`, `y+`, `z-`, `z+`.  The identity is given explicitly. -/
def cube (id : Nat) (p : Point_3) (h w d : ℚ) : Polyhedron_3 :=
  { id := id
    planes := [⟨-1, 0, 0, p.x⟩, ⟨1, 0, 0, -(p.x + h)⟩, ⟨0, -1, 0, p.y⟩, ⟨0, 1, 0, -(p.y + w)⟩,
      ⟨0, 0, -1, p.z⟩, ⟨0, 0, 1, -(p.z + d)⟩]
    points := [⟨p.x, p.y, p.z⟩, ⟨p.x, p.y, p.z + d⟩, ⟨p.x, p.y + w, p.z⟩,
      ⟨p.x, p.y + w, p.z + d⟩, ⟨p.x + h, p.y, p.z⟩, ⟨p.x + h, p.y, p.z + d⟩,
      ⟨p.x + h, p.y + w, p.z⟩, ⟨p.x + h, p.y + w, p.z + d⟩]
    valid := true }

/-- The unit cube anchored at the origin, identity 0. -/
def cube000 : Polyhedron_3 := cube 0 ⟨0, 0, 0⟩ 1 1 1

/-- The unit cube anchored at `(1, 0, 0)`, identity 1. -/
def cube100 : Polyhedron_3 := cube 1 ⟨1, 0, 0⟩ 1 1 1

/-- The tree that `create_node` returns for `cube000, cube100`: the plane
`x = 1` of the first cube, which holds the left Leaf. -/
def pair_tree : BSPTree :=
  ⟨some (Node.InternalNode (Node.LeafNode cube000) (Node.LeafNode cube100) ⟨1, 0, 0, -1⟩
    [cube000, cube100] false)⟩

/-- The unit cube anchored at `(2, 0, 0)`, identity 1. -/
def cube200 : Polyhedron_3 := cube 1 ⟨2, 0, 0⟩ 1 1 1

/-- The unit cube anchored at `(2, 0, 0)`, identity 2. -/
def cube200_new : Polyhedron_3 := cube 2 ⟨2, 0, 0⟩ 1 1 1

/-- The tree after `insert` of `cube200_new` into `pair_tree`: the subtree
returned by `split` replaces the right Leaf, with a null parent pointer. -/
def grown_tree : BSPTree :=
  ⟨some (Node.InternalNode (Node.LeafNode cube000)
    (Node.InternalNode (Node.LeafNode cube200_new) (Node.LeafNode cube100) ⟨-1, 0, 0, 2⟩
      [cube100, cube200_new] false)
    ⟨1, 0, 0, -1⟩ [cube000, cube100] false)⟩

/-- The unit cube anchored at `(1/2, 5, 0)`, identity 2: it spans the plane
`x = 1` without a vertex on it. -/
def cube_far : Polyhedron_3 := cube 2 ⟨1/2, 5, 0⟩ 1 1 1

/-- The 8 unit cubes anchored at the points of `{0,1}^3`, in the order of
`cubes` in `main.cpp`, with the identities 0 to 7. -/
def lattice : List Polyhedron_3 :=
  [cube 0 ⟨0, 0, 0⟩ 1 1 1, cube 1 ⟨0, 0, 1⟩ 1 1 1, cube 2 ⟨0, 1, 0⟩ 1 1 1, cube 3 ⟨0, 1, 1⟩ 1 1 1,
   cube 4 ⟨1, 0, 0⟩ 1 1 1, cube 5 ⟨1, 0, 1⟩ 1 1 1, cube 6 ⟨1, 1, 0⟩ 1 1 1, cube 7 ⟨1, 1, 1⟩ 1 1 1]

/-- A triangular prism along the x axis, below the plane `z = 0`, its ridge
`y = 0, z = 0` on top.  Planes: the base `z = -1`, the two slanted faces, the
two end caps `x = 2` and `x = -2`, all with the outward normal. -/
def prism_a : Polyhedron_3 :=
  { id := 0
    planes := [⟨0, 0, -1, -1⟩, ⟨0, 1, 1, 0⟩, ⟨0, -1, 1, 0⟩, ⟨1, 0, 0, -2⟩, ⟨-1, 0, 0, -2⟩]
    points := [⟨-2, -1, -1⟩, ⟨-2, 1, -1⟩, ⟨-2, 0, 0⟩, ⟨2, -1, -1⟩, ⟨2, 1, -1⟩, ⟨2, 0, 0⟩]
    valid := true }

/-- A triangular prism along the y axis, above the plane `z = 1`, its ridge
`x = 0, z = 1` at the bottom.  Planes: the top `z = 2`, the two slanted
faces, the two end caps `y = 2` and `y = -2`, all with the outward normal. -/
def prism_b : Polyhedron_3 :=
  { id := 1
    planes := [⟨0, 0, 1, -2⟩, ⟨1, 0, -1, 1⟩, ⟨-1, 0, -1, 1⟩, ⟨0, 1, 0, -2⟩, ⟨0, -1, 0, -2⟩]
    points := [⟨-1, -2, 2⟩, ⟨1, -2, 2⟩, ⟨0, -2, 1⟩, ⟨-1, 2, 2⟩, ⟨1, 2, 2⟩, ⟨0, 2, 1⟩]
    valid := true }

/-- The box `[2,4] x [2,3] x [0,1]`, identity 0. -/
def overlap_c : Polyhedron_3 := cube 0 ⟨2, 2, 0⟩ 2 1 1

/-- The box `[0,2] x [0,1] x [0,1]`, identity 1. -/
def overlap_o : Polyhedron_3 := cube 1 ⟨0, 0, 0⟩ 2 1 1

/-- The box `[0,1/2] x [1,3] x [0,1]`, identity 2. -/
def overlap_f : Polyhedron_3 := cube 2 ⟨0, 1, 0⟩ (1/2) 2 1

/-- The box `[1,3] x [1/2,3/2] x [0,1]`, identity 3: it overlaps `overlap_o`
and is separated from `overlap_c` and `overlap_f` by face planes. -/
def overlap_s : Polyhedron_3 := cube 3 ⟨1, 1/2, 0⟩ 2 1 1

/-- The tree that `create_node` returns for `overlap_c, overlap_o, overlap_f`. -/
def overlap_tree : BSPTree :=
  ⟨some (Node.InternalNode (Node.LeafNode overlap_c)
    (Node.InternalNode (Node.LeafNode overlap_o) (Node.LeafNode overlap_f) ⟨0, 1, 0, -1⟩
      [overlap_o, overlap_f] true)
    ⟨-1, 0, 0, 2⟩ [overlap_c, overlap_o] false)⟩

/-- The flag of one point classification. -/
def side_flag : Oriented_side → Nat
  | Oriented_side.ON_NEGATIVE_SIDE => ON_NEGATIVE_SIDE
  | Oriented_side.ON_ORIENTED_BOUNDARY => ON_ORIENTED_BOUNDARY
  | Oriented_side.ON_POSITIVE_SIDE => ON_POSITIVE_SIDE

/-- The classification of a solid as the specification words it: the union,
over every vertex of the solid, of the point classification.  It scans all
vertices and has no early exit. -/
def classify_solid (plane : Plane_3) (solid : Polyhedron_3) : Nat :=
  (solid.points.map fun q => side_flag (plane.oriented_side q)).foldr (fun f acc => f ||| acc) 0

/-- The first candidate plane, in the order of the two loops of
`create_node`, that passes the test of line 408; `none` when the loops end
without the jump to `found_divider`. -/
def first_divider (v : List Polyhedron_3) : Option Plane_3 :=
  (candidates v).find? fun pl => qualifies pl v

/-- Whether the parent pointer of the node is non-null.  A Leaf that is a
child always has the pointer that the constructor of its holder gave it. -/
def Node.parent_set : Node → Bool
  | Node.LeafNode _ => true
  | Node.InternalNode _ _ _ _ parent => parent

/-- Every node strictly below `node` has a non-null parent pointer. -/
def Node.children_linked : Node → Bool
  | Node.LeafNode _ => true
  | Node.InternalNode left right _ _ _ =>
    left.parent_set && right.parent_set && left.children_linked && right.children_linked

/-- The parent pointer of the root is null and that of every other node
designates its holder. -/
def BSPTree.parents_ok (t : BSPTree) : Bool :=
  match t.root with
  | none => true
  | some (Node.LeafNode _) => true
  | some (Node.InternalNode left right plane polys parent) =>
    !parent && (Node.InternalNode left right plane polys parent).children_linked

/-- The node that a call of the free function `remove` leaves behind. -/
def Removal.node : Removal → Node
  | Removal.kept _ n => n
  | Removal.moved n => n
  | Removal.rooted n => n

/-! ## Further concrete solids -/

/-- The unit cube anchored at `(1, 1, 0)`, identity 2: four of its vertices
are on the plane `x = 1`, the others on its positive side. -/
def cube110 : Polyhedron_3 := cube 2 ⟨1, 1, 0⟩ 1 1 1

/-- The tree after `insert` of `cube110` into `pair_tree`. -/
def corner_tree : BSPTree :=
  ⟨some (Node.InternalNode (Node.LeafNode cube000)
    (Node.InternalNode (Node.LeafNode cube110) (Node.LeafNode cube100) ⟨0, -1, 0, 1⟩
      [cube100, cube110] false)
    ⟨1, 0, 0, -1⟩ [cube000, cube100] false)⟩

/-- The tree that `create_node` returns for `cube000, cube100, cube200_new`:
the three cubes in a row along the x axis. -/
def row_tree : BSPTree :=
  ⟨some (Node.InternalNode (Node.LeafNode cube000)
    (Node.InternalNode (Node.LeafNode cube100) (Node.LeafNode cube200_new) ⟨1, 0, 0, -2⟩
      [cube100, cube200_new] true)
    ⟨1, 0, 0, -1⟩ [cube000, cube100] false)⟩

/-- A rod with a square cross-section along the x axis, around the line
`y = 4, z = 0`: four slanted faces and the two end caps `x = 16` and
`x = -16`, all with the outward normal. -/
def rod_x : Polyhedron_3 :=
  { id := 0
    planes := [⟨0, 1, 1, -5⟩, ⟨0, 1, -1, -5⟩, ⟨0, -1, 1, 3⟩, ⟨0, -1, -1, 3⟩, ⟨1, 0, 0, -16⟩,
      ⟨-1, 0, 0, -16⟩]
    points := [⟨-16, 5, 0⟩, ⟨-16, 3, 0⟩, ⟨-16, 4, 1⟩, ⟨-16, 4, -1⟩, ⟨16, 5, 0⟩, ⟨16, 3, 0⟩,
      ⟨16, 4, 1⟩, ⟨16, 4, -1⟩]
    valid := true }

/-- The same rod along the y axis, around the line `x = 0, z = 4`. -/
def rod_y : Polyhedron_3 :=
  { id := 1
    planes := [⟨1, 0, 1, -5⟩, ⟨1, 0, -1, 3⟩, ⟨-1, 0, 1, -5⟩, ⟨-1, 0, -1, 3⟩, ⟨0, 1, 0, -16⟩,
      ⟨0, -1, 0, -16⟩]
    points := [⟨1, -16, 4⟩, ⟨-1, -16, 4⟩, ⟨0, -16, 5⟩, ⟨0, -16, 3⟩, ⟨1, 16, 4⟩, ⟨-1, 16, 4⟩,
      ⟨0, 16, 5⟩, ⟨0, 16, 3⟩]
    valid := true }

/-- The same rod along the z axis, around the line `x = 4, y = 0`. -/
def rod_z : Polyhedron_3 :=
  { id := 2
    planes := [⟨1, 1, 0, -5⟩, ⟨1, -1, 0, -5⟩, ⟨-1, 1, 0, 3⟩, ⟨-1, -1, 0, 3⟩, ⟨0, 0, 1, -16⟩,
      ⟨0, 0, -1, -16⟩]
    points := [⟨5, 0, -16⟩, ⟨3, 0, -16⟩, ⟨4, 1, -16⟩, ⟨4, -1, -16⟩, ⟨5, 0, 16⟩, ⟨3, 0, 16⟩,
      ⟨4, 1, 16⟩, ⟨4, -1, 16⟩]
    valid := true }

/-! ## Further notions: closed sides, recorded contacts, uncut collections -/

/-- The separation invariant in its closed form: at every Internal node no
solid held in the left subtree has a vertex strictly on the positive side of
the plane, and no solid held in the right subtree has a vertex strictly on
the negative side. -/
def Node.Sided : Node → Prop
  | Node.LeafNode _ => True
  | Node.InternalNode left right plane _ _ =>
    (∀ e ∈ left.leaves, ∀ q ∈ e.points, plane.eval q ≤ 0) ∧
    (∀ e ∈ right.leaves, ∀ q ∈ e.points, 0 ≤ plane.eval q) ∧
    left.Sided ∧ right.Sided

/-- The closed separation invariant of a tree. -/
def BSPTree.Sided (t : BSPTree) : Prop :=
  match t.root with
  | none => True
  | some n => n.Sided

/-- At every Internal node, each solid held in its subtree that has a vertex
on the plane is a member of the boundary set, whose members are told apart
by their identity. -/
def Node.Recorded : Node → Prop
  | Node.LeafNode _ => True
  | Node.InternalNode left right plane polys _ =>
    (∀ e ∈ left.leaves ++ right.leaves, (∃ q ∈ e.points, plane.eval q = 0) →
      ∃ m ∈ polys, m.id = e.id) ∧
    left.Recorded ∧ right.Recorded

/-- Every contact of a held solid with a plane of the tree is recorded. -/
def BSPTree.Recorded (t : BSPTree) : Prop :=
  match t.root with
  | none => True
  | some n => n.Recorded

/-- The closed separation invariant is decidable. -/
def Node.decSided : (n : Node) → Decidable n.Sided
  | Node.LeafNode _ => isTrue trivial
  | Node.InternalNode left right plane _ _ =>
    have := Node.decSided left
    have := Node.decSided right
    inferInstanceAs (Decidable (
      (∀ e ∈ left.leaves, ∀ q ∈ e.points, plane.eval q ≤ 0) ∧
      (∀ e ∈ right.leaves, ∀ q ∈ e.points, 0 ≤ plane.eval q) ∧
      left.Sided ∧ right.Sided))

instance (n : Node) : Decidable n.Sided := Node.decSided n

instance (t : BSPTree) : Decidable t.Sided := by
  unfold BSPTree.Sided
  cases t.root <;> infer_instance

/-- Whether the contacts are recorded is decidable. -/
def Node.decRecorded : (n : Node) → Decidable n.Recorded
  | Node.LeafNode _ => isTrue trivial
  | Node.InternalNode left right plane polys _ =>
    have := Node.decRecorded left
    have := Node.decRecorded right
    inferInstanceAs (Decidable (
      (∀ e ∈ left.leaves ++ right.leaves, (∃ q ∈ e.points, plane.eval q = 0) →
        ∃ m ∈ polys, m.id = e.id) ∧
      left.Recorded ∧ right.Recorded))

instance (n : Node) : Decidable n.Recorded := Node.decRecorded n

instance (t : BSPTree) : Decidable t.Recorded := by
  unfold BSPTree.Recorded
  cases t.root <;> infer_instance

/-- All vertices of the solid are on one closed side of the plane: the plane
does not cut the solid. -/
def one_side (pl : Plane_3) (s : Polyhedron_3) : Prop :=
  (∀ q ∈ s.points, pl.eval q ≤ 0) ∨ (∀ q ∈ s.points, 0 ≤ pl.eval q)

/-- No face plane of a solid of `v` cuts a solid of `v`. -/
def uncut (v : List Polyhedron_3) : Prop :=
  ∀ pl ∈ candidates v, ∀ s ∈ v, one_side pl s

/-- No face plane of a solid of `v` cuts a solid of `v`, and every solid of
`v` has a vertex off each of these planes. -/
def uncut_thick (v : List Polyhedron_3) : Prop :=
  ∀ pl ∈ candidates v, ∀ s ∈ v, one_side pl s ∧ ∃ q ∈ s.points, pl.eval q ≠ 0

instance (pl : Plane_3) (s : Polyhedron_3) : Decidable (one_side pl s) := by
  unfold one_side; infer_instance

instance (v : List Polyhedron_3) : Decidable (uncut v) := by
  unfold uncut; infer_instance

instance (v : List Polyhedron_3) : Decidable (uncut_thick v) := by
  unfold uncut_thick; infer_instance

/-- Whether the descent of `insert` for `poly` from `node` meets a plane with
vertices of `poly` strictly on both sides, where `insert` goes into both
children. -/
def insert_spans : Node → Polyhedron_3 → Bool
  | Node.LeafNode _, _ => false
  | Node.InternalNode left right plane _ _, poly =>
    let side := oriented_side plane poly
    let l := side &&& ON_NEGATIVE_SIDE
    let r := side &&& ON_POSITIVE_SIDE
    if l ≠ 0 ∧ r ≠ 0 then true
    else if l ≠ 0 then insert_spans left poly
    else insert_spans right poly

/-- Whether the descent of `insert` for `poly` in the tree meets a plane that
cuts `poly`. -/
def BSPTree.insert_spans (t : BSPTree) (poly : Polyhedron_3) : Bool :=
  match t.root with
  | none => false
  | some n => BSP.insert_spans n poly

/-- The tree that `create_node` returns for `cube000, cube200, cube_far`: the
third cube, cut by the plane `x = 1` of the root, is held by a Leaf of each
subtree. -/
def cut_tree : BSPTree :=
  ⟨some (Node.InternalNode
    (Node.InternalNode (Node.LeafNode cube000) (Node.LeafNode cube_far) ⟨0, 1, 0, -1⟩
      [cube000] true)
    (Node.InternalNode (Node.LeafNode cube200) (Node.LeafNode cube_far) ⟨-1, 0, 0, 2⟩
      [cube200] true)
    ⟨1, 0, 0, -1⟩ [cube000] false)⟩

/-- The tree after `insert` of `cube_far` into `pair_tree`: the cube is split
against the Leaf of each child of the root. -/
def spread_tree : BSPTree :=
  ⟨some (Node.InternalNode
    (Node.InternalNode (Node.LeafNode cube_far) (Node.LeafNode cube000) ⟨0, -1, 0, 5⟩
      [cube_far] false)
    (Node.InternalNode (Node.LeafNode cube_far) (Node.LeafNode cube100) ⟨0, -1, 0, 5⟩
      [cube_far] false)
    ⟨1, 0, 0, -1⟩ [cube000, cube100] false)⟩

/-! ## Printer -/

/-- The characters that `operator<<(int)` writes for the identity of a solid:
its decimal digits (identities are counted up from 0, and the stream is
taken with its default flags). -/
def decimal (n : Nat) : List Char := Nat.toDigits 10 n

/-- The function `print` on a non-null node, as the characters it appends to
the stream.  For a Leaf `setw(depth)` and `setfill('+')` pad the empty string
to `depth` fill characters; the width is reset by that output, so the
identity follows unpadded, and `endl` ends the line. -/
def print_node : Node → Nat → List Char
  | Node.LeafNode poly, depth => List.replicate depth '+' ++ decimal poly.id ++ ['\n']
  | Node.InternalNode left right _ _ _, depth =>
    print_node left (depth + 1) ++ print_node right (depth + 1)

/-- The function `print`: a null node writes nothing.  `operator<<` calls it
with the root of the tree and the depth 0. -/
def print (node : Option Node) (depth : Nat) : List Char :=
  match node with
  | none => []
  | some n => print_node n depth

/-- The Leaves below a node that is itself at depth `depth`, left to right,
each with its own depth. -/
def Node.leaves_at : Node → Nat → List (Nat × Polyhedron_3)
  | Node.LeafNode poly, depth => [(depth, poly)]
  | Node.InternalNode left right _ _ _, depth =>
    left.leaves_at (depth + 1) ++ right.leaves_at (depth + 1)

/-- The line of the dump for a Leaf at depth `depth` that holds `s`: `depth`
plus signs, the identity, the end of the line. -/
def leaf_line (depth : Nat) (s : Polyhedron_3) : List Char :=
  List.replicate depth '+' ++ decimal s.id ++ ['\n']

/-! ## Inputs on which the builder always finds a divider -/

/-- Every call that `create_node` makes for `v`, the first one included, that
receives more than two solids has a candidate plane that passes the test of
line 408.  The call for the positive group is made only when the call for
the negative group has returned. -/
inductive Dividable : List Polyhedron_3 → Prop
  | small (v : List Polyhedron_3) (h : v.length ≤ 2) : Dividable v
  | step (v : List Polyhedron_3) (pl : Plane_3) (h : 2 < v.length)
      (hfd : first_divider v = some pl)
      (hl : Dividable (group_left pl v))
      (hr : ∀ l, create_node (group_left pl v).length (group_left pl v) = Except.ok l →
        Dividable (group_right pl v)) : Dividable v

/-- A check of `Dividable` that can be run: it asks for a qualifying
candidate in the calls for both groups. -/
def dividable : Nat → List Polyhedron_3 → Bool
  | _, [] => true
  | _, [_] => true
  | _, [_, _] => true
  | 0, _ :: _ :: _ :: _ => false
  | fuel + 1, a :: b :: c :: rest =>
    match first_divider (a :: b :: c :: rest) with
    | none => false
    | some pl =>
      dividable fuel (group_left pl (a :: b :: c :: rest)) &&
        dividable fuel (group_right pl (a :: b :: c :: rest))

/-! ## Notions for the remover -/

/-- The node after a call of `remove` for a solid `s` that finds no Leaf to
delete, as the amended claim describes it: shape, planes and Leaves as they
were; the descent goes into both children of a node whose plane has vertices
of `s` strictly on both sides, into the left child when it has one strictly
on the negative side, else into the right child; at each node so visited
whose plane carries a vertex of `s` the identity of `s` is erased from the
boundary set, and no other boundary set changes. -/
def Node.erase_visited (s : Polyhedron_3) : Node → Node
  | Node.LeafNode poly => Node.LeafNode poly
  | Node.InternalNode left right plane polys parent =>
    let polys2 := if ∃ q ∈ s.points, plane.eval q = 0 then set_erase s polys else polys
    if (∃ q ∈ s.points, plane.eval q < 0) ∧ (∃ q ∈ s.points, 0 < plane.eval q) then
      Node.InternalNode (left.erase_visited s) (right.erase_visited s) plane polys2 parent
    else if ∃ q ∈ s.points, plane.eval q < 0 then
      Node.InternalNode (left.erase_visited s) right plane polys2 parent
    else Node.InternalNode left (right.erase_visited s) plane polys2 parent

/-- The tree after a call of `remove` that finds no Leaf to delete. -/
def BSPTree.erase_visited (s : Polyhedron_3) (t : BSPTree) : BSPTree :=
  ⟨t.root.map (Node.erase_visited s)⟩

/-- The descent of `remove` for `poly` from `node` meets no Leaf that holds
`poly` as the right child of its parent, and none directly below a plane
that has vertices of `poly` strictly on both sides: every Leaf it deletes is
the left child of a node reached by the loop. -/
def Node.removable (poly : Polyhedron_3) : Node → Bool
  | Node.LeafNode _ => true
  | Node.InternalNode left right plane _ _ =>
    let side := oriented_side plane poly
    let l := side &&& ON_NEGATIVE_SIDE
    let r := side &&& ON_POSITIVE_SIDE
    !(right.holds poly) &&
      (if l ≠ 0 ∧ r ≠ 0 then !(left.holds poly) && left.removable poly && right.removable poly
      else if l ≠ 0 then left.holds poly || left.removable poly
      else right.removable poly)

/-- The root has a null parent pointer and the descent of `remove` for `poly`
deletes left-child Leaves only. -/
def BSPTree.removable (t : BSPTree) (poly : Polyhedron_3) : Bool :=
  match t.root with
  | none => true
  | some n => !(n.has_children && n.parent_set) && n.removable poly

/-- No face plane of a solid of `v` cuts the solid `k`, and `k` has a vertex
off each of these planes. -/
def uncut_thick_in (v : List Polyhedron_3) (k : Polyhedron_3) : Prop :=
  ∀ pl ∈ candidates v, one_side pl k ∧ ∃ q ∈ k.points, pl.eval q ≠ 0

instance (v : List Polyhedron_3) (k : Polyhedron_3) : Decidable (uncut_thick_in v k) := by
  unfold uncut_thick_in; infer_instance

/-! ## Theorems -/

/-! ### Classification of a solid -/

theorem flags3_step (n b p n2 b2 p2 : Bool) :
    flags3 n b p ||| flags3 n2 b2 p2 = flags3 (n || n2) (b || b2) (p || p2) := by
  revert n b p n2 b2 p2; decide

theorem side_loop_flags (pl : Plane_3) (ps : List Point_3) (n b p : Bool) :
    side_loop pl ps (flags3 n b p) = flags3 n b p ||| side_flags pl ps := by
  induction ps generalizing n b p with
  | nil =>
    have h0 : ∀ n b p : Bool, flags3 n b p ||| flags3 false false false = flags3 n b p := by decide
    simp only [side_loop, side_flags, any_side, List.any_nil, h0]
  | cons q qs ih =>
    unfold side_loop
    by_cases hlt : flags3 n b p < side_max
    · rw [if_pos hlt]
      have hstep : side_step pl (flags3 n b p) q =
          flags3 (n || decide (pl.oriented_side q = Oriented_side.ON_NEGATIVE_SIDE))
            (b || decide (pl.oriented_side q = Oriented_side.ON_ORIENTED_BOUNDARY))
            (p || decide (pl.oriented_side q = Oriented_side.ON_POSITIVE_SIDE)) := by
        unfold side_step
        cases pl.oriented_side q <;> (revert n b p; decide)
      rw [hstep, ih]
      simp only [side_flags, any_side, List.any_cons, flags3_step]
      congr 1 <;> simp [Bool.or_assoc]
    · rw [if_neg hlt]
      have h3 : n = true ∧ b = true ∧ p = true := by revert n b p; decide
      obtain ⟨rfl, rfl, rfl⟩ := h3
      simp only [side_flags, flags3_step, Bool.true_or]

theorem oriented_side_eq_flags (pl : Plane_3) (s : Polyhedron_3) :
    oriented_side pl s = side_flags pl s.points := by
  have h := side_loop_flags pl s.points false false false
  have h0 : flags3 false false false = 0 := by decide
  rw [h0] at h
  simpa [oriented_side] using h

theorem side_neg_iff (pl : Plane_3) (q : Point_3) :
    pl.oriented_side q = Oriented_side.ON_NEGATIVE_SIDE ↔ pl.eval q < 0 := by
  unfold Plane_3.oriented_side
  by_cases h1 : pl.eval q < 0
  · simp [h1]
  · by_cases h2 : pl.eval q = 0 <;> simp [h1, h2]

theorem side_bnd_iff (pl : Plane_3) (q : Point_3) :
    pl.oriented_side q = Oriented_side.ON_ORIENTED_BOUNDARY ↔ pl.eval q = 0 := by
  unfold Plane_3.oriented_side
  by_cases h1 : pl.eval q < 0
  · simp [h1]; exact ne_of_lt h1
  · by_cases h2 : pl.eval q = 0 <;> simp [h1, h2]

theorem side_pos_iff (pl : Plane_3) (q : Point_3) :
    pl.oriented_side q = Oriented_side.ON_POSITIVE_SIDE ↔ 0 < pl.eval q := by
  unfold Plane_3.oriented_side
  by_cases h1 : pl.eval q < 0
  · simp [h1]; exact le_of_lt h1
  · by_cases h2 : pl.eval q = 0
    · simp [h2]
    · simp [h1, h2]
      exact lt_of_le_of_ne (not_lt.mp h1) (Ne.symm h2)

theorem any_side_neg (pl : Plane_3) (pts : List Point_3) :
    any_side pl pts Oriented_side.ON_NEGATIVE_SIDE = true ↔ ∃ q ∈ pts, pl.eval q < 0 := by
  simp [any_side, side_neg_iff]

theorem any_side_bnd (pl : Plane_3) (pts : List Point_3) :
    any_side pl pts Oriented_side.ON_ORIENTED_BOUNDARY = true ↔ ∃ q ∈ pts, pl.eval q = 0 := by
  simp [any_side, side_bnd_iff]

theorem any_side_pos (pl : Plane_3) (pts : List Point_3) :
    any_side pl pts Oriented_side.ON_POSITIVE_SIDE = true ↔ ∃ q ∈ pts, 0 < pl.eval q := by
  simp [any_side, side_pos_iff]

theorem flag_neg_iff (pl : Plane_3) (s : Polyhedron_3) :
    oriented_side pl s &&& ON_NEGATIVE_SIDE ≠ 0 ↔ ∃ q ∈ s.points, pl.eval q < 0 := by
  rw [oriented_side_eq_flags, ← any_side_neg, side_flags]
  generalize any_side pl s.points Oriented_side.ON_NEGATIVE_SIDE = n
  generalize any_side pl s.points Oriented_side.ON_ORIENTED_BOUNDARY = b
  generalize any_side pl s.points Oriented_side.ON_POSITIVE_SIDE = p
  revert n b p; decide

theorem flag_pos_iff (pl : Plane_3) (s : Polyhedron_3) :
    oriented_side pl s &&& ON_POSITIVE_SIDE ≠ 0 ↔ ∃ q ∈ s.points, 0 < pl.eval q := by
  rw [oriented_side_eq_flags, ← any_side_pos, side_flags]
  generalize any_side pl s.points Oriented_side.ON_NEGATIVE_SIDE = n
  generalize any_side pl s.points Oriented_side.ON_ORIENTED_BOUNDARY = b
  generalize any_side pl s.points Oriented_side.ON_POSITIVE_SIDE = p
  revert n b p; decide

theorem flag_bnd_iff (pl : Plane_3) (s : Polyhedron_3) :
    oriented_side pl s &&& ON_ORIENTED_BOUNDARY ≠ 0 ↔ ∃ q ∈ s.points, pl.eval q = 0 := by
  rw [oriented_side_eq_flags, ← any_side_bnd, side_flags]
  generalize any_side pl s.points Oriented_side.ON_NEGATIVE_SIDE = n
  generalize any_side pl s.points Oriented_side.ON_ORIENTED_BOUNDARY = b
  generalize any_side pl s.points Oriented_side.ON_POSITIVE_SIDE = p
  revert n b p; decide

theorem eval_combine (pl : Plane_3) (w : List ℚ) (pts : List Point_3) (hl : w.length = pts.length) :
    pl.a * wsum w (pts.map fun q => q.x) + pl.b * wsum w (pts.map fun q => q.y)
      + pl.c * wsum w (pts.map fun q => q.z) + pl.d * w.sum = wsum w (pts.map pl.eval) := by
  induction w generalizing pts with
  | nil => simp [wsum]
  | cons a w ih =>
    cases pts with
    | nil => simp at hl
    | cons q qs =>
      have := ih qs (by simpa using hl)
      simp only [List.map_cons, wsum, List.sum_cons, Plane_3.eval]
      linarith

theorem eval_interior (pl : Plane_3) (s : Polyhedron_3) (w : List ℚ)
    (hl : w.length = s.points.length) (hs : w.sum = 1) :
    pl.eval (combine w s.points) = wsum w (s.points.map pl.eval) := by
  have := eval_combine pl w s.points hl
  rw [hs] at this
  simpa [Plane_3.eval, combine] using this

theorem wsum_nonpos (w es : List ℚ) (hw : ∀ a ∈ w, 0 < a) (he : ∀ e ∈ es, e ≤ 0) :
    wsum w es ≤ 0 := by
  induction w generalizing es with
  | nil => simp [wsum]
  | cons a w ih =>
    cases es with
    | nil => simp [wsum]
    | cons e es =>
      simp only [wsum]
      have h1 : 0 < a := hw a (by simp)
      have h2 : e ≤ 0 := he e (by simp)
      have h3 := ih es (fun x hx => hw x (by simp [hx])) (fun x hx => he x (by simp [hx]))
      nlinarith

theorem wsum_zero_all (w es : List ℚ) (hl : w.length = es.length) (hw : ∀ a ∈ w, 0 < a)
    (he : ∀ e ∈ es, e ≤ 0) (h0 : wsum w es = 0) : ∀ e ∈ es, e = 0 := by
  induction w generalizing es with
  | nil =>
    cases es with
    | nil => simp
    | cons e es => simp at hl
  | cons a w ih =>
    cases es with
    | nil => simp
    | cons e es =>
      simp only [wsum] at h0
      have h1 : 0 < a := hw a (by simp)
      have h2 : e ≤ 0 := he e (by simp)
      have h3 := wsum_nonpos w es (fun x hx => hw x (by simp [hx])) (fun x hx => he x (by simp [hx]))
      have h4 : a * e ≤ 0 := by nlinarith
      have h5 : a * e = 0 := by linarith
      have h6 : wsum w es = 0 := by linarith
      have h7 : e = 0 := by
        rcases mul_eq_zero.mp h5 with h | h
        · linarith
        · exact h
      intro x hx
      rcases List.mem_cons.mp hx with rfl | hx
      · exact h7
      · exact ih es (by simpa using hl) (fun x hx => hw x (by simp [hx]))
          (fun x hx => he x (by simp [hx])) h6 x hx

theorem wsum_neg (w es : List ℚ) : wsum w (es.map fun e => -e) = - wsum w es := by
  induction w generalizing es with
  | nil => simp [wsum]
  | cons a w ih =>
    cases es with
    | nil => simp [wsum]
    | cons e es => simp only [List.map_cons, wsum, ih]; ring

theorem split_loop1_some (a b : Polyhedron_3) (planes : List Plane_3) (n : Node)
    (h : split_loop1 a b planes = some n) :
    ∃ pl ∈ planes, split_skip (oriented_side pl a) (oriented_side pl b) = false ∧
      split_result a b pl n := by
  induction planes with
  | nil => simp [split_loop1] at h
  | cons it rest ih =>
    simp only [split_loop1] at h
    split_ifs at h with h1 h2 h3 h4 h5
    · obtain ⟨pl, hm, hr⟩ := ih h
      exact ⟨pl, List.mem_cons_of_mem _ hm, hr⟩
    · exact ⟨it, List.mem_cons_self _ _, by simpa using h1, Or.inl ⟨h2, (Option.some.inj h).symm⟩⟩
    · exact ⟨it, List.mem_cons_self _ _, by simpa using h1,
        Or.inr (Or.inl ⟨h3, (Option.some.inj h).symm⟩)⟩
    · exact ⟨it, List.mem_cons_self _ _, by simpa using h1,
        Or.inr (Or.inr (Or.inl ⟨h4, (Option.some.inj h).symm⟩))⟩
    · exact ⟨it, List.mem_cons_self _ _, by simpa using h1,
        Or.inr (Or.inr (Or.inr ⟨h5, (Option.some.inj h).symm⟩))⟩
    · obtain ⟨pl, hm, hr⟩ := ih h
      exact ⟨pl, List.mem_cons_of_mem _ hm, hr⟩

theorem split_loop2_some (a b : Polyhedron_3) (planes : List Plane_3) (n : Node)
    (h : split_loop2 a b planes = some n) :
    ∃ pl ∈ planes, split_skip (oriented_side pl b) (oriented_side pl a) = false ∧
      split_result b a pl n := by
  induction planes with
  | nil => simp [split_loop2] at h
  | cons it rest ih =>
    simp only [split_loop2] at h
    split_ifs at h with h1 h2 h3 h4 h5
    · obtain ⟨pl, hm, hr⟩ := ih h
      exact ⟨pl, List.mem_cons_of_mem _ hm, hr⟩
    · exact ⟨it, List.mem_cons_self _ _, by simpa using h1, Or.inl ⟨h2, (Option.some.inj h).symm⟩⟩
    · exact ⟨it, List.mem_cons_self _ _, by simpa using h1,
        Or.inr (Or.inl ⟨h3, (Option.some.inj h).symm⟩)⟩
    · exact ⟨it, List.mem_cons_self _ _, by simpa using h1,
        Or.inr (Or.inr (Or.inl ⟨h4, (Option.some.inj h).symm⟩))⟩
    · exact ⟨it, List.mem_cons_self _ _, by simpa using h1,
        Or.inr (Or.inr (Or.inr ⟨h5, (Option.some.inj h).symm⟩))⟩
    · obtain ⟨pl, hm, hr⟩ := ih h
      exact ⟨pl, List.mem_cons_of_mem _ hm, hr⟩

theorem split_ok_shape (a b : Polyhedron_3) (n : Node) (h : split a b = Except.ok n) :
    ∃ own oth pl, ((own = a ∧ oth = b) ∨ (own = b ∧ oth = a)) ∧ pl ∈ own.planes ∧
      split_skip (oriented_side pl own) (oriented_side pl oth) = false ∧
      split_result own oth pl n := by
  unfold split at h
  cases h1 : split_loop1 a b a.planes with
  | some m =>
    rw [h1] at h
    have hm : m = n := by simpa using h
    subst hm
    obtain ⟨pl, hp, hs, hr⟩ := split_loop1_some a b a.planes m h1
    exact ⟨a, b, pl, Or.inl ⟨rfl, rfl⟩, hp, hs, hr⟩
  | none =>
    rw [h1] at h
    cases h2 : split_loop2 a b b.planes with
    | some m =>
      rw [h2] at h
      have hm : m = n := by simpa using h
      subst hm
      obtain ⟨pl, hp, hs, hr⟩ := split_loop2_some a b b.planes m h2
      exact ⟨b, a, pl, Or.inr ⟨rfl, rfl⟩, hp, hs, hr⟩
    | none =>
      rw [h2] at h
      simp at h

theorem skip_flags (n b p n2 b2 p2 : Bool) (hsup : ¬ (n = true ∧ p = true))
    (hskip : split_skip (flags3 n b p) (flags3 n2 b2 p2) = false) :
    (flags3 n2 b2 p2 = ON_NEGATIVE_SIDE + ON_ORIENTED_BOUNDARY ∨ flags3 n2 b2 p2 = ON_NEGATIVE_SIDE →
        n = false ∧ n2 = true ∧ p2 = false) ∧
    (flags3 n2 b2 p2 = ON_POSITIVE_SIDE + ON_ORIENTED_BOUNDARY ∨ flags3 n2 b2 p2 = ON_POSITIVE_SIDE →
        p = false ∧ p2 = true ∧ n2 = false) := by
  revert n b p n2 b2 p2; decide

theorem any_side_neg_false (pl : Plane_3) (pts : List Point_3) :
    any_side pl pts Oriented_side.ON_NEGATIVE_SIDE = false ↔ ∀ q ∈ pts, 0 ≤ pl.eval q := by
  rw [← Bool.not_eq_true, any_side_neg]
  push_neg
  rfl

theorem any_side_pos_false (pl : Plane_3) (pts : List Point_3) :
    any_side pl pts Oriented_side.ON_POSITIVE_SIDE = false ↔ ∀ q ∈ pts, pl.eval q ≤ 0 := by
  rw [← Bool.not_eq_true, any_side_pos]
  push_neg
  rfl

theorem supporting_flags (s : Polyhedron_3) (hs : s.Supporting) (pl : Plane_3) (hp : pl ∈ s.planes) :
    ¬ (any_side pl s.points Oriented_side.ON_NEGATIVE_SIDE = true ∧
      any_side pl s.points Oriented_side.ON_POSITIVE_SIDE = true) := by
  rintro ⟨h1, h2⟩
  obtain ⟨q1, hq1, hlt⟩ := (any_side_neg pl s.points).mp h1
  obtain ⟨q2, hq2, hgt⟩ := (any_side_pos pl s.points).mp h2
  rcases hs pl hp with h | h
  · have := h q2 hq2; linarith
  · have := h q1 hq1; linarith

theorem split_sides (a b : Polyhedron_3) (n : Node) (h : split a b = Except.ok n)
    (ha : a.Supporting) (hb : b.Supporting) :
    ∃ x y pl polys, n = Node.InternalNode (Node.LeafNode x) (Node.LeafNode y) pl polys false ∧
      ((x = a ∧ y = b) ∨ (x = b ∧ y = a)) ∧
      (∀ q ∈ x.points, pl.eval q ≤ 0) ∧ (∀ q ∈ y.points, 0 ≤ pl.eval q) ∧
      ((∃ q ∈ x.points, pl.eval q < 0) ∨ (∃ q ∈ y.points, 0 < pl.eval q)) := by
  obtain ⟨own, oth, pl, hwho, hpl, hskip, hres⟩ := split_ok_shape a b n h
  have hown : own.Supporting := by
    rcases hwho with ⟨rfl, _⟩ | ⟨rfl, _⟩
    · exact ha
    · exact hb
  have hsup := supporting_flags own hown pl hpl
  rw [oriented_side_eq_flags pl own, oriented_side_eq_flags pl oth] at hskip
  have hk := skip_flags _ _ _ _ _ _ hsup hskip
  unfold split_result at hres
  rw [oriented_side_eq_flags pl oth] at hres
  have hswap : (oth = a ∧ own = b) ∨ (oth = b ∧ own = a) := by
    rcases hwho with ⟨h1, h2⟩ | ⟨h1, h2⟩
    · exact Or.inr ⟨h2, h1⟩
    · exact Or.inl ⟨h2, h1⟩
  rcases hres with ⟨hs, hn⟩ | ⟨hs, hn⟩ | ⟨hs, hn⟩ | ⟨hs, hn⟩
  · obtain ⟨h1, h2, h3⟩ := hk.1 (Or.inl hs)
    exact ⟨oth, own, pl, _, hn, hswap, (any_side_pos_false _ _).mp h3,
      (any_side_neg_false _ _).mp h1, Or.inl ((any_side_neg _ _).mp h2)⟩
  · obtain ⟨h1, h2, h3⟩ := hk.1 (Or.inr hs)
    exact ⟨oth, own, pl, _, hn, hswap, (any_side_pos_false _ _).mp h3,
      (any_side_neg_false _ _).mp h1, Or.inl ((any_side_neg _ _).mp h2)⟩
  · obtain ⟨h1, h2, h3⟩ := hk.2 (Or.inl hs)
    exact ⟨own, oth, pl, _, hn, hwho, (any_side_pos_false _ _).mp h1,
      (any_side_neg_false _ _).mp h3, Or.inr ((any_side_pos _ _).mp h2)⟩
  · obtain ⟨h1, h2, h3⟩ := hk.2 (Or.inr hs)
    exact ⟨own, oth, pl, _, hn, hwho, (any_side_pos_false _ _).mp h1,
      (any_side_neg_false _ _).mp h3, Or.inr ((any_side_pos _ _).mp h2)⟩

theorem interior_neg_vertex (s : Polyhedron_3) (p : Point_3) (pl : Plane_3) (hp : s.Interior p)
    (hlt : pl.eval p < 0) : ∃ q ∈ s.points, pl.eval q < 0 := by
  obtain ⟨w, hl, hw, hs, rfl⟩ := hp
  by_contra hcon
  push_neg at hcon
  rw [eval_interior pl s w hl hs] at hlt
  have h1 : wsum w ((s.points.map pl.eval).map fun e => -e) ≤ 0 := by
    apply wsum_nonpos w _ hw
    intro e he
    simp only [List.mem_map] at he
    obtain ⟨e2, ⟨q, hq, rfl⟩, rfl⟩ := he
    have := hcon q hq
    linarith
  rw [wsum_neg] at h1
  linarith

theorem interior_pos_vertex (s : Polyhedron_3) (p : Point_3) (pl : Plane_3) (hp : s.Interior p)
    (hgt : 0 < pl.eval p) : ∃ q ∈ s.points, 0 < pl.eval q := by
  obtain ⟨w, hl, hw, hs, rfl⟩ := hp
  by_contra hcon
  push_neg at hcon
  rw [eval_interior pl s w hl hs] at hgt
  have h1 : wsum w (s.points.map pl.eval) ≤ 0 := by
    apply wsum_nonpos w _ hw
    intro e he
    simp only [List.mem_map] at he
    obtain ⟨q, hq, rfl⟩ := he
    exact hcon q hq
  linarith

theorem interior_contains (s : Polyhedron_3) (p : Point_3) (hs : s.Supporting)
    (hp : s.Interior p) : point_in_polyhedron s p = true := by
  unfold point_in_polyhedron
  rw [List.all_eq_true]
  intro pl hpl
  by_cases hb : pl.oriented_side p = Oriented_side.ON_ORIENTED_BOUNDARY
  · simp [hb]
  · simp only [hb, if_false, List.all_eq_true]
    intro q hq
    rcases hs pl hpl with hle | hge
    · have hq1 := hle q hq
      have hpside : pl.oriented_side p = Oriented_side.ON_NEGATIVE_SIDE := by
        have hnp : ¬ 0 < pl.eval p := by
          intro hgt
          obtain ⟨q2, hq2, h2⟩ := interior_pos_vertex s p pl hp hgt
          have := hle q2 hq2
          linarith
        have hne : pl.eval p ≠ 0 := fun h0 => hb ((side_bnd_iff pl p).mpr h0)
        exact (side_neg_iff pl p).mpr (lt_of_le_of_ne (not_lt.mp hnp) hne)
      rw [hpside]
      rcases lt_or_eq_of_le hq1 with h | h
      · simp [(side_neg_iff pl q).mpr h]
      · simp [(side_bnd_iff pl q).mpr h]
    · have hq1 := hge q hq
      have hpside : pl.oriented_side p = Oriented_side.ON_POSITIVE_SIDE := by
        have hnp : ¬ pl.eval p < 0 := by
          intro hlt
          obtain ⟨q2, hq2, h2⟩ := interior_neg_vertex s p pl hp hlt
          have := hge q2 hq2
          linarith
        have hne : pl.eval p ≠ 0 := fun h0 => hb ((side_bnd_iff pl p).mpr h0)
        exact (side_pos_iff pl p).mpr (lt_of_le_of_ne (not_lt.mp hnp) (Ne.symm hne))
      rw [hpside]
      rcases lt_or_eq_of_le hq1 with h | h
      · simp [(side_pos_iff pl q).mpr h]
      · simp [(side_bnd_iff pl q).mpr h.symm]

theorem find_divider_found (v : List Polyhedron_3) (cands : List Plane_3) (st0 : Search)
    (h0 : st0.found = false) (hf : (find_divider v cands st0).found = true) :
    (find_divider v cands st0).left = group_left (find_divider v cands st0).plane v ∧
    (find_divider v cands st0).right = group_right (find_divider v cands st0).plane v ∧
    (find_divider v cands st0).polys = group_polys (find_divider v cands st0).plane v ∧
    (find_divider v cands st0).plane ∈ cands ∧
    qualifies (find_divider v cands st0).plane v = true := by
  induction cands generalizing st0 with
  | nil => simp [find_divider, h0] at hf
  | cons c cs ih =>
    simp only [find_divider] at hf ⊢
    by_cases hq : qualifies c v = true
    · simp [hq]
    · simp only [hq] at hf ⊢
      obtain ⟨h1, h2, h3, h4, h5⟩ := ih _ rfl hf
      exact ⟨h1, h2, h3, List.mem_cons_of_mem _ h4, h5⟩

theorem find_divider_not_found (v : List Polyhedron_3) (cands : List Plane_3) (st0 : Search)
    (hf : (find_divider v cands st0).found = false) :
    (find_divider v cands st0).plane = st0.plane := by
  induction cands generalizing st0 with
  | nil => simp [find_divider]
  | cons c cs ih =>
    simp only [find_divider] at hf ⊢
    by_cases hq : qualifies c v = true
    · simp [hq] at hf
    · simp only [hq] at hf ⊢
      exact ih _ hf

theorem default_plane_side (p : Point_3) :
    Plane_3.default.oriented_side p = Oriented_side.ON_ORIENTED_BOUNDARY := by
  simp [Plane_3.default, Plane_3.oriented_side, Plane_3.eval]

theorem locate_node_set_parent (b : Bool) (n : Node) (p : Point_3) :
    locate_node (n.set_parent b) p = locate_node n p := by
  cases n <;> rfl

theorem reaches_leaf_set_parent (b : Bool) (n : Node) (p : Point_3) :
    (n.set_parent b).reaches_leaf p = n.reaches_leaf p := by
  cases n <;> rfl

theorem leaves_set_parent (b : Bool) (n : Node) : (n.set_parent b).leaves = n.leaves := by
  cases n <;> rfl

theorem locate_pair (a b : Polyhedron_3) (t : Node) (k : Polyhedron_3) (p : Point_3)
    (hb : split a b = Except.ok t) (ha : a.Supporting) (hbs : b.Supporting)
    (hk : k = a ∨ k = b) (hp : k.Interior p) (hd : t.reaches_leaf p = true) :
    locate_node t p = some k := by
  obtain ⟨x, y, pl, polys, rfl, hxy, hx, hy, _⟩ := split_sides a b t hb ha hbs
  have hks : k.Supporting := by
    rcases hk with rfl | rfl
    · exact ha
    · exact hbs
  have hin := interior_contains k p hks hp
  have hkxy : k = x ∨ k = y := by
    rcases hxy with ⟨rfl, rfl⟩ | ⟨rfl, rfl⟩
    · exact hk
    · exact hk.symm
  simp only [Node.reaches_leaf] at hd
  simp only [locate_node]
  cases hside : pl.oriented_side p with
  | ON_NEGATIVE_SIDE =>
    obtain ⟨q, hq, hlt⟩ := interior_neg_vertex k p pl hp ((side_neg_iff pl p).mp hside)
    have hkx : k = x := by
      rcases hkxy with h | h
      · exact h
      · subst h
        have := hy q hq
        linarith
    subst hkx
    simp [locate_node, hin]
  | ON_ORIENTED_BOUNDARY => simp [hside] at hd
  | ON_POSITIVE_SIDE =>
    obtain ⟨q, hq, hgt⟩ := interior_pos_vertex k p pl hp ((side_pos_iff pl p).mp hside)
    have hky : k = y := by
      rcases hkxy with h | h
      · subst h
        have := hx q hq
        linarith
      · exact h
    subst hky
    simp [locate_node, hin]

theorem locate_interior_fuel (fuel : Nat) (v : List Polyhedron_3) (t : Node) (k : Polyhedron_3)
    (p : Point_3) (hb : create_node fuel v = Except.ok (some t))
    (hsup : ∀ s ∈ v, s.Supporting) (hk : k ∈ v) (hp : k.Interior p)
    (hd : t.reaches_leaf p = true) : locate_node t p = some k := by
  induction fuel generalizing v t with
  | zero =>
    match v, hb, hsup, hk with
    | [], hb, _, _ => simp [create_node] at hb
    | [a], hb, hsup, hk =>
      simp only [create_node, Except.ok.injEq, Option.some.injEq] at hb
      subst hb
      simp only [List.mem_singleton] at hk
      subst hk
      simp [locate_node, interior_contains k p (hsup k (by simp)) hp]
    | [a, b], hb, hsup, hk =>
      simp only [create_node] at hb
      cases hs : split a b with
      | error e => simp [hs] at hb
      | ok n =>
        simp only [hs, Except.ok.injEq, Option.some.injEq] at hb
        subst hb
        exact locate_pair a b n k p hs (hsup a (by simp)) (hsup b (by simp)) (by simpa using hk)
          hp hd
    | _ :: _ :: _ :: _, hb, _, _ => simp [create_node] at hb
  | succ fuel ih =>
    match v, hb, hsup, hk with
    | [], hb, _, _ => simp [create_node] at hb
    | [a], hb, hsup, hk =>
      simp only [create_node, Except.ok.injEq, Option.some.injEq] at hb
      subst hb
      simp only [List.mem_singleton] at hk
      subst hk
      simp [locate_node, interior_contains k p (hsup k (by simp)) hp]
    | [a, b], hb, hsup, hk =>
      simp only [create_node] at hb
      cases hs : split a b with
      | error e => simp [hs] at hb
      | ok n =>
        simp only [hs, Except.ok.injEq, Option.some.injEq] at hb
        subst hb
        exact locate_pair a b n k p hs (hsup a (by simp)) (hsup b (by simp)) (by simpa using hk)
          hp hd
    | a :: b :: c :: rest, hb, hsup, hk =>
      simp only [create_node] at hb
      generalize hst : find_divider (a :: b :: c :: rest) (candidates (a :: b :: c :: rest))
        Search.init = st at hb
      cases hl : create_node fuel st.left with
      | error e => simp [hl] at hb
      | ok nl =>
        cases hr : create_node fuel st.right with
        | error e => simp [hl, hr] at hb
        | ok nr =>
          simp only [hl, hr] at hb
          match nl, nr, hl, hr, hb with
          | none, _, _, _, hb => simp at hb
          | some l, none, _, _, hb => simp at hb
          | some l, some r, hl, hr, hb =>
            simp only [Except.ok.injEq, Option.some.injEq] at hb
            subst hb
            simp only [Node.reaches_leaf] at hd
            simp only [locate_node]
            have hfound : st.found = true := by
              by_contra hnf
              have hnf2 : st.found = false := by simpa using hnf
              rw [← hst] at hnf2
              have hpl := find_divider_not_found _ _ _ hnf2
              rw [hst] at hpl
              have hside : st.plane.oriented_side p = Oriented_side.ON_ORIENTED_BOUNDARY := by
                rw [hpl]; exact default_plane_side p
              simp [hside] at hd
            have hgroups := find_divider_found (a :: b :: c :: rest)
              (candidates (a :: b :: c :: rest)) Search.init rfl (by rw [hst]; exact hfound)
            rw [hst] at hgroups
            obtain ⟨hleft, hright, _, _, _⟩ := hgroups
            cases hside : st.plane.oriented_side p with
            | ON_NEGATIVE_SIDE =>
              simp only [hside, reaches_leaf_set_parent, locate_node_set_parent] at hd ⊢
              apply ih st.left l hl _ _ hd
              · intro s hs
                rw [hleft, group_left, List.mem_filter] at hs
                exact hsup s hs.1
              · rw [hleft, group_left, List.mem_filter]
                refine ⟨hk, ?_⟩
                have := (flag_neg_iff st.plane k).mpr
                  (interior_neg_vertex k p st.plane hp ((side_neg_iff _ p).mp hside))
                simpa using this
            | ON_ORIENTED_BOUNDARY => simp [hside] at hd
            | ON_POSITIVE_SIDE =>
              simp only [hside, reaches_leaf_set_parent, locate_node_set_parent] at hd ⊢
              apply ih st.right r hr _ _ hd
              · intro s hs
                rw [hright, group_right, List.mem_filter] at hs
                exact hsup s hs.1
              · rw [hright, group_right, List.mem_filter]
                refine ⟨hk, ?_⟩
                have := (flag_pos_iff st.plane k).mpr
                  (interior_pos_vertex k p st.plane hp ((side_pos_iff _ p).mp hside))
                simpa using this

/-! ### Convex combinations, splitter, locator, inserter, remover -/

theorem wsum_le_zero (w es : List ℚ) (hw : ∀ a ∈ w, 0 ≤ a) (he : ∀ e ∈ es, e ≤ 0) :
    wsum w es ≤ 0 := by
  induction w generalizing es with
  | nil => simp [wsum]
  | cons a w ih =>
    cases es with
    | nil => simp [wsum]
    | cons e es =>
      simp only [wsum]
      have h1 : 0 ≤ a := hw a (by simp)
      have h2 : e ≤ 0 := he e (by simp)
      have h3 := ih es (fun x hx => hw x (by simp [hx])) (fun x hx => he x (by simp [hx]))
      nlinarith

theorem wsum_ge (w es : List ℚ) (m : ℚ) (hl : w.length = es.length) (hw : ∀ a ∈ w, 0 ≤ a)
    (he : ∀ e ∈ es, m ≤ e) : m * w.sum ≤ wsum w es := by
  induction w generalizing es with
  | nil => simp [wsum]
  | cons a w ih =>
    cases es with
    | nil => simp at hl
    | cons e es =>
      simp only [wsum, List.sum_cons]
      have h1 : 0 ≤ a := hw a (by simp)
      have h2 : m ≤ e := he e (by simp)
      have h3 := ih es (by simpa using hl) (fun x hx => hw x (by simp [hx]))
        (fun x hx => he x (by simp [hx]))
      nlinarith

theorem disjoint_of_separated (a b : Polyhedron_3) (pl : Plane_3)
    (ha : ∀ q ∈ a.points, pl.eval q ≤ 0) (hb : ∀ q ∈ b.points, 1 ≤ pl.eval q) :
    a.DisjointFrom b := by
  rintro p ⟨⟨w, hl, hw, hs, hp⟩, ⟨w2, hl2, hw2, hs2, hp2⟩⟩
  have e1 : pl.eval p = wsum w (a.points.map pl.eval) := by
    rw [hp]; exact eval_interior pl a w hl hs
  have e2 : pl.eval p = wsum w2 (b.points.map pl.eval) := by
    rw [hp2]; exact eval_interior pl b w2 hl2 hs2
  have h1 : wsum w (a.points.map pl.eval) ≤ 0 := by
    apply wsum_le_zero w _ hw
    intro e he
    obtain ⟨q, hq, rfl⟩ := List.mem_map.mp he
    exact ha q hq
  have h2 : 1 * w2.sum ≤ wsum w2 (b.points.map pl.eval) := by
    apply wsum_ge w2 _ 1 (by simpa using hl2) hw2
    intro e he
    obtain ⟨q, hq, rfl⟩ := List.mem_map.mp he
    exact hb q hq
  rw [hs2] at h2
  linarith

theorem find_first_sorted (polys : List Polyhedron_3) (f : Polyhedron_3 → Bool)
    (hs : polys.Pairwise fun a b => a.id < b.id) (s : Polyhedron_3) :
    polys.find? f = some s ↔ s ∈ polys ∧ f s = true ∧ ∀ q ∈ polys, q.id < s.id → f q = false := by
  induction polys with
  | nil => simp
  | cons x xs ih =>
    rw [List.pairwise_cons] at hs
    by_cases hx : f x = true
    · rw [List.find?_cons_of_pos _ hx]
      constructor
      · intro h
        have hxs : x = s := by simpa using h
        subst hxs
        refine ⟨List.mem_cons_self _ _, hx, ?_⟩
        intro q hq hlt
        rcases List.mem_cons.mp hq with rfl | hq
        · exact absurd hlt (lt_irrefl _)
        · exact absurd hlt (not_lt.mpr (le_of_lt (hs.1 q hq)))
      · rintro ⟨hmem, hfs, hall⟩
        rcases List.mem_cons.mp hmem with rfl | hmem
        · rfl
        · have := hall x (List.mem_cons_self _ _) (hs.1 s hmem)
          rw [hx] at this
          exact absurd this (by simp)
    · have hx2 : f x = false := by simpa using hx
      rw [List.find?_cons_of_neg _ hx, ih hs.2]
      constructor
      · rintro ⟨hmem, hfs, hall⟩
        refine ⟨List.mem_cons_of_mem _ hmem, hfs, ?_⟩
        intro q hq hlt
        rcases List.mem_cons.mp hq with rfl | hq
        · exact hx2
        · exact hall q hq hlt
      · rintro ⟨hmem, hfs, hall⟩
        rcases List.mem_cons.mp hmem with rfl | hmem
        · rw [hx2] at hfs
          exact absurd hfs (by simp)
        · exact ⟨hmem, hfs, fun q hq hlt => hall q (List.mem_cons_of_mem _ hq) hlt⟩

theorem locate_node_contains (n : Node) (p : Point_3) (s : Polyhedron_3)
    (h : locate_node n p = some s) : point_in_polyhedron s p = true := by
  induction n with
  | LeafNode poly =>
    simp only [locate_node] at h
    split_ifs at h with hc
    have : poly = s := by simpa using h
    subst this
    exact hc
  | InternalNode l r pl polys par ihl ihr =>
    simp only [locate_node] at h
    cases hside : pl.oriented_side p with
    | ON_NEGATIVE_SIDE => rw [hside] at h; exact ihl h
    | ON_POSITIVE_SIDE => rw [hside] at h; exact ihr h
    | ON_ORIENTED_BOUNDARY =>
      rw [hside] at h
      have h2 : polys.find? (fun poly => point_in_polyhedron poly p) = some s := h
      have h3 := List.find?_some h2
      exact h3

theorem set_insert_pair (x y s : Polyhedron_3) (h : s ∈ set_insert x [y]) : s = x ∨ s = y := by
  simp only [set_insert] at h
  split_ifs at h <;> simp at h <;> tauto

theorem split_loop1_cons_cases (a b : Polyhedron_3) (it : Plane_3) (rest : List Plane_3) :
    (∃ n, split_loop1 a b (it :: rest) = some n) ∨
      split_loop1 a b (it :: rest) = split_loop1 a b rest := by
  simp only [split_loop1]
  split_ifs <;> simp

theorem split_loop2_cons_cases (a b : Polyhedron_3) (it : Plane_3) (rest : List Plane_3) :
    (∃ n, split_loop2 a b (it :: rest) = some n) ∨
      split_loop2 a b (it :: rest) = split_loop2 a b rest := by
  simp only [split_loop2]
  split_ifs <;> simp

theorem split_loop1_head (a b : Polyhedron_3) (it : Plane_3) (rest : List Plane_3)
    (hskip : split_skip (oriented_side it a) (oriented_side it b) = false)
    (hside : oriented_side it b = ON_NEGATIVE_SIDE + ON_ORIENTED_BOUNDARY ∨
      oriented_side it b = ON_NEGATIVE_SIDE ∨
      oriented_side it b = ON_POSITIVE_SIDE + ON_ORIENTED_BOUNDARY ∨
      oriented_side it b = ON_POSITIVE_SIDE) :
    ∃ n, split_loop1 a b (it :: rest) = some n := by
  simp only [split_loop1, hskip, Bool.false_eq_true, if_false]
  split_ifs with h1 h2 h3 h4
  · exact ⟨_, rfl⟩
  · exact ⟨_, rfl⟩
  · exact ⟨_, rfl⟩
  · exact ⟨_, rfl⟩
  · rcases hside with h | h | h | h <;> contradiction

theorem split_loop2_head (a b : Polyhedron_3) (it : Plane_3) (rest : List Plane_3)
    (hskip : split_skip (oriented_side it b) (oriented_side it a) = false)
    (hside : oriented_side it a = ON_NEGATIVE_SIDE + ON_ORIENTED_BOUNDARY ∨
      oriented_side it a = ON_NEGATIVE_SIDE ∨
      oriented_side it a = ON_POSITIVE_SIDE + ON_ORIENTED_BOUNDARY ∨
      oriented_side it a = ON_POSITIVE_SIDE) :
    ∃ n, split_loop2 a b (it :: rest) = some n := by
  simp only [split_loop2, hskip, Bool.false_eq_true, if_false]
  split_ifs with h1 h2 h3 h4
  · exact ⟨_, rfl⟩
  · exact ⟨_, rfl⟩
  · exact ⟨_, rfl⟩
  · exact ⟨_, rfl⟩
  · rcases hside with h | h | h | h <;> contradiction

theorem separates_flags (n b p n2 b2 p2 : Bool)
    (h : (n = true ∧ p = false ∧ n2 = false ∧ p2 = true) ∨
      (n = false ∧ p = true ∧ n2 = true ∧ p2 = false)) :
    split_skip (flags3 n b p) (flags3 n2 b2 p2) = false ∧
      (flags3 n2 b2 p2 = ON_NEGATIVE_SIDE + ON_ORIENTED_BOUNDARY ∨
      flags3 n2 b2 p2 = ON_NEGATIVE_SIDE ∨
      flags3 n2 b2 p2 = ON_POSITIVE_SIDE + ON_ORIENTED_BOUNDARY ∨
      flags3 n2 b2 p2 = ON_POSITIVE_SIDE) := by
  revert n b p n2 b2 p2; decide

theorem face_separates_sides (pl : Plane_3) (own oth : Polyhedron_3)
    (h : face_separates pl own oth) :
    split_skip (oriented_side pl own) (oriented_side pl oth) = false ∧
      (oriented_side pl oth = ON_NEGATIVE_SIDE + ON_ORIENTED_BOUNDARY ∨
      oriented_side pl oth = ON_NEGATIVE_SIDE ∨
      oriented_side pl oth = ON_POSITIVE_SIDE + ON_ORIENTED_BOUNDARY ∨
      oriented_side pl oth = ON_POSITIVE_SIDE) := by
  rw [oriented_side_eq_flags pl own, oriented_side_eq_flags pl oth]
  apply separates_flags
  rcases h with ⟨h1, h2, h3, h4⟩ | ⟨h1, h2, h3, h4⟩
  · exact Or.inl ⟨(any_side_neg _ _).mpr h2, (any_side_pos_false _ _).mpr h1,
      (any_side_neg_false _ _).mpr h3, (any_side_pos _ _).mpr h4⟩
  · exact Or.inr ⟨(any_side_neg_false _ _).mpr h1, (any_side_pos _ _).mpr h2,
      (any_side_neg _ _).mpr h4, (any_side_pos_false _ _).mpr h3⟩

theorem split_loop1_returns (a b : Polyhedron_3) (planes : List Plane_3) (pl : Plane_3)
    (hm : pl ∈ planes) (hsep : face_separates pl a b) :
    ∃ n, split_loop1 a b planes = some n := by
  induction planes with
  | nil => simp at hm
  | cons it rest ih =>
    rcases List.mem_cons.mp hm with rfl | hm
    · obtain ⟨h1, h2⟩ := face_separates_sides pl a b hsep
      exact split_loop1_head a b pl rest h1 h2
    · rcases split_loop1_cons_cases a b it rest with h | h
      · exact h
      · rw [h]; exact ih hm

theorem split_loop2_returns (a b : Polyhedron_3) (planes : List Plane_3) (pl : Plane_3)
    (hm : pl ∈ planes) (hsep : face_separates pl b a) :
    ∃ n, split_loop2 a b planes = some n := by
  induction planes with
  | nil => simp at hm
  | cons it rest ih =>
    rcases List.mem_cons.mp hm with rfl | hm
    · obtain ⟨h1, h2⟩ := face_separates_sides pl b a hsep
      exact split_loop2_head a b pl rest h1 h2
    · rcases split_loop2_cons_cases a b it rest with h | h
      · exact h
      · rw [h]; exact ih hm

theorem wsum_neg_of (w es : List ℚ) (hl : w.length = es.length) (hw : ∀ a ∈ w, 0 < a)
    (he : ∀ e ∈ es, e ≤ 0) (hx : ∃ e ∈ es, e < 0) : wsum w es < 0 := by
  have h1 := wsum_nonpos w es hw he
  rcases lt_or_eq_of_le h1 with h | h
  · exact h
  · obtain ⟨e, hm, hlt⟩ := hx
    have := wsum_zero_all w es hl hw he h e hm
    linarith

theorem interior_strict_neg (e : Polyhedron_3) (x : Point_3) (pl : Plane_3) (hx : e.Interior x)
    (hall : ∀ q ∈ e.points, pl.eval q ≤ 0) (hex : ∃ q ∈ e.points, pl.eval q < 0) :
    pl.eval x < 0 := by
  obtain ⟨w, hl, hw, hs, rfl⟩ := hx
  rw [eval_interior pl e w hl hs]
  apply wsum_neg_of w _ (by simpa using hl) hw
  · intro v hv
    obtain ⟨q, hq, rfl⟩ := List.mem_map.mp hv
    exact hall q hq
  · obtain ⟨q, hq, hlt⟩ := hex
    exact ⟨pl.eval q, List.mem_map.mpr ⟨q, hq, rfl⟩, hlt⟩

theorem interior_strict_pos (e : Polyhedron_3) (x : Point_3) (pl : Plane_3) (hx : e.Interior x)
    (hall : ∀ q ∈ e.points, 0 ≤ pl.eval q) (hex : ∃ q ∈ e.points, 0 < pl.eval q) :
    0 < pl.eval x := by
  obtain ⟨w, hl, hw, hs, rfl⟩ := hx
  rw [eval_interior pl e w hl hs]
  have h := wsum_neg_of w ((e.points.map pl.eval).map fun v => -v) (by simpa using hl) hw
    (by
      intro v hv
      obtain ⟨v2, hv2, rfl⟩ := List.mem_map.mp hv
      obtain ⟨q, hq, rfl⟩ := List.mem_map.mp hv2
      have := hall q hq
      linarith)
    (by
      obtain ⟨q, hq, hlt⟩ := hex
      exact ⟨-pl.eval q, List.mem_map.mpr ⟨pl.eval q, List.mem_map.mpr ⟨q, hq, rfl⟩, rfl⟩,
        by linarith⟩)
  rw [wsum_neg] at h
  linarith

theorem split_error_kind (a b : Polyhedron_3) (e : Fault) (h : split a b = Except.error e) :
    e = Fault.intersecting := by
  unfold split at h
  cases h1 : split_loop1 a b a.planes with
  | some m => simp [h1] at h
  | none =>
    cases h2 : split_loop2 a b b.planes with
    | some m => simp [h1, h2] at h
    | none =>
      simp only [h1, h2, Except.error.injEq] at h
      exact h.symm

theorem insert_node_error_kind (lf : Bool) (n : Node) (s : Polyhedron_3) (e : Fault)
    (h : (insert_node lf n s).2 = Except.error e) : e = Fault.intersecting := by
  induction n generalizing e with
  | LeafNode lp =>
    simp only [insert_node] at h
    cases hs : split s lp with
    | ok m => simp [hs] at h
    | error f =>
      simp only [hs, Except.error.injEq] at h
      rw [← h]
      exact split_error_kind s lp f hs
  | InternalNode l r pl polys par ihl ihr =>
    simp only [insert_node] at h
    rcases hl : insert_node lf l s with ⟨l2, resl⟩
    rcases hr : insert_node lf r s with ⟨r2, resr⟩
    rw [hl] at ihl
    rw [hr] at ihr
    simp only [hl, hr] at h
    cases resl with
    | error f =>
      have h1 := ihl f rfl
      subst h1
      cases resr with
      | error g =>
        have h2 := ihr g rfl
        subst h2
        clear ihl ihr
        split_ifs at h <;> simp at h <;> exact h.symm
      | ok b2 =>
        clear ihl ihr
        split_ifs at h <;> simp at h <;> exact h.symm
    | ok b1 =>
      cases resr with
      | error g =>
        have h2 := ihr g rfl
        subst h2
        clear ihl ihr
        split_ifs at h <;> simp at h <;> exact h.symm
      | ok b2 =>
        split_ifs at h

theorem insert_internal_shape (lf : Bool) (l r : Node) (pl : Plane_3) (polys : List Polyhedron_3)
    (par : Bool) (s : Polyhedron_3) :
    ∃ l2 r2, (insert_node lf (Node.InternalNode l r pl polys par) s).1 = Node.InternalNode l2 r2 pl polys par ∧
      (l2 = l ∨ l2 = (insert_node lf l s).1) ∧ (r2 = r ∨ r2 = (insert_node lf r s).1) := by
  simp only [insert_node]
  rcases hl : insert_node lf l s with ⟨l2, resl⟩
  rcases hr : insert_node lf r s with ⟨r2, resr⟩
  cases resl <;> cases resr <;> split_ifs <;> simp <;>
    (refine ⟨_, _, ⟨rfl, rfl⟩, ?_, ?_⟩ <;> simp)

theorem insert_node_adds (lf : Bool) (n : Node) (s x : Polyhedron_3)
    (hx : x ∈ (insert_node lf n s).1.leaves) : x ∈ n.leaves ∨ x = s := by
  induction n with
  | LeafNode lp =>
    simp only [insert_node] at hx
    cases hs : split s lp with
    | error e =>
      simp only [hs] at hx
      exact Or.inl hx
    | ok m =>
      obtain ⟨own, oth, pl, hwho, _, _, hres⟩ := split_ok_shape s lp m hs
      simp only [hs] at hx
      rcases hres with ⟨_, rfl⟩ | ⟨_, rfl⟩ | ⟨_, rfl⟩ | ⟨_, rfl⟩ <;>
        rcases hwho with ⟨rfl, rfl⟩ | ⟨rfl, rfl⟩ <;>
        simp [Node.leaves] at hx ⊢ <;> tauto
  | InternalNode l r pl polys par ihl ihr =>
    obtain ⟨l2, r2, heq, hl2, hr2⟩ := insert_internal_shape lf l r pl polys par s
    rw [heq] at hx
    simp only [Node.leaves, List.mem_append] at hx ⊢
    rcases hx with hx | hx
    · rcases hl2 with rfl | rfl
      · exact Or.inl (Or.inl hx)
      · rcases ihl hx with h | h
        · exact Or.inl (Or.inl h)
        · exact Or.inr h
    · rcases hr2 with rfl | rfl
      · exact Or.inl (Or.inr hx)
      · rcases ihr hx with h | h
        · exact Or.inl (Or.inr h)
        · exact Or.inr h

theorem set_insert_mem (x z : Polyhedron_3) (s : List Polyhedron_3) (h : z ∈ set_insert x s) :
    z = x ∨ z ∈ s := by
  induction s with
  | nil => simpa [set_insert] using h
  | cons y ys ih =>
    simp only [set_insert] at h
    split_ifs at h with h1 h2
    · rcases List.mem_cons.mp h with h | h
      · exact Or.inl h
      · exact Or.inr h
    · rcases List.mem_cons.mp h with h | h
      · exact Or.inr (by simp [h])
      · rcases ih h with h | h
        · exact Or.inl h
        · exact Or.inr (List.mem_cons_of_mem _ h)
    · exact Or.inr h

theorem set_insert_sorted (x : Polyhedron_3) (s : List Polyhedron_3)
    (hs : s.Pairwise fun a b => a.id < b.id) :
    (set_insert x s).Pairwise fun a b => a.id < b.id := by
  induction s with
  | nil => simp [set_insert]
  | cons y ys ih =>
    rw [List.pairwise_cons] at hs
    simp only [set_insert]
    split_ifs with h1 h2
    · rw [List.pairwise_cons]
      refine ⟨?_, List.pairwise_cons.mpr hs⟩
      intro z hz
      rcases List.mem_cons.mp hz with rfl | hz
      · exact h1
      · exact lt_trans h1 (hs.1 z hz)
    · rw [List.pairwise_cons]
      refine ⟨?_, ih hs.2⟩
      intro z hz
      rcases set_insert_mem x z ys hz with rfl | hz
      · exact h2
      · exact hs.1 z hz
    · exact List.pairwise_cons.mpr hs

theorem set_of_list_sorted (v : List Polyhedron_3) :
    (set_of_list v).Pairwise fun a b => a.id < b.id := by
  unfold set_of_list
  have key : ∀ (acc : List Polyhedron_3), (acc.Pairwise fun a b => a.id < b.id) →
      (v.foldl (fun s x => set_insert x s) acc).Pairwise fun a b => a.id < b.id := by
    induction v with
    | nil => intro acc h; simpa using h
    | cons x xs ih =>
      intro acc h
      simp only [List.foldl_cons]
      exact ih _ (set_insert_sorted x acc h)
  exact key [] List.Pairwise.nil

theorem set_erase_sorted (x : Polyhedron_3) (s : List Polyhedron_3)
    (hs : s.Pairwise fun a b => a.id < b.id) :
    (set_erase x s).Pairwise fun a b => a.id < b.id :=
  List.Pairwise.filter _ hs

theorem sets_sorted_set_parent (b : Bool) (n : Node) (h : n.sets_sorted) :
    (n.set_parent b).sets_sorted := by
  cases n with
  | LeafNode lp => trivial
  | InternalNode l r pl polys par => exact h

theorem split_sets_sorted (a b : Polyhedron_3) (n : Node) (h : split a b = Except.ok n) :
    n.sets_sorted := by
  obtain ⟨own, oth, pl, _, _, _, hres⟩ := split_ok_shape a b n h
  have h1 : ([own] : List Polyhedron_3).Pairwise fun a b => a.id < b.id := by simp
  have h2 := set_insert_sorted oth [own] h1
  rcases hres with ⟨_, rfl⟩ | ⟨_, rfl⟩ | ⟨_, rfl⟩ | ⟨_, rfl⟩ <;>
    simp only [Node.sets_sorted, and_true] <;> assumption

theorem create_node_sets_sorted (fuel : Nat) (v : List Polyhedron_3) (n : Node)
    (h : create_node fuel v = Except.ok (some n)) : n.sets_sorted := by
  induction fuel generalizing v n with
  | zero =>
    match v, h with
    | [], h => simp [create_node] at h
    | [a], h =>
      simp only [create_node, Except.ok.injEq, Option.some.injEq] at h
      subst h; trivial
    | [a, b], h =>
      simp only [create_node] at h
      cases hs : split a b with
      | error e => simp [hs] at h
      | ok m =>
        simp only [hs, Except.ok.injEq, Option.some.injEq] at h
        subst h
        exact split_sets_sorted a b m hs
    | _ :: _ :: _ :: _, h => simp [create_node] at h
  | succ fuel ih =>
    match v, h with
    | [], h => simp [create_node] at h
    | [a], h =>
      simp only [create_node, Except.ok.injEq, Option.some.injEq] at h
      subst h; trivial
    | [a, b], h =>
      simp only [create_node] at h
      cases hs : split a b with
      | error e => simp [hs] at h
      | ok m =>
        simp only [hs, Except.ok.injEq, Option.some.injEq] at h
        subst h
        exact split_sets_sorted a b m hs
    | a :: b :: c :: rest, h =>
      simp only [create_node] at h
      generalize find_divider (a :: b :: c :: rest) (candidates (a :: b :: c :: rest))
        Search.init = st at h
      cases hl : create_node fuel st.left with
      | error e => simp [hl] at h
      | ok nl =>
        cases hr : create_node fuel st.right with
        | error e => simp [hl, hr] at h
        | ok nr =>
          simp only [hl, hr] at h
          match nl, nr, hl, hr, h with
          | none, _, _, _, h => simp at h
          | some l, none, _, _, h => simp at h
          | some l, some r, hl, hr, h =>
            simp only [Except.ok.injEq, Option.some.injEq] at h
            subst h
            exact ⟨set_of_list_sorted st.polys, sets_sorted_set_parent true l (ih st.left l hl),
              sets_sorted_set_parent true r (ih st.right r hr)⟩

/-! ### Fuel -/

/-- More fuel does not change a result of `create_node` other than running out
of fuel. -/
theorem create_node_fuel_succ (fuel : Nat) (v : List Polyhedron_3)
    (r : Except Fault (Option Node)) (h : create_node fuel v = r)
    (hr : r ≠ Except.error Fault.diverges) : create_node (fuel + 1) v = r := by
  induction fuel generalizing v r with
  | zero =>
    match v, h with
    | [], h => simpa [create_node] using h
    | [a], h => simpa [create_node] using h
    | [a, b], h => simpa [create_node] using h
    | _ :: _ :: _ :: _, h =>
      simp only [create_node] at h
      exact absurd h.symm hr
  | succ fuel ih =>
    match v, h with
    | [], h => simpa [create_node] using h
    | [a], h => simpa [create_node] using h
    | [a, b], h => simpa [create_node] using h
    | a :: b :: c :: rest, h =>
      rw [create_node] at h ⊢
      generalize find_divider (a :: b :: c :: rest) (candidates (a :: b :: c :: rest))
        Search.init = st at h ⊢
      cases hl : create_node fuel st.left with
      | error e =>
        rw [hl] at h
        simp only at h
        have he : (Except.error e : Except Fault (Option Node)) ≠ Except.error Fault.diverges := by
          rw [h]; exact hr
        rw [ih st.left _ hl he]
        exact h
      | ok nl =>
        rw [hl] at h
        simp only at h
        rw [ih st.left _ hl (by simp)]
        simp only
        cases hrr : create_node fuel st.right with
        | error e =>
          rw [hrr] at h
          simp only at h
          have he : (Except.error e : Except Fault (Option Node)) ≠ Except.error Fault.diverges := by
            rw [h]; exact hr
          rw [ih st.right _ hrr he]
          exact h
        | ok nr =>
          rw [hrr] at h
          rw [ih st.right _ hrr (by simp)]
          exact h

/-! ### The claims -/

/-- C1, counterexample: three pairwise disjoint convex boxes.  The divider
`x = 1` of the root is a face plane of the first box; the third box spans it
without a vertex on it, so it is in both groups and not in the boundary set,
and `locate` at its centre, a point of that plane, misses. -/
theorem locate_misses_spanning_solid :
    List.Pairwise Polyhedron_3.DisjointFrom [cube000, cube200, cube_far] ∧
      (∀ s ∈ [cube000, cube200, cube_far], s.Convex) ∧
      cube_far.Interior ⟨1, 11/2, 1/2⟩ ∧
      ∃ t, BSPTree.build [cube000, cube200, cube_far] = Except.ok t ∧
        t.locate ⟨1, 11/2, 1/2⟩ = none := by
  refine ⟨?_, by decide!, ⟨[1/8, 1/8, 1/8, 1/8, 1/8, 1/8, 1/8, 1/8], by decide!⟩,
    built [cube000, cube200, cube_far], by decide!, by decide!⟩
  simp only [List.pairwise_cons, List.mem_cons, List.mem_singleton, forall_eq_or_imp, forall_eq,
    List.not_mem_nil, false_implies, implies_true, List.Pairwise.nil, and_true]
  exact ⟨⟨disjoint_of_separated cube000 cube200 ⟨1, 0, 0, -1⟩ (by decide!) (by decide!),
    disjoint_of_separated cube000 cube_far ⟨0, 1, 0, -1⟩ (by decide!) (by decide!)⟩,
    disjoint_of_separated cube200 cube_far ⟨0, 1, 0, -1⟩ (by decide!) (by decide!)⟩

/-- C2: `locate` misses on the empty tree; at a Leaf it returns the solid of the
Leaf exactly when `point_in_polyhedron` holds; at an Internal node it continues
in the left child for a point on the negative side and in the right child for
a point on the positive side; for a point on the plane it returns the member of
the boundary set (ascending in the identity) that contains the point and has
the least identity of those, and misses exactly when no member contains the
point.  Every solid that `locate` returns contains the point. -/
theorem locate_descent (p : Point_3) :
    BSPTree.locate ⟨none⟩ p = none ∧
    (∀ s, BSPTree.locate ⟨some (Node.LeafNode s)⟩ p
        = if point_in_polyhedron s p then some s else none) ∧
    (∀ l r pl polys par, pl.oriented_side p = Oriented_side.ON_NEGATIVE_SIDE →
        BSPTree.locate ⟨some (Node.InternalNode l r pl polys par)⟩ p = BSPTree.locate ⟨some l⟩ p) ∧
    (∀ l r pl polys par, pl.oriented_side p = Oriented_side.ON_POSITIVE_SIDE →
        BSPTree.locate ⟨some (Node.InternalNode l r pl polys par)⟩ p = BSPTree.locate ⟨some r⟩ p) ∧
    (∀ l r pl polys par, pl.oriented_side p = Oriented_side.ON_ORIENTED_BOUNDARY →
        (polys.Pairwise fun a b => a.id < b.id) →
        (∀ s, BSPTree.locate ⟨some (Node.InternalNode l r pl polys par)⟩ p = some s ↔
          s ∈ polys ∧ point_in_polyhedron s p = true ∧
            ∀ q ∈ polys, q.id < s.id → point_in_polyhedron q p = false) ∧
        (BSPTree.locate ⟨some (Node.InternalNode l r pl polys par)⟩ p = none ↔
          ∀ q ∈ polys, point_in_polyhedron q p = false)) ∧
    (∀ (t : BSPTree) s, t.locate p = some s → point_in_polyhedron s p = true) := by
  refine ⟨rfl, fun s => rfl, ?_, ?_, ?_, ?_⟩
  · intro l r pl polys par h
    simp [BSPTree.locate, locate_node, h]
  · intro l r pl polys par h
    simp [BSPTree.locate, locate_node, h]
  · intro l r pl polys par h hs
    simp only [BSPTree.locate, locate_node, h]
    refine ⟨fun s => find_first_sorted polys _ hs s, ?_⟩
    simp [List.find?_eq_none]
  · intro t s h
    cases t with
    | mk root =>
      cases root with
      | none => simp [BSPTree.locate] at h
      | some n => exact locate_node_contains n p s h

/-- Witness of C2: on the tree of two adjacent unit cubes the point
`(1, 1/2, 1/2)` of the divider is located in the cube of the lower identity. -/
theorem locate_descent_witness :
    pair_tree.locate ⟨1, 1/2, 1/2⟩ = some cube000 :=
  (((locate_descent ⟨1, 1/2, 1/2⟩).2.2.2.2.1 (Node.LeafNode cube000) (Node.LeafNode cube100)
    ⟨1, 0, 0, -1⟩ [cube000, cube100] false (by decide!) (by decide!)).1 cube000).mpr
    ⟨by decide!, by decide!, by decide!⟩

/-- C3, at the failing input: the tree built from the two unit cubes anchored
at `(0,0,0)` and `(1,0,0)` holds the second cube in the right Leaf of the
root, and `remove` of that cube ends in a memory fault instead of returning
`true` with a tree in which the cube is no longer located.  In the lattice of
8 cubes the cube anchored at the origin is a left Leaf: its removal returns
`true` and its centre is no longer located. -/
theorem remove_right_leaf_faults :
    BSPTree.build [cube000, cube100] = Except.ok pair_tree ∧
      (∀ leftFirst : Bool, pair_tree.remove leftFirst cube100 = Except.error Fault.memory) ∧
      (∀ leftFirst : Bool, ((built lattice).remove leftFirst cube000).toOption.map
        (fun r => (r.1, r.2.locate ⟨1/2, 1/2, 1/2⟩)) = some (true, none)) := by
  decide!

/-- C4, at the failing inputs.  (1) `insert` of the cube anchored at `(1,0,0)`
into the tree holding only the cube anchored at the origin returns `true` and
puts the new cube in the right Leaf of the new root; the following `remove` of
that cube ends in a memory fault.  (2) `insert` of the cube anchored at
`(2,0,0)` into the tree of the two adjacent cubes returns `true` and puts the
new cube in the left Leaf of a subtree whose parent pointer is null; the
following `remove` returns `true` and assigns the sibling Leaf to `root`, so
the cube anchored at the origin is no longer held. -/
theorem insert_then_remove_faults :
    ∀ leftFirst : Bool,
      (BSPTree.insert leftFirst ⟨some (Node.LeafNode cube000)⟩ cube100
          = (pair_tree, Except.ok true) ∧
        pair_tree.remove leftFirst cube100 = Except.error Fault.memory) ∧
      (BSPTree.insert leftFirst pair_tree cube200_new = (grown_tree, Except.ok true) ∧
        grown_tree.remove leftFirst cube200_new
          = Except.ok (true, ⟨some (Node.LeafNode cube100)⟩)) := by
  decide!

/-- C5, at the failing input: on the tree built from the two adjacent unit
cubes, removing the second cube first ends in a memory fault; removing the
first cube first empties the tree. -/
theorem remove_all_order_faults :
    BSPTree.build [cube000, cube100] = Except.ok pair_tree ∧
      (∀ leftFirst : Bool,
        remove_all leftFirst pair_tree [cube100, cube000] = Except.error Fault.memory ∧
        remove_all leftFirst pair_tree [cube000, cube100] = Except.ok ⟨none⟩) := by
  decide!

/-- C6: when `split` returns for two solids whose planes pass through one of
their vertices, the result is an Internal node whose children are two Leaves
holding `a` and `b`, one each, its plane is a plane of `a` or of `b`, and every
member of its boundary set is `a` or `b` and has a vertex on that plane. -/
theorem split_two_leaves (a b : Polyhedron_3) (n : Node) (h : split a b = Except.ok n)
    (ha : a.FacesTouch) (hb : b.FacesTouch) :
    ∃ x y pl polys, n = Node.InternalNode (Node.LeafNode x) (Node.LeafNode y) pl polys false ∧
      ((x = a ∧ y = b) ∨ (x = b ∧ y = a)) ∧ (pl ∈ a.planes ∨ pl ∈ b.planes) ∧
      ∀ s ∈ polys, (s = a ∨ s = b) ∧
        ∃ q ∈ s.points, pl.oriented_side q = Oriented_side.ON_ORIENTED_BOUNDARY := by
  obtain ⟨own, oth, pl, hwho, hpl, _, hres⟩ := split_ok_shape a b n h
  have hown : own.FacesTouch := by
    rcases hwho with ⟨rfl, _⟩ | ⟨rfl, _⟩
    · exact ha
    · exact hb
  have hplab : pl ∈ a.planes ∨ pl ∈ b.planes := by
    rcases hwho with ⟨rfl, _⟩ | ⟨rfl, _⟩
    · exact Or.inl hpl
    · exact Or.inr hpl
  have hownab : own = a ∨ own = b := by
    rcases hwho with ⟨h1, _⟩ | ⟨h1, _⟩
    · exact Or.inl h1
    · exact Or.inr h1
  have hothab : oth = a ∨ oth = b := by
    rcases hwho with ⟨_, h1⟩ | ⟨_, h1⟩
    · exact Or.inr h1
    · exact Or.inl h1
  have hswap : (oth = a ∧ own = b) ∨ (oth = b ∧ own = a) := by
    rcases hwho with ⟨h1, h2⟩ | ⟨h1, h2⟩
    · exact Or.inr ⟨h2, h1⟩
    · exact Or.inl ⟨h2, h1⟩
  have htouch_own : ∃ q ∈ own.points, pl.oriented_side q = Oriented_side.ON_ORIENTED_BOUNDARY := by
    obtain ⟨q, hq, h0⟩ := hown pl hpl
    exact ⟨q, hq, (side_bnd_iff pl q).mpr h0⟩
  have htouch_oth : oriented_side pl oth &&& ON_ORIENTED_BOUNDARY ≠ 0 →
      ∃ q ∈ oth.points, pl.oriented_side q = Oriented_side.ON_ORIENTED_BOUNDARY := by
    intro hz
    obtain ⟨q, hq, h0⟩ := (flag_bnd_iff pl oth).mp hz
    exact ⟨q, hq, (side_bnd_iff pl q).mpr h0⟩
  have hsingle : ∀ s ∈ [own], (s = a ∨ s = b) ∧
      ∃ q ∈ s.points, pl.oriented_side q = Oriented_side.ON_ORIENTED_BOUNDARY := by
    intro s hs
    have : s = own := by simpa using hs
    subst this
    exact ⟨hownab, htouch_own⟩
  have hboth : oriented_side pl oth &&& ON_ORIENTED_BOUNDARY ≠ 0 →
      ∀ s ∈ set_insert oth [own], (s = a ∨ s = b) ∧
      ∃ q ∈ s.points, pl.oriented_side q = Oriented_side.ON_ORIENTED_BOUNDARY := by
    intro hz s hs
    rcases set_insert_pair oth own s hs with rfl | rfl
    · exact ⟨hothab, htouch_oth hz⟩
    · exact ⟨hownab, htouch_own⟩
  rcases hres with ⟨hs, hn⟩ | ⟨hs, hn⟩ | ⟨hs, hn⟩ | ⟨hs, hn⟩
  · exact ⟨oth, own, pl, _, hn, hswap, hplab, hboth (by rw [hs]; decide)⟩
  · exact ⟨oth, own, pl, _, hn, hswap, hplab, hsingle⟩
  · exact ⟨own, oth, pl, _, hn, hwho, hplab, hboth (by rw [hs]; decide)⟩
  · exact ⟨own, oth, pl, _, hn, hwho, hplab, hsingle⟩

/-- Witness of C6: the two adjacent unit cubes. -/
theorem split_two_leaves_witness :
    ∃ x y pl polys,
      Node.InternalNode (Node.LeafNode cube000) (Node.LeafNode cube100) ⟨1, 0, 0, -1⟩
          [cube000, cube100] false
        = Node.InternalNode (Node.LeafNode x) (Node.LeafNode y) pl polys false ∧
      ((x = cube000 ∧ y = cube100) ∨ (x = cube100 ∧ y = cube000)) ∧
      (pl ∈ cube000.planes ∨ pl ∈ cube100.planes) ∧
      ∀ s ∈ polys, (s = cube000 ∨ s = cube100) ∧
        ∃ q ∈ s.points, pl.oriented_side q = Oriented_side.ON_ORIENTED_BOUNDARY :=
  split_two_leaves cube000 cube100 _ (by decide!) (by decide!) (by decide!)

/-- C7 (amended): when some plane of `a` or of `b` has its owner and the other
solid on opposite closed sides, each with a vertex off the plane, `split`
returns a subtree and does not raise; so whenever `split` raises, no plane of
either solid separates the two in this way. -/
theorem split_returns_of_face_separation (a b : Polyhedron_3)
    (h : (∃ pl ∈ a.planes, face_separates pl a b) ∨ (∃ pl ∈ b.planes, face_separates pl b a)) :
    ∃ n, split a b = Except.ok n := by
  unfold split
  cases h1 : split_loop1 a b a.planes with
  | some m => exact ⟨m, rfl⟩
  | none =>
    rcases h with ⟨pl, hm, hsep⟩ | ⟨pl, hm, hsep⟩
    · obtain ⟨n, hn⟩ := split_loop1_returns a b a.planes pl hm hsep
      rw [h1] at hn
      exact absurd hn (by simp)
    · obtain ⟨n, hn⟩ := split_loop2_returns a b b.planes pl hm hsep
      simp only [hn]
      exact ⟨n, rfl⟩

/-- Witness of C7 (amended): the two adjacent unit cubes and the plane `x = 1`
of the first. -/
theorem split_returns_of_face_separation_witness :
    ∃ n, split cube000 cube100 = Except.ok n :=
  split_returns_of_face_separation cube000 cube100
    (Or.inl ⟨⟨1, 0, 0, -1⟩, by decide!, by decide!⟩)

/-- C7, counterexample: two valid convex prisms without a common point (the first
lies in `z <= 0`, the second in `z >= 1`) whose ridges cross at a right angle:
every face plane of either prism has the other prism on the side of its owner
or cut by it, and `split` raises. -/
theorem split_raises_on_disjoint_prisms :
    prism_a.valid = true ∧ prism_b.valid = true ∧ prism_a.Convex ∧ prism_b.Convex ∧
      prism_a.DisjointFrom prism_b ∧
      split prism_a prism_b = Except.error Fault.intersecting :=
  ⟨rfl, rfl, by decide!, by decide!,
    disjoint_of_separated prism_a prism_b ⟨0, 0, 1, 0⟩ (by decide!) (by decide!), by decide!⟩

/-- C9: `insert` of a solid that fails `is_valid` returns `false` and leaves
the tree as it was, whatever the tree and the evaluation order. -/
theorem insert_invalid_rejected (leftFirst : Bool) (t : BSPTree) (poly : Polyhedron_3)
    (h : poly.valid = false) :
    BSPTree.insert leftFirst t poly = (t, Except.ok false) := by
  simp [BSPTree.insert, h]

/-- Witness of C9 on the two-cube tree and an invalid copy of a third cube. -/
theorem insert_invalid_rejected_witness :
    BSPTree.insert true pair_tree { cube 2 ⟨5, 5, 5⟩ 1 1 1 with valid := false }
      = (pair_tree, Except.ok false) :=
  insert_invalid_rejected true pair_tree { cube 2 ⟨5, 5, 5⟩ 1 1 1 with valid := false } rfl

theorem side_step_flags (pl : Plane_3) (n b p : Bool) (q : Point_3) :
    side_step pl (flags3 n b p) q =
      flags3 (n || decide (pl.oriented_side q = Oriented_side.ON_NEGATIVE_SIDE))
        (b || decide (pl.oriented_side q = Oriented_side.ON_ORIENTED_BOUNDARY))
        (p || decide (pl.oriented_side q = Oriented_side.ON_POSITIVE_SIDE)) := by
  unfold side_step
  cases pl.oriented_side q <;> (revert n b p; decide)

theorem foldl_step_flags (pl : Plane_3) (ps : List Point_3) (n b p : Bool) :
    ps.foldl (side_step pl) (flags3 n b p) = flags3 n b p ||| side_flags pl ps := by
  induction ps generalizing n b p with
  | nil =>
    have h0 : ∀ n b p : Bool, flags3 n b p ||| flags3 false false false = flags3 n b p := by decide
    simp only [List.foldl_nil, side_flags, any_side, List.any_nil, h0]
  | cons q qs ih =>
    rw [List.foldl_cons, side_step_flags, ih]
    simp only [side_flags, any_side, List.any_cons, flags3_step]
    congr 1 <;> simp [Bool.or_assoc]

theorem side_flag_flags (pl : Plane_3) (q : Point_3) :
    side_flag (pl.oriented_side q) =
      flags3 (decide (pl.oriented_side q = Oriented_side.ON_NEGATIVE_SIDE))
        (decide (pl.oriented_side q = Oriented_side.ON_ORIENTED_BOUNDARY))
        (decide (pl.oriented_side q = Oriented_side.ON_POSITIVE_SIDE)) := by
  cases pl.oriented_side q <;> decide

theorem classify_flags (pl : Plane_3) (ps : List Point_3) :
    (ps.map fun q => side_flag (pl.oriented_side q)).foldr (fun f acc => f ||| acc) 0
      = side_flags pl ps := by
  induction ps with
  | nil =>
    have h0 : flags3 false false false = 0 := by decide
    simp only [List.map_nil, List.foldr_nil, side_flags, any_side, List.any_nil, h0]
  | cons q qs ih =>
    rw [List.map_cons, List.foldr_cons, ih, side_flag_flags]
    simp only [side_flags, any_side, List.any_cons, flags3_step]

/-- The search stops at the first candidate that passes the test, with the
groups of that candidate. -/
theorem find_divider_first (v : List Polyhedron_3) (cands : List Plane_3) (st0 : Search)
    (pl : Plane_3) (h : cands.find? (fun c => qualifies c v) = some pl) :
    find_divider v cands st0
      = ⟨group_left pl v, group_right pl v, group_polys pl v, pl, true⟩ := by
  induction cands generalizing st0 with
  | nil => simp at h
  | cons c cs ih =>
    by_cases hq : qualifies c v = true
    · simp only [List.find?_cons, hq, Option.some.injEq] at h
      have hc : c = pl := h
      subst hc
      simp [find_divider, hq]
    · have hq2 : qualifies c v = false := by simpa using hq
      simp only [List.find?_cons, hq2] at h
      simp only [find_divider, hq2, Bool.false_eq_true, if_false]
      exact ih _ h

/-- When no candidate passes the test, the search ends with the groups of the
last candidate and without a plane. -/
theorem find_divider_none (v : List Polyhedron_3) (cands : List Plane_3) (st0 : Search)
    (h0 : st0.found = false) (h : cands.find? (fun c => qualifies c v) = none) :
    (find_divider v cands st0).found = false ∧
      ((cands = [] ∧ find_divider v cands st0 = st0) ∨
        ∃ c ∈ cands, qualifies c v = false ∧
          (find_divider v cands st0).left = group_left c v ∧
          (find_divider v cands st0).right = group_right c v) := by
  induction cands generalizing st0 with
  | nil => exact ⟨h0, Or.inl ⟨rfl, rfl⟩⟩
  | cons c cs ih =>
    have hq : qualifies c v = false := by
      by_contra hc
      have hc2 : qualifies c v = true := by simpa using hc
      simp [List.find?_cons, hc2] at h
    simp only [List.find?_cons, hq] at h
    simp only [find_divider, hq, Bool.false_eq_true, if_false]
    obtain ⟨hf, hcase⟩ := ih ⟨group_left c v, group_right c v, group_polys c v, st0.plane, false⟩
      rfl h
    refine ⟨hf, Or.inr ?_⟩
    rcases hcase with ⟨hnil, heq⟩ | ⟨c2, hc2, hq3, hl, hr⟩
    · exact ⟨c, List.mem_cons_self _ _, hq, by rw [heq], by rw [heq]⟩
    · exact ⟨c2, List.mem_cons_of_mem _ hc2, hq3, hl, hr⟩

/-- A candidate that fails the test has an empty group or a group that is the
whole input. -/
theorem not_qualifies_cases (c : Plane_3) (v : List Polyhedron_3) (h : qualifies c v = false) :
    group_left c v = [] ∨ group_left c v = v ∨ group_right c v = [] ∨ group_right c v = v := by
  have hl := List.length_filter_le
    (fun poly => decide (oriented_side c poly &&& ON_NEGATIVE_SIDE ≠ 0)) v
  have hr := List.length_filter_le
    (fun poly => decide (oriented_side c poly &&& ON_POSITIVE_SIDE ≠ 0)) v
  have hl2 : (group_left c v).length = v.length → group_left c v = v := by
    intro he
    exact List.filter_eq_self.mpr (List.filter_length_eq_length.mp he)
  have hr2 : (group_right c v).length = v.length → group_right c v = v := by
    intro he
    exact List.filter_eq_self.mpr (List.filter_length_eq_length.mp he)
  have hl' : (group_left c v).length ≤ v.length := hl
  have hr' : (group_right c v).length ≤ v.length := hr
  by_cases h1 : (group_left c v).length = 0
  · exact Or.inl (List.length_eq_zero.mp h1)
  by_cases h2 : (group_left c v).length = v.length
  · exact Or.inr (Or.inl (hl2 h2))
  by_cases h3 : (group_right c v).length = 0
  · exact Or.inr (Or.inr (Or.inl (List.length_eq_zero.mp h3)))
  by_cases h4 : (group_right c v).length = v.length
  · exact Or.inr (Or.inr (Or.inr (hr2 h4)))
  exfalso
  have : qualifies c v = true := by
    simp only [qualifies, Bool.and_eq_true, decide_eq_true_eq]
    omega
  rw [h] at this
  exact absurd this (by simp)

theorem create_node_nil (fuel : Nat) : create_node fuel [] = Except.ok none := by
  cases fuel <;> rfl

/-- For more than two solids without a qualifying candidate `create_node`
returns no tree. -/
theorem create_node_no_divider (fuel : Nat) (a b c : Polyhedron_3) (rest : List Polyhedron_3)
    (h : first_divider (a :: b :: c :: rest) = none) :
    ∃ e, create_node fuel (a :: b :: c :: rest) = Except.error e := by
  induction fuel with
  | zero => exact ⟨Fault.diverges, rfl⟩
  | succ fuel ih =>
    obtain ⟨e0, he0⟩ := ih
    rw [create_node]
    obtain ⟨_, hcase⟩ := find_divider_none (a :: b :: c :: rest)
      (candidates (a :: b :: c :: rest)) Search.init rfl h
    generalize find_divider (a :: b :: c :: rest) (candidates (a :: b :: c :: rest))
      Search.init = st at hcase
    have hinit : ∀ f, ∃ e, (match create_node f Search.init.left with
        | Except.error e => Except.error e
        | Except.ok node_left =>
          match create_node f Search.init.right with
          | Except.error e => Except.error e
          | Except.ok node_right =>
            match node_left, node_right with
            | some l, some r => (Except.ok (some (Node.InternalNode (l.set_parent true)
                (r.set_parent true) Search.init.plane (set_of_list Search.init.polys) false))
                  : Except Fault (Option Node))
            | _, _ => Except.error Fault.memory) = Except.error e := by
      intro f
      simp only [Search.init, create_node_nil]
      exact ⟨_, rfl⟩
    rcases hcase with ⟨_, heq⟩ | ⟨c2, _, hq, hl, hr⟩
    · rw [heq]
      exact hinit fuel
    · rcases not_qualifies_cases c2 _ hq with h1 | h1 | h1 | h1
      · rw [hl, h1, create_node_nil]
        simp only
        cases create_node fuel st.right with
        | error e => exact ⟨e, rfl⟩
        | ok nr => exact ⟨Fault.memory, rfl⟩
      · rw [hl, h1, he0]
        exact ⟨e0, rfl⟩
      · rw [hr, h1, create_node_nil]
        cases create_node fuel st.left with
        | error e => exact ⟨e, rfl⟩
        | ok nl =>
          simp only
          cases nl <;> exact ⟨Fault.memory, rfl⟩
      · rw [hr, h1, he0]
        cases create_node fuel st.left with
        | error e => exact ⟨e, rfl⟩
        | ok nl => exact ⟨e0, rfl⟩

/-- A tree returned by `create_node` for more than two solids is the Internal
node of the first qualifying candidate over the trees of its two groups. -/
theorem create_node_ok_shape (fuel : Nat) (a b c : Polyhedron_3) (rest : List Polyhedron_3)
    (t : Node) (h : create_node (fuel + 1) (a :: b :: c :: rest) = Except.ok (some t)) :
    ∃ pl l r, first_divider (a :: b :: c :: rest) = some pl ∧
      create_node fuel (group_left pl (a :: b :: c :: rest)) = Except.ok (some l) ∧
      create_node fuel (group_right pl (a :: b :: c :: rest)) = Except.ok (some r) ∧
      t = Node.InternalNode (l.set_parent true) (r.set_parent true) pl
        (set_of_list (group_polys pl (a :: b :: c :: rest))) false := by
  cases hfd : first_divider (a :: b :: c :: rest) with
  | none =>
    obtain ⟨e, he⟩ := create_node_no_divider (fuel + 1) a b c rest hfd
    rw [he] at h
    simp at h
  | some pl =>
    have hst := find_divider_first (a :: b :: c :: rest) (candidates (a :: b :: c :: rest))
      Search.init pl hfd
    rw [create_node, hst] at h
    simp only at h
    cases hl : create_node fuel (group_left pl (a :: b :: c :: rest)) with
    | error e => simp [hl] at h
    | ok nl =>
      cases hr : create_node fuel (group_right pl (a :: b :: c :: rest)) with
      | error e => simp [hl, hr] at h
      | ok nr =>
        simp only [hl, hr] at h
        match nl, nr, hl, hr, h with
        | none, _, _, _, h => simp at h
        | some l, none, _, _, h => simp at h
        | some l, some r, hl, hr, h =>
          simp only [Except.ok.injEq, Option.some.injEq] at h
          exact ⟨pl, l, r, rfl, hl, hr, h.symm⟩

/-- More fuel does not change a result of `create_node` other than running out
of fuel. -/
theorem create_node_fuel_le (f g : Nat) (hfg : f ≤ g) (v : List Polyhedron_3)
    (r : Except Fault (Option Node)) (h : create_node f v = r)
    (hr : r ≠ Except.error Fault.diverges) : create_node g v = r := by
  induction g with
  | zero =>
    have : f = 0 := Nat.le_zero.mp hfg
    subst this
    exact h
  | succ g ih =>
    rcases Nat.lt_or_ge f (g + 1) with hlt | hge
    · exact create_node_fuel_succ g v r (ih (Nat.lt_succ_iff.mp hlt)) hr
    · have : f = g + 1 := Nat.le_antisymm hfg hge
      subst this
      exact h

theorem qualifies_lengths (pl : Plane_3) (v : List Polyhedron_3) (h : qualifies pl v = true) :
    (group_left pl v).length < v.length ∧ (group_right pl v).length < v.length := by
  simp only [qualifies, Bool.and_eq_true, decide_eq_true_eq] at h
  exact ⟨h.1.1.2, h.2⟩

theorem first_divider_qualifies (v : List Polyhedron_3) (pl : Plane_3)
    (h : first_divider v = some pl) : qualifies pl v = true := by
  have := List.find?_some h
  exact this

theorem create_node_step (fuel : Nat) (a b c : Polyhedron_3) (rest : List Polyhedron_3)
    (pl : Plane_3) (l r : Node) (hfd : first_divider (a :: b :: c :: rest) = some pl)
    (hl : create_node fuel (group_left pl (a :: b :: c :: rest)) = Except.ok (some l))
    (hr : create_node fuel (group_right pl (a :: b :: c :: rest)) = Except.ok (some r)) :
    create_node (fuel + 1) (a :: b :: c :: rest) =
      Except.ok (some (Node.InternalNode (l.set_parent true) (r.set_parent true) pl
        (set_of_list (group_polys pl (a :: b :: c :: rest))) false)) := by
  have hst := find_divider_first (a :: b :: c :: rest) (candidates (a :: b :: c :: rest))
    Search.init pl hfd
  rw [create_node, hst]
  simp only [hl, hr]

/-- A tree that `create_node` returns with some fuel is returned with the
number of solids as fuel. -/
theorem create_node_fuel_adequate (fuel : Nat) (v : List Polyhedron_3) (t : Node)
    (h : create_node fuel v = Except.ok (some t)) :
    create_node v.length v = Except.ok (some t) := by
  induction fuel generalizing v t with
  | zero =>
    match v, h with
    | [], h => simp [create_node] at h
    | [a], h => simpa [create_node] using h
    | [a, b], h => simpa [create_node] using h
    | _ :: _ :: _ :: _, h => simp [create_node] at h
  | succ fuel ih =>
    match v, h with
    | [], h => simp [create_node] at h
    | [a], h => simpa [create_node] using h
    | [a, b], h => simpa [create_node] using h
    | a :: b :: c :: rest, h =>
      obtain ⟨pl, l, r, hfd, hl, hr, rfl⟩ := create_node_ok_shape fuel a b c rest t h
      obtain ⟨h1, h2⟩ := qualifies_lengths pl _ (first_divider_qualifies _ pl hfd)
      have hl2 := create_node_fuel_le _ (rest.length + 2) (by simp only [List.length_cons] at h1; omega)
        _ _ (ih _ l hl) (by simp)
      have hr2 := create_node_fuel_le _ (rest.length + 2) (by simp only [List.length_cons] at h2; omega)
        _ _ (ih _ r hr) (by simp)
      exact create_node_step (rest.length + 2) a b c rest pl l r hfd hl2 hr2

/-! ### Members of a boundary set, members of a group -/

theorem set_insert_keeps (x z : Polyhedron_3) (s : List Polyhedron_3) (h : z ∈ s) :
    z ∈ set_insert x s := by
  induction s with
  | nil => simp at h
  | cons y ys ih =>
    simp only [set_insert]
    split_ifs
    · exact List.mem_cons_of_mem _ h
    · rcases List.mem_cons.mp h with h | h
      · exact h ▸ List.mem_cons_self _ _
      · exact List.mem_cons_of_mem _ (ih h)
    · exact h

theorem set_insert_covers (x : Polyhedron_3) (s : List Polyhedron_3) :
    ∃ m ∈ set_insert x s, m.id = x.id := by
  induction s with
  | nil => exact ⟨x, by simp [set_insert], rfl⟩
  | cons y ys ih =>
    simp only [set_insert]
    split_ifs with h1 h2
    · exact ⟨x, List.mem_cons_self _ _, rfl⟩
    · obtain ⟨m, hm, hid⟩ := ih
      exact ⟨m, List.mem_cons_of_mem _ hm, hid⟩
    · exact ⟨y, List.mem_cons_self _ _, by omega⟩

theorem set_fold_mem (v acc : List Polyhedron_3) (m : Polyhedron_3)
    (h : m ∈ v.foldl (fun s x => set_insert x s) acc) : m ∈ acc ∨ m ∈ v := by
  induction v generalizing acc with
  | nil => exact Or.inl h
  | cons x xs ih =>
    rw [List.foldl_cons] at h
    rcases ih _ h with h1 | h1
    · rcases set_insert_mem x m acc h1 with h2 | h2
      · exact Or.inr (h2 ▸ List.mem_cons_self _ _)
      · exact Or.inl h2
    · exact Or.inr (List.mem_cons_of_mem _ h1)

theorem set_fold_keeps (v acc : List Polyhedron_3) (i : Nat) (h : ∃ m ∈ acc, m.id = i) :
    ∃ m ∈ v.foldl (fun s x => set_insert x s) acc, m.id = i := by
  induction v generalizing acc with
  | nil => exact h
  | cons x xs ih =>
    rw [List.foldl_cons]
    obtain ⟨m, hm, hid⟩ := h
    exact ih _ ⟨m, set_insert_keeps x m acc hm, hid⟩

theorem set_fold_covers (v acc : List Polyhedron_3) (x : Polyhedron_3) (h : x ∈ v) :
    ∃ m ∈ v.foldl (fun s x => set_insert x s) acc, m.id = x.id := by
  induction v generalizing acc with
  | nil => simp at h
  | cons y ys ih =>
    rw [List.foldl_cons]
    rcases List.mem_cons.mp h with h | h
    · subst h
      exact set_fold_keeps ys _ _ (set_insert_covers x acc)
    · exact ih _ h

theorem set_of_list_mem (v : List Polyhedron_3) (m : Polyhedron_3) (h : m ∈ set_of_list v) :
    m ∈ v := by
  rcases set_fold_mem v [] m h with h | h
  · simp at h
  · exact h

theorem set_of_list_covers (v : List Polyhedron_3) (x : Polyhedron_3) (h : x ∈ v) :
    ∃ m ∈ set_of_list v, m.id = x.id :=
  set_fold_covers v [] x h

theorem group_left_mem (pl : Plane_3) (v : List Polyhedron_3) (s : Polyhedron_3) :
    s ∈ group_left pl v ↔ s ∈ v ∧ ∃ q ∈ s.points, pl.eval q < 0 := by
  simp only [group_left, List.mem_filter, decide_eq_true_eq, flag_neg_iff]

theorem group_right_mem (pl : Plane_3) (v : List Polyhedron_3) (s : Polyhedron_3) :
    s ∈ group_right pl v ↔ s ∈ v ∧ ∃ q ∈ s.points, 0 < pl.eval q := by
  simp only [group_right, List.mem_filter, decide_eq_true_eq, flag_pos_iff]

theorem group_polys_mem (pl : Plane_3) (v : List Polyhedron_3) (s : Polyhedron_3) :
    s ∈ group_polys pl v ↔ s ∈ v ∧ ∃ q ∈ s.points, pl.eval q = 0 := by
  simp only [group_polys, List.mem_filter, decide_eq_true_eq, flag_bnd_iff]

theorem build_of_create (v : List Polyhedron_3) (n : Node)
    (h : BSPTree.build v = Except.ok ⟨some n⟩) : create_node v.length v = Except.ok (some n) := by
  unfold BSPTree.build at h
  cases hc : create_node v.length v with
  | error e => rw [hc] at h; simp at h
  | ok r =>
    rw [hc] at h
    simp only [Except.ok.injEq, BSPTree.mk.injEq] at h
    rw [h]

/-! ### The claims on the builder, the splitter and the two mutators -/

/-- C20: for every plane and every solid, `oriented_side` returns the union
(bitwise OR of the negative, boundary and positive flags) of the point
classifications of all vertices, the specification's `classify_solid`; the
exit of the scan once all three flags are set changes nothing, the result
being that of the scan of all vertices; a solid without vertices gives the
empty set. -/
theorem oriented_side_is_union (plane : Plane_3) (solid : Polyhedron_3) :
    oriented_side plane solid = classify_solid plane solid ∧
      oriented_side plane solid = solid.points.foldl (side_step plane) 0 ∧
      (∀ (id : Nat) (planes : List Plane_3) (valid : Bool),
        oriented_side plane ⟨id, planes, [], valid⟩ = 0) := by
  refine ⟨?_, ?_, fun _ _ _ => rfl⟩
  · rw [oriented_side_eq_flags, classify_solid, classify_flags]
  · have h := foldl_step_flags plane solid.points false false false
    have h0 : flags3 false false false = 0 := by decide
    rw [h0] at h
    rw [h, oriented_side_eq_flags]
    simp

/-- C18: whenever `split a b` returns, for solids that each lie on one closed
side of each of their own planes, the result has two Leaves, the solid of the
left Leaf has no vertex on the positive side of the chosen plane and the
solid of the right Leaf has no vertex on the negative side. -/
theorem split_sides_closed (a b : Polyhedron_3) (n : Node) (h : split a b = Except.ok n)
    (ha : a.Supporting) (hb : b.Supporting) :
    ∃ x y pl polys, n = Node.InternalNode (Node.LeafNode x) (Node.LeafNode y) pl polys false ∧
      (∀ q ∈ x.points, pl.oriented_side q ≠ Oriented_side.ON_POSITIVE_SIDE) ∧
      (∀ q ∈ y.points, pl.oriented_side q ≠ Oriented_side.ON_NEGATIVE_SIDE) := by
  obtain ⟨x, y, pl, polys, hn, _, hx, hy, _⟩ := split_sides a b n h ha hb
  refine ⟨x, y, pl, polys, hn, ?_, ?_⟩
  · intro q hq hpos
    have := (side_pos_iff pl q).mp hpos
    have := hx q hq
    linarith
  · intro q hq hneg
    have := (side_neg_iff pl q).mp hneg
    have := hy q hq
    linarith

/-- Witness of C18: the two adjacent unit cubes. -/
theorem split_sides_closed_witness :
    ∃ x y pl polys,
      Node.InternalNode (Node.LeafNode cube000) (Node.LeafNode cube100) ⟨1, 0, 0, -1⟩
          [cube000, cube100] false
        = Node.InternalNode (Node.LeafNode x) (Node.LeafNode y) pl polys false ∧
      (∀ q ∈ x.points, pl.oriented_side q ≠ Oriented_side.ON_POSITIVE_SIDE) ∧
      (∀ q ∈ y.points, pl.oriented_side q ≠ Oriented_side.ON_NEGATIVE_SIDE) :=
  split_sides_closed cube000 cube100 _ (by decide!) (by decide!) (by decide!)

/-- C17: for an input `v` of more than two solids in which some face plane
passes the test of `create_node`, with `pl` the first one in the order
'solids of `v`, then the planes of that solid', and with the constructor
returning the subtrees `l` and `r` for the negative and the positive group:
the constructor returns for `v` the Internal node with the plane `pl`, the
boundary set made of the solids of `v` with a vertex on `pl`, and `l` and `r`
as children (their parent references set).  No candidate before `pl` passes
the test; both groups are non-empty and smaller than `v`; each group keeps
the input order and holds the solids of `v` with a vertex on its side.  For
0, 1 and 2 solids the constructor returns the empty tree, a single Leaf and
what `split` returns or raises. -/
theorem build_first_divider (v : List Polyhedron_3) (pl : Plane_3) (l r : Node)
    (hlen : 2 < v.length) (hfd : first_divider v = some pl)
    (hl : BSPTree.build (group_left pl v) = Except.ok ⟨some l⟩)
    (hr : BSPTree.build (group_right pl v) = Except.ok ⟨some r⟩) :
    BSPTree.build v = Except.ok ⟨some (Node.InternalNode (l.set_parent true) (r.set_parent true)
        pl (set_of_list (group_polys pl v)) false)⟩ ∧
      (∃ pre post, candidates v = pre ++ pl :: post ∧ ∀ c ∈ pre, qualifies c v = false) ∧
      (group_left pl v ≠ [] ∧ (group_left pl v).length < v.length ∧
        group_right pl v ≠ [] ∧ (group_right pl v).length < v.length) ∧
      ((group_left pl v).Sublist v ∧ ∀ s, s ∈ group_left pl v ↔
        s ∈ v ∧ ∃ q ∈ s.points, pl.oriented_side q = Oriented_side.ON_NEGATIVE_SIDE) ∧
      ((group_right pl v).Sublist v ∧ ∀ s, s ∈ group_right pl v ↔
        s ∈ v ∧ ∃ q ∈ s.points, pl.oriented_side q = Oriented_side.ON_POSITIVE_SIDE) ∧
      (∀ m ∈ set_of_list (group_polys pl v),
        m ∈ v ∧ ∃ q ∈ m.points, pl.oriented_side q = Oriented_side.ON_ORIENTED_BOUNDARY) ∧
      (∀ s ∈ v, (∃ q ∈ s.points, pl.oriented_side q = Oriented_side.ON_ORIENTED_BOUNDARY) →
        ∃ m ∈ set_of_list (group_polys pl v), m.id = s.id) ∧
      BSPTree.build [] = Except.ok ⟨none⟩ ∧
      (∀ a, BSPTree.build [a] = Except.ok ⟨some (Node.LeafNode a)⟩) ∧
      (∀ a b n, split a b = Except.ok n → BSPTree.build [a, b] = Except.ok ⟨some n⟩) ∧
      (∀ a b e, split a b = Except.error e → BSPTree.build [a, b] = Except.error e) := by
  have hq := first_divider_qualifies v pl hfd
  obtain ⟨hlt1, hlt2⟩ := qualifies_lengths pl v hq
  refine ⟨?_, ?_, ?_, ⟨List.filter_sublist _, ?_⟩, ⟨List.filter_sublist _, ?_⟩, ?_, ?_, rfl,
    fun _ => rfl, ?_, ?_⟩
  · match v, hlen with
    | a :: b :: c :: rest, _ =>
      have h1 := create_node_fuel_le _ (rest.length + 2)
        (by simp only [List.length_cons] at hlt1; omega) _ _ (build_of_create _ l hl) (by simp)
      have h2 := create_node_fuel_le _ (rest.length + 2)
        (by simp only [List.length_cons] at hlt2; omega) _ _ (build_of_create _ r hr) (by simp)
      have h3 := create_node_step (rest.length + 2) a b c rest pl l r hfd h1 h2
      unfold BSPTree.build
      simp only [List.length_cons]
      rw [h3]
  · obtain ⟨_, pre, post, hc, hpre⟩ := List.find?_eq_some.mp hfd
    refine ⟨pre, post, hc, fun c hcm => ?_⟩
    simpa using hpre c hcm
  · simp only [qualifies, Bool.and_eq_true, decide_eq_true_eq] at hq
    refine ⟨?_, hq.1.1.2, ?_, hq.2⟩
    · intro h0; exact hq.1.1.1 (by rw [h0]; rfl)
    · intro h0; exact hq.1.2 (by rw [h0]; rfl)
  · intro s
    rw [group_left_mem]
    simp only [side_neg_iff]
  · intro s
    rw [group_right_mem]
    simp only [side_pos_iff]
  · intro m hm
    have := (group_polys_mem pl v m).mp (set_of_list_mem _ m hm)
    simpa only [side_bnd_iff] using this
  · intro s hs hb
    simp only [side_bnd_iff] at hb
    exact set_of_list_covers _ s ((group_polys_mem pl v s).mpr ⟨hs, hb⟩)
  · intro a b n h
    simp only [BSPTree.build, List.length_cons, List.length_nil, create_node, h]
  · intro a b e h
    simp only [BSPTree.build, List.length_cons, List.length_nil, create_node, h]

/-- Witness of C17: three unit cubes in a row along the x axis; the first
qualifying plane is `x = 1`, the second face plane of the first cube. -/
theorem build_first_divider_witness :
    BSPTree.build [cube000, cube100, cube200_new] = Except.ok row_tree ∧
      first_divider [cube000, cube100, cube200_new] = some ⟨1, 0, 0, -1⟩ ∧
      group_left ⟨1, 0, 0, -1⟩ [cube000, cube100, cube200_new] = [cube000] ∧
      group_right ⟨1, 0, 0, -1⟩ [cube000, cube100, cube200_new] = [cube100, cube200_new] :=
  ⟨(build_first_divider [cube000, cube100, cube200_new] ⟨1, 0, 0, -1⟩ (Node.LeafNode cube000)
      (Node.InternalNode (Node.LeafNode cube100) (Node.LeafNode cube200_new) ⟨1, 0, 0, -2⟩
        [cube100, cube200_new] false)
      (by decide) (by decide!) (by decide!) (by decide!)).1.trans (by decide!),
    by decide!, by decide!, by decide!⟩

/-- C19, failing input: three rods along the three axes, convex and without
a common point two by two.  Every face plane of each rod cuts another rod, so
no candidate passes the test of `create_node`; the loops end, control falls
into `found_divider` with the groups of the last candidate, whose negative
group is the whole input, and `create_node` calls itself on the same three
solids: no amount of fuel gives a result, and the constructor neither reports
an error nor returns a fallback structure.  For every input of more than two
solids in which no candidate passes the test, `create_node` returns no tree,
whatever the fuel: it ends in a fault. -/
theorem build_without_divider_recurses :
    List.Pairwise Polyhedron_3.DisjointFrom [rod_x, rod_y, rod_z] ∧
      (∀ s ∈ [rod_x, rod_y, rod_z], s.Convex) ∧
      (∀ pl ∈ candidates [rod_x, rod_y, rod_z], qualifies pl [rod_x, rod_y, rod_z] = false) ∧
      (find_divider [rod_x, rod_y, rod_z] (candidates [rod_x, rod_y, rod_z]) Search.init).left
        = [rod_x, rod_y, rod_z] ∧
      (∀ fuel, create_node fuel [rod_x, rod_y, rod_z] = Except.error Fault.diverges) ∧
      BSPTree.build [rod_x, rod_y, rod_z] = Except.error Fault.diverges ∧
      (∀ fuel a b c rest, first_divider (a :: b :: c :: rest) = none →
        ∃ e, create_node fuel (a :: b :: c :: rest) = Except.error e) := by
  have hleft : (find_divider [rod_x, rod_y, rod_z] (candidates [rod_x, rod_y, rod_z])
      Search.init).left = [rod_x, rod_y, rod_z] := by decide!
  have hall : ∀ fuel, create_node fuel [rod_x, rod_y, rod_z] = Except.error Fault.diverges := by
    intro fuel
    induction fuel with
    | zero => rfl
    | succ fuel ih =>
      rw [create_node, hleft, ih]
  refine ⟨?_, by decide!, by decide!, hleft, hall, ?_, create_node_no_divider⟩
  · simp only [List.pairwise_cons, List.mem_cons, List.mem_singleton, forall_eq_or_imp, forall_eq,
      List.not_mem_nil, false_implies, implies_true, List.Pairwise.nil, and_true]
    exact ⟨⟨disjoint_of_separated rod_x rod_y ⟨0, 0, 1, -2⟩ (by decide!) (by decide!),
      disjoint_of_separated rod_x rod_z ⟨0, -1, 0, 2⟩ (by decide!) (by decide!)⟩,
      disjoint_of_separated rod_y rod_z ⟨1, 0, 0, -2⟩ (by decide!) (by decide!)⟩
  · unfold BSPTree.build
    rw [hall]

theorem children_linked_set_parent (b : Bool) (n : Node) :
    (n.set_parent b).children_linked = n.children_linked := by
  cases n <;> rfl

theorem parent_set_set_parent (n : Node) : (n.set_parent true).parent_set = true := by
  cases n <;> rfl

theorem split_linked (a b : Polyhedron_3) (n : Node) (h : split a b = Except.ok n) :
    n.children_linked = true ∧ n.parent_set = false := by
  obtain ⟨own, oth, pl, _, _, _, hres⟩ := split_ok_shape a b n h
  rcases hres with ⟨_, rfl⟩ | ⟨_, rfl⟩ | ⟨_, rfl⟩ | ⟨_, rfl⟩ <;> exact ⟨rfl, rfl⟩

/-- In a tree returned by `create_node` every node below the top has its
parent pointer set, and the top has none. -/
theorem create_node_linked (fuel : Nat) (v : List Polyhedron_3) (n : Node)
    (h : create_node fuel v = Except.ok (some n)) :
    n.children_linked = true ∧ (n.has_children = true → n.parent_set = false) := by
  induction fuel generalizing v n with
  | zero =>
    match v, h with
    | [], h => simp [create_node] at h
    | [a], h =>
      simp only [create_node, Except.ok.injEq, Option.some.injEq] at h
      subst h
      exact ⟨rfl, fun h => by simp [Node.has_children] at h⟩
    | [a, b], h =>
      simp only [create_node] at h
      cases hs : split a b with
      | error e => rw [hs] at h; simp at h
      | ok m =>
        rw [hs] at h
        simp only [Except.ok.injEq, Option.some.injEq] at h
        subst h
        exact ⟨(split_linked a b m hs).1, fun _ => (split_linked a b m hs).2⟩
    | _ :: _ :: _ :: _, h => simp [create_node] at h
  | succ fuel ih =>
    match v, h with
    | [], h => simp [create_node] at h
    | [a], h =>
      simp only [create_node, Except.ok.injEq, Option.some.injEq] at h
      subst h
      exact ⟨rfl, fun h => by simp [Node.has_children] at h⟩
    | [a, b], h =>
      simp only [create_node] at h
      cases hs : split a b with
      | error e => rw [hs] at h; simp at h
      | ok m =>
        rw [hs] at h
        simp only [Except.ok.injEq, Option.some.injEq] at h
        subst h
        exact ⟨(split_linked a b m hs).1, fun _ => (split_linked a b m hs).2⟩
    | a :: b :: c :: rest, h =>
      obtain ⟨pl, l, r, _, hl, hr, rfl⟩ := create_node_ok_shape fuel a b c rest n h
      refine ⟨?_, fun _ => rfl⟩
      simp only [Node.children_linked, parent_set_set_parent, children_linked_set_parent,
        (ih _ l hl).1, (ih _ r hr).1, Bool.and_self]

theorem build_parents_ok (v : List Polyhedron_3) (t : BSPTree) (h : BSPTree.build v = Except.ok t) :
    t.parents_ok = true := by
  unfold BSPTree.build at h
  cases hc : create_node v.length v with
  | error e => rw [hc] at h; simp at h
  | ok r =>
    rw [hc] at h
    simp only [Except.ok.injEq] at h
    subst h
    cases r with
    | none => rfl
    | some n =>
      have hn := create_node_linked _ v n hc
      cases n with
      | LeafNode p => rfl
      | InternalNode l r pl polys par =>
        have h2 := hn.2 rfl
        simp only [Node.parent_set] at h2
        subst h2
        simp only [BSPTree.parents_ok, hn.1, Bool.not_false, Bool.and_self]

/-- C14, failing input: the tree of the two adjacent unit cubes and the valid
unit cube anchored at `(1, 1, 0)`.  The descent of `insert` visits the root,
whose plane `x = 1` carries four vertices of the cube (the classification has
the boundary flag); `insert` returns `true`, and the boundary set of the root
is afterwards what it was, the two cubes of the tree: no member has the
identity of the inserted cube.  In general `insert` leaves the plane and the
boundary set of every Internal node as they were. -/
theorem insert_skips_boundary_set :
    cube110.valid = true ∧
      oriented_side ⟨1, 0, 0, -1⟩ cube110 = ON_ORIENTED_BOUNDARY + ON_POSITIVE_SIDE ∧
      (∃ q ∈ cube110.points,
        (⟨1, 0, 0, -1⟩ : Plane_3).oriented_side q = Oriented_side.ON_ORIENTED_BOUNDARY) ∧
      (∀ lf, BSPTree.insert lf pair_tree cube110 = (corner_tree, Except.ok true)) ∧
      (∃ l r, corner_tree = ⟨some (Node.InternalNode l r ⟨1, 0, 0, -1⟩ [cube000, cube100] false)⟩) ∧
      (∀ m ∈ [cube000, cube100], m.id ≠ cube110.id) ∧
      (∀ lf l r pl polys par s, ∃ l2 r2,
        (insert_node lf (Node.InternalNode l r pl polys par) s).1
          = Node.InternalNode l2 r2 pl polys par) := by
  refine ⟨rfl, by decide!, by decide!, by decide!, ⟨_, _, rfl⟩, by decide, ?_⟩
  intro lf l r pl polys par s
  obtain ⟨l2, r2, h, _⟩ := insert_internal_shape lf l r pl polys par s
  exact ⟨l2, r2, h⟩

/-- C15, failing input: the tree built from three unit cubes in a row along
the x axis, whose root holds the first cube on the left and, on the right, an
Internal node with the second cube as left Leaf and the third as right Leaf.
`remove` of the second cube, a left Leaf, puts its sibling, the Leaf of the
third cube, in the slot of their parent; `remove` of the first cube makes its
sibling subtree the root; for the third cube, a right Leaf, line 235 takes
the Leaf itself for its sibling: `remove` stores the Leaf in `root`, deletes
the old root and the Leaf, and returns `true` with `root` pointing at the
deleted Leaf. -/
theorem remove_replaces_parent_for_left_leaf_only :
    BSPTree.build [cube000, cube100, cube200_new] = Except.ok row_tree ∧
      (∀ lf, row_tree.remove lf cube100 = Except.ok (true,
        ⟨some (Node.InternalNode (Node.LeafNode cube000) (Node.LeafNode cube200_new)
          ⟨1, 0, 0, -1⟩ [cube000] false)⟩)) ∧
      (∀ lf, row_tree.remove lf cube000 = Except.ok (true,
        ⟨some (Node.InternalNode (Node.LeafNode cube100) (Node.LeafNode cube200_new)
          ⟨1, 0, 0, -2⟩ [cube100, cube200_new] false)⟩)) ∧
      (∀ lf, row_tree.remove lf cube200_new = Except.error (Fault.dangling true)) := by
  decide!

/-- C16, failing input: the tree built from the two adjacent unit cubes, then
`insert` of the unit cube anchored at `(2, 0, 0)`.  Every tree that the
constructor returns has its parent references right.  `insert` returns
`true` and puts the Internal node returned by `split` in the place of the
right Leaf of the root, and the parent reference of that node is absent, not
the root. -/
theorem insert_leaves_parent_unset :
    (∀ v t, BSPTree.build v = Except.ok t → t.parents_ok = true) ∧
      BSPTree.build [cube000, cube100] = Except.ok pair_tree ∧
      pair_tree.parents_ok = true ∧
      cube200_new.valid = true ∧
      (∀ lf, BSPTree.insert lf pair_tree cube200_new = (grown_tree, Except.ok true)) ∧
      grown_tree.parents_ok = false :=
  ⟨build_parents_ok, by decide!, by decide!, rfl, by decide!, by decide!⟩

/-! ### Leaves of a built tree -/

theorem split_leaves (a b : Polyhedron_3) (n : Node) (h : split a b = Except.ok n) :
    n.leaves = [a, b] ∨ n.leaves = [b, a] := by
  obtain ⟨own, oth, pl, hwho, _, _, hres⟩ := split_ok_shape a b n h
  rcases hwho with ⟨rfl, rfl⟩ | ⟨rfl, rfl⟩ <;>
    rcases hres with ⟨_, rfl⟩ | ⟨_, rfl⟩ | ⟨_, rfl⟩ | ⟨_, rfl⟩ <;>
    simp [Node.leaves]

theorem candidates_filter (p : Polyhedron_3 → Bool) (v : List Polyhedron_3) (pl : Plane_3)
    (h : pl ∈ candidates (v.filter p)) : pl ∈ candidates v := by
  simp only [candidates, List.mem_flatMap, List.mem_filter] at h ⊢
  obtain ⟨s, ⟨hs, _⟩, hpl⟩ := h
  exact ⟨s, hs, hpl⟩

/-- Every Leaf of a tree returned by `create_node` holds a solid of the input. -/
theorem create_node_leaves_mem (fuel : Nat) (v : List Polyhedron_3) (n : Node)
    (h : create_node fuel v = Except.ok (some n)) : ∀ e ∈ n.leaves, e ∈ v := by
  induction fuel generalizing v n with
  | zero =>
    match v, h with
    | [], h => simp [create_node] at h
    | [a], h =>
      simp only [create_node, Except.ok.injEq, Option.some.injEq] at h
      subst h
      simp [Node.leaves]
    | [a, b], h =>
      simp only [create_node] at h
      cases hs : split a b with
      | error e => rw [hs] at h; simp at h
      | ok m =>
        rw [hs] at h
        simp only [Except.ok.injEq, Option.some.injEq] at h
        subst h
        rcases split_leaves a b m hs with h2 | h2 <;> rw [h2] <;> simp
    | _ :: _ :: _ :: _, h => simp [create_node] at h
  | succ fuel ih =>
    match v, h with
    | [], h => simp [create_node] at h
    | [a], h =>
      simp only [create_node, Except.ok.injEq, Option.some.injEq] at h
      subst h
      simp [Node.leaves]
    | [a, b], h =>
      simp only [create_node] at h
      cases hs : split a b with
      | error e => rw [hs] at h; simp at h
      | ok m =>
        rw [hs] at h
        simp only [Except.ok.injEq, Option.some.injEq] at h
        subst h
        rcases split_leaves a b m hs with h2 | h2 <;> rw [h2] <;> simp
    | a :: b :: c :: rest, h =>
      obtain ⟨pl, l, r, _, hl, hr, rfl⟩ := create_node_ok_shape fuel a b c rest n h
      intro e he
      simp only [Node.leaves, leaves_set_parent, List.mem_append] at he
      rcases he with he | he
      · exact (List.mem_filter.mp (ih _ l hl e he)).1
      · exact (List.mem_filter.mp (ih _ r hr e he)).1

theorem uncut_thick_filter (p : Polyhedron_3 → Bool) (v : List Polyhedron_3)
    (h : uncut_thick v) : uncut_thick (v.filter p) := by
  intro pl hpl s hs
  exact h pl (candidates_filter p v pl hpl) s (List.mem_filter.mp hs).1

theorem uncut_filter (p : Polyhedron_3 → Bool) (v : List Polyhedron_3)
    (h : uncut v) : uncut (v.filter p) := by
  intro pl hpl s hs
  exact h pl (candidates_filter p v pl hpl) s (List.mem_filter.mp hs).1

theorem first_divider_mem (v : List Polyhedron_3) (pl : Plane_3)
    (h : first_divider v = some pl) : pl ∈ candidates v :=
  List.mem_of_find?_eq_some h

/-- When the plane cuts no solid of `v` and every solid has a vertex off it,
the two groups partition `v`. -/
theorem groups_perm (pl : Plane_3) (v : List Polyhedron_3)
    (h : ∀ s ∈ v, one_side pl s ∧ ∃ q ∈ s.points, pl.eval q ≠ 0) :
    (group_left pl v ++ group_right pl v).Perm v := by
  have hr : group_right pl v
      = v.filter fun s => !decide (oriented_side pl s &&& ON_NEGATIVE_SIDE ≠ 0) := by
    unfold group_right
    apply List.filter_congr
    intro s hs
    obtain ⟨hone, q, hq, hne⟩ := h s hs
    by_cases hn : oriented_side pl s &&& ON_NEGATIVE_SIDE ≠ 0
    · have hp : ¬ (oriented_side pl s &&& ON_POSITIVE_SIDE ≠ 0) := by
        rw [flag_pos_iff]
        rintro ⟨q2, hq2, hpos⟩
        obtain ⟨q1, hq1, hneg⟩ := (flag_neg_iff pl s).mp hn
        rcases hone with h1 | h1
        · have := h1 q2 hq2; linarith
        · have := h1 q1 hq1; linarith
      show decide _ = !decide _
      rw [decide_eq_false hp, decide_eq_true hn]; rfl
    · have hp : oriented_side pl s &&& ON_POSITIVE_SIDE ≠ 0 := by
        rw [flag_pos_iff]
        refine ⟨q, hq, ?_⟩
        rcases lt_trichotomy (pl.eval q) 0 with h1 | h1 | h1
        · exact absurd ((flag_neg_iff pl s).mpr ⟨q, hq, h1⟩) hn
        · exact absurd h1 hne
        · exact h1
      show decide _ = !decide _
      rw [decide_eq_true hp, decide_eq_false hn]; rfl
  rw [hr]
  exact List.filter_append_perm _ v

theorem create_node_leaves_perm (fuel : Nat) (v : List Polyhedron_3) (n : Node)
    (h : create_node fuel v = Except.ok (some n)) (hv : uncut_thick v) : n.leaves.Perm v := by
  induction fuel generalizing v n with
  | zero =>
    match v, h with
    | [], h => simp [create_node] at h
    | [a], h =>
      simp only [create_node, Except.ok.injEq, Option.some.injEq] at h
      subst h
      exact List.Perm.refl _
    | [a, b], h =>
      simp only [create_node] at h
      cases hs : split a b with
      | error e => rw [hs] at h; simp at h
      | ok m =>
        rw [hs] at h
        simp only [Except.ok.injEq, Option.some.injEq] at h
        subst h
        rcases split_leaves a b m hs with h2 | h2 <;> rw [h2]
        exact List.Perm.swap _ _ _
    | _ :: _ :: _ :: _, h => simp [create_node] at h
  | succ fuel ih =>
    match v, h with
    | [], h => simp [create_node] at h
    | [a], h =>
      simp only [create_node, Except.ok.injEq, Option.some.injEq] at h
      subst h
      exact List.Perm.refl _
    | [a, b], h =>
      simp only [create_node] at h
      cases hs : split a b with
      | error e => rw [hs] at h; simp at h
      | ok m =>
        rw [hs] at h
        simp only [Except.ok.injEq, Option.some.injEq] at h
        subst h
        rcases split_leaves a b m hs with h2 | h2 <;> rw [h2]
        exact List.Perm.swap _ _ _
    | a :: b :: c :: rest, h =>
      obtain ⟨pl, l, r, hfd, hl, hr, rfl⟩ := create_node_ok_shape fuel a b c rest n h
      simp only [Node.leaves, leaves_set_parent]
      have h1 := ih _ l hl (uncut_thick_filter _ _ hv)
      have h2 := ih _ r hr (uncut_thick_filter _ _ hv)
      exact (List.Perm.append h1 h2).trans (groups_perm pl _ (hv pl (first_divider_mem _ pl hfd)))

/-! ### Closed sides and recorded contacts of a built tree -/

theorem sided_set_parent (b : Bool) (n : Node) : (n.set_parent b).Sided ↔ n.Sided := by
  cases n <;> simp [Node.set_parent, Node.Sided]

theorem recorded_set_parent (b : Bool) (n : Node) : (n.set_parent b).Recorded ↔ n.Recorded := by
  cases n <;> simp [Node.set_parent, Node.Recorded]

theorem split_sided (a b : Polyhedron_3) (n : Node) (h : split a b = Except.ok n)
    (ha : a.Supporting) (hb : b.Supporting) : n.Sided := by
  obtain ⟨x, y, pl, polys, rfl, _, hx, hy, _⟩ := split_sides a b n h ha hb
  simp only [Node.Sided, Node.leaves, List.mem_singleton, forall_eq, and_true]
  exact ⟨hx, hy⟩

/-- The boundary set of a result of `split` has the identity of each of the two
solids that has a vertex on the plane. -/
theorem split_recorded (a b : Polyhedron_3) (n : Node) (h : split a b = Except.ok n) :
    n.Recorded := by
  obtain ⟨own, oth, pl, _, _, _, hres⟩ := split_ok_shape a b n h
  have hnb : ∀ k, (k = ON_NEGATIVE_SIDE ∨ k = ON_POSITIVE_SIDE) →
      ¬ (k &&& ON_ORIENTED_BOUNDARY ≠ 0) := by
    rintro k (rfl | rfl) <;> decide
  have hin : ∃ m ∈ set_insert oth [own], m.id = own.id :=
    ⟨own, set_insert_keeps oth own [own] (List.mem_singleton.mpr rfl), rfl⟩
  rcases hres with ⟨hs, rfl⟩ | ⟨hs, rfl⟩ | ⟨hs, rfl⟩ | ⟨hs, rfl⟩ <;>
    simp only [Node.Recorded, Node.leaves, List.singleton_append, List.mem_cons,
      List.mem_singleton, List.not_mem_nil, or_false, forall_eq_or_imp, forall_eq, and_true,
      exists_eq_left]
  · exact ⟨fun _ => set_insert_covers oth [own], fun _ => hin⟩
  · refine ⟨fun hb => ?_, fun _ => trivial⟩
    exact absurd ((flag_bnd_iff pl oth).mpr hb) (hnb _ (Or.inl hs))
  · exact ⟨fun _ => hin, fun _ => set_insert_covers oth [own]⟩
  · refine ⟨fun _ => trivial, fun hb => ?_⟩
    exact absurd ((flag_bnd_iff pl oth).mpr hb) (hnb _ (Or.inr hs))

theorem uncut_pair_supporting (a b : Polyhedron_3) (h : uncut [a, b]) :
    a.Supporting ∧ b.Supporting := by
  constructor
  · intro pl hpl
    exact h pl (by simp [candidates, hpl]) a (by simp)
  · intro pl hpl
    exact h pl (by simp [candidates, hpl]) b (by simp)

theorem create_node_recorded (fuel : Nat) (v : List Polyhedron_3) (n : Node)
    (h : create_node fuel v = Except.ok (some n)) : n.Recorded := by
  induction fuel generalizing v n with
  | zero =>
    match v, h with
    | [], h => simp [create_node] at h
    | [a], h =>
      simp only [create_node, Except.ok.injEq, Option.some.injEq] at h
      subst h
      trivial
    | [a, b], h =>
      simp only [create_node] at h
      cases hs : split a b with
      | error e => rw [hs] at h; simp at h
      | ok m =>
        rw [hs] at h
        simp only [Except.ok.injEq, Option.some.injEq] at h
        subst h
        exact split_recorded a b m hs
    | _ :: _ :: _ :: _, h => simp [create_node] at h
  | succ fuel ih =>
    match v, h with
    | [], h => simp [create_node] at h
    | [a], h =>
      simp only [create_node, Except.ok.injEq, Option.some.injEq] at h
      subst h
      trivial
    | [a, b], h =>
      simp only [create_node] at h
      cases hs : split a b with
      | error e => rw [hs] at h; simp at h
      | ok m =>
        rw [hs] at h
        simp only [Except.ok.injEq, Option.some.injEq] at h
        subst h
        exact split_recorded a b m hs
    | a :: b :: c :: rest, h =>
      obtain ⟨pl, l, r, hfd, hl, hr, rfl⟩ := create_node_ok_shape fuel a b c rest n h
      refine ⟨?_, (recorded_set_parent _ _).mpr (ih _ l hl), (recorded_set_parent _ _).mpr (ih _ r hr)⟩
      intro e he hb
      simp only [leaves_set_parent, List.mem_append] at he
      have hev : e ∈ a :: b :: c :: rest := by
        rcases he with he | he
        · exact (List.mem_filter.mp (create_node_leaves_mem _ _ l hl e he)).1
        · exact (List.mem_filter.mp (create_node_leaves_mem _ _ r hr e he)).1
      exact set_of_list_covers _ e ((group_polys_mem pl _ e).mpr ⟨hev, hb⟩)

theorem create_node_sided (fuel : Nat) (v : List Polyhedron_3) (n : Node)
    (h : create_node fuel v = Except.ok (some n)) (hv : uncut v) : n.Sided := by
  induction fuel generalizing v n with
  | zero =>
    match v, h with
    | [], h => simp [create_node] at h
    | [a], h =>
      simp only [create_node, Except.ok.injEq, Option.some.injEq] at h
      subst h
      trivial
    | [a, b], h =>
      simp only [create_node] at h
      cases hs : split a b with
      | error e => rw [hs] at h; simp at h
      | ok m =>
        rw [hs] at h
        simp only [Except.ok.injEq, Option.some.injEq] at h
        subst h
        exact split_sided a b m hs (uncut_pair_supporting a b hv).1 (uncut_pair_supporting a b hv).2
    | _ :: _ :: _ :: _, h => simp [create_node] at h
  | succ fuel ih =>
    match v, h with
    | [], h => simp [create_node] at h
    | [a], h =>
      simp only [create_node, Except.ok.injEq, Option.some.injEq] at h
      subst h
      trivial
    | [a, b], h =>
      simp only [create_node] at h
      cases hs : split a b with
      | error e => rw [hs] at h; simp at h
      | ok m =>
        rw [hs] at h
        simp only [Except.ok.injEq, Option.some.injEq] at h
        subst h
        exact split_sided a b m hs (uncut_pair_supporting a b hv).1 (uncut_pair_supporting a b hv).2
    | a :: b :: c :: rest, h =>
      obtain ⟨pl, l, r, hfd, hl, hr, rfl⟩ := create_node_ok_shape fuel a b c rest n h
      have hpl := first_divider_mem _ pl hfd
      refine ⟨?_, ?_, (sided_set_parent _ _).mpr (ih _ l hl (uncut_filter _ _ hv)),
        (sided_set_parent _ _).mpr (ih _ r hr (uncut_filter _ _ hv))⟩
      · intro e he q hq
        rw [leaves_set_parent] at he
        obtain ⟨hev, q1, hq1, hneg⟩ := (group_left_mem pl _ e).mp (create_node_leaves_mem _ _ l hl e he)
        rcases hv pl hpl e hev with h1 | h1
        · exact h1 q hq
        · have := h1 q1 hq1; linarith
      · intro e he q hq
        rw [leaves_set_parent] at he
        obtain ⟨hev, q1, hq1, hpos⟩ := (group_right_mem pl _ e).mp (create_node_leaves_mem _ _ r hr e he)
        rcases hv pl hpl e hev with h1 | h1
        · have := h1 q1 hq1; linarith
        · exact h1 q hq

/-! ### The two mutators and the closed separation invariant -/

/-- The free function `insert` keeps the closed separation invariant when its
descent meets no plane that cuts the solid. -/
theorem insert_node_sided (lf : Bool) (n : Node) (s : Polyhedron_3) (hn : n.Sided)
    (hs : s.Supporting) (hl : ∀ e ∈ n.leaves, e.Supporting) (hspan : insert_spans n s = false) :
    (insert_node lf n s).1.Sided := by
  induction n with
  | LeafNode lp =>
    simp only [insert_node]
    cases hsp : split s lp with
    | error e => trivial
    | ok m => exact split_sided s lp m hsp hs (hl lp (by simp [Node.leaves]))
  | InternalNode l r pl polys par ihl ihr =>
    obtain ⟨hleft, hright, hsl, hsr⟩ := hn
    have hll : ∀ e ∈ l.leaves, e.Supporting := fun e he =>
      hl e (by simp [Node.leaves, he])
    have hlr : ∀ e ∈ r.leaves, e.Supporting := fun e he =>
      hl e (by simp [Node.leaves, he])
    simp only [insert_spans] at hspan
    simp only [insert_node]
    by_cases hboth : oriented_side pl s &&& ON_NEGATIVE_SIDE ≠ 0 ∧
        oriented_side pl s &&& ON_POSITIVE_SIDE ≠ 0
    · rw [if_pos hboth] at hspan
      exact absurd hspan (by simp)
    · rw [if_neg hboth] at hspan ⊢
      by_cases hneg : oriented_side pl s &&& ON_NEGATIVE_SIDE ≠ 0
      · rw [if_pos hneg] at hspan ⊢
        have hnp : ¬ (oriented_side pl s &&& ON_POSITIVE_SIDE ≠ 0) := fun hp => hboth ⟨hneg, hp⟩
        refine ⟨?_, hright, ihl hsl hll hspan, hsr⟩
        intro e he q hq
        rcases insert_node_adds lf l s e he with h1 | h1
        · exact hleft e h1 q hq
        · subst h1
          by_contra hc
          exact hnp ((flag_pos_iff pl e).mpr ⟨q, hq, lt_of_not_ge hc⟩)
      · rw [if_neg hneg] at hspan ⊢
        refine ⟨hleft, ?_, hsl, ihr hsr hlr hspan⟩
        intro e he q hq
        rcases insert_node_adds lf r s e he with h1 | h1
        · exact hright e h1 q hq
        · subst h1
          by_contra hc
          exact hneg ((flag_neg_iff pl e).mpr ⟨q, hq, lt_of_not_ge hc⟩)

theorem removal_both_sided (lf : Bool) (l r : Node) (pl : Plane_3) (polys : List Polyhedron_3)
    (par : Bool) (res1 res2 : Removal)
    (hleft : ∀ e ∈ l.leaves, ∀ q ∈ e.points, pl.eval q ≤ 0)
    (hright : ∀ e ∈ r.leaves, ∀ q ∈ e.points, 0 ≤ pl.eval q)
    (h1 : res1.node.Sided ∧ ∀ e ∈ res1.node.leaves, e ∈ l.leaves)
    (h2 : res2.node.Sided ∧ ∀ e ∈ res2.node.leaves, e ∈ r.leaves) :
    (Removal.both lf pl polys par res1 res2).node.Sided ∧
      ∀ e ∈ (Removal.both lf pl polys par res1 res2).node.leaves, e ∈ l.leaves ++ r.leaves := by
  have hin : ∀ a b : Node, a.Sided → (∀ e ∈ a.leaves, e ∈ l.leaves) → b.Sided →
      (∀ e ∈ b.leaves, e ∈ r.leaves) →
      (Node.InternalNode a b pl polys par).Sided ∧
        ∀ e ∈ (Node.InternalNode a b pl polys par).leaves, e ∈ l.leaves ++ r.leaves := by
    intro a b ha hal hb hbl
    refine ⟨⟨fun e he => hleft e (hal e he), fun e he => hright e (hbl e he), ha, hb⟩, ?_⟩
    intro e he
    simp only [Node.leaves, List.mem_append] at he ⊢
    exact he.imp (hal e) (hbl e)
  have hL : ∀ a : Node, a.Sided → (∀ e ∈ a.leaves, e ∈ l.leaves) →
      a.Sided ∧ ∀ e ∈ a.leaves, e ∈ l.leaves ++ r.leaves :=
    fun a ha hal => ⟨ha, fun e he => List.mem_append.mpr (Or.inl (hal e he))⟩
  have hR : ∀ a : Node, a.Sided → (∀ e ∈ a.leaves, e ∈ r.leaves) →
      a.Sided ∧ ∀ e ∈ a.leaves, e ∈ l.leaves ++ r.leaves :=
    fun a ha hal => ⟨ha, fun e he => List.mem_append.mpr (Or.inr (hal e he))⟩
  cases res1 with
  | kept b1 l2 =>
    cases res2 with
    | kept b2 r2 => exact hin l2 r2 h1.1 h1.2 h2.1 h2.2
    | moved r2 => exact hin l2 r2 h1.1 h1.2 h2.1 h2.2
    | rooted r2 => exact hR r2 h2.1 h2.2
  | moved l2 =>
    cases res2 with
    | kept b2 r2 => exact hin l2 r2 h1.1 h1.2 h2.1 h2.2
    | moved r2 => exact hin l2 r2 h1.1 h1.2 h2.1 h2.2
    | rooted r2 => exact hR r2 h2.1 h2.2
  | rooted l2 =>
    cases res2 with
    | kept b2 r2 => exact hL l2 h1.1 h1.2
    | moved r2 => exact hL l2 h1.1 h1.2
    | rooted r2 =>
      cases lf
      · exact hL l2 h1.1 h1.2
      · exact hR r2 h2.1 h2.2

/-- The free function `remove` keeps the closed separation invariant, and the
node it leaves behind holds no solid that was not held before. -/
theorem remove_node_sided (lf up : Bool) (n : Node) (s : Polyhedron_3) (res : Removal)
    (hn : n.Sided) (h : remove_node lf up n s = Except.ok res) :
    res.node.Sided ∧ ∀ e ∈ res.node.leaves, e ∈ n.leaves := by
  induction n generalizing res up with
  | LeafNode lp =>
    simp only [remove_node] at h
    split_ifs at h
    simp only [Except.ok.injEq] at h
    subst h
    exact ⟨trivial, fun e he => he⟩
  | InternalNode l r pl polys par ihl ihr =>
    obtain ⟨hleft, hright, hsl, hsr⟩ := hn
    have hin : ∀ (a b : Node) (ps : List Polyhedron_3), a.Sided → (∀ e ∈ a.leaves, e ∈ l.leaves) →
        b.Sided → (∀ e ∈ b.leaves, e ∈ r.leaves) →
        (Node.InternalNode a b pl ps par).Sided ∧
          ∀ e ∈ (Node.InternalNode a b pl ps par).leaves, e ∈ l.leaves ++ r.leaves := by
      intro a b ps ha hal hb hbl
      refine ⟨⟨fun e he => hleft e (hal e he), fun e he => hright e (hbl e he), ha, hb⟩, ?_⟩
      intro e he
      simp only [Node.leaves, List.mem_append] at he ⊢
      exact he.imp (hal e) (hbl e)
    simp only [remove_node] at h
    generalize hq : (if oriented_side pl s &&& ON_ORIENTED_BOUNDARY ≠ 0 then set_erase s polys
      else polys) = polys2 at h
    simp only [Node.leaves]
    by_cases hboth : oriented_side pl s &&& ON_NEGATIVE_SIDE ≠ 0 ∧
        oriented_side pl s &&& ON_POSITIVE_SIDE ≠ 0
    · rw [if_pos hboth] at h
      by_cases hpre : (l.holds s || l.drops_parent s || r.drops_parent s) = true
      · rw [if_pos hpre] at h
        simp at h
      · rw [if_neg hpre] at h
        cases h1 : remove_node lf par l s with
        | error e1 =>
          rw [h1] at h
          by_cases hrh : r.holds s = true
          · rw [if_pos hrh] at h
            exfalso
            cases par <;> simp [Removal.join] at h
          · rw [if_neg hrh] at h
            cases h2 : remove_node lf par r s with
            | error e2 => rw [h2] at h; simp [Removal.join] at h
            | ok res2 =>
              rw [h2] at h
              have ih := ihr _ res2 hsr h2
              cases res2 with
              | kept b r2 => simp [Removal.join, Removal.rescue] at h
              | moved r2 => simp [Removal.join, Removal.rescue] at h
              | rooted x =>
                cases e1 with
                | dangling v =>
                  simp only [Removal.join, Removal.rescue] at h
                  split_ifs at h
                  simp only [Except.ok.injEq] at h
                  subst h
                  exact ⟨ih.1, fun e he => List.mem_append.mpr (Or.inr (ih.2 e he))⟩
                | intersecting => simp [Removal.join, Removal.rescue] at h
                | memory => simp [Removal.join, Removal.rescue] at h
                | diverges => simp [Removal.join, Removal.rescue] at h
        | ok res1 =>
          rw [h1] at h
          have ih1 := ihl _ res1 hsl h1
          have hresc : ∀ e2, Removal.rescue (!lf) res1 e2 = Except.ok res →
              res.node.Sided ∧ ∀ e ∈ res.node.leaves, e ∈ l.leaves ++ r.leaves := by
            intro e2 h
            cases res1 with
            | kept b l2 => simp [Removal.rescue] at h
            | moved l2 => simp [Removal.rescue] at h
            | rooted x =>
              cases e2 with
              | dangling v =>
                simp only [Removal.rescue] at h
                split_ifs at h
                simp only [Except.ok.injEq] at h
                subst h
                exact ⟨ih1.1, fun e he => List.mem_append.mpr (Or.inl (ih1.2 e he))⟩
              | intersecting => simp [Removal.rescue] at h
              | memory => simp [Removal.rescue] at h
              | diverges => simp [Removal.rescue] at h
          by_cases hrh : r.holds s = true
          · rw [if_pos hrh] at h
            cases par with
            | false => exact hresc _ (by simpa [Removal.join] using h)
            | true => exact hresc _ (by simpa [Removal.join] using h)
          · rw [if_neg hrh] at h
            cases h2 : remove_node lf par r s with
            | error e2 =>
              rw [h2] at h
              exact hresc _ (by simpa [Removal.join] using h)
            | ok res2 =>
              rw [h2] at h
              simp only [Removal.join, Except.ok.injEq] at h
              subst h
              exact removal_both_sided lf l r pl polys2 par res1 res2 hleft hright
                ih1 (ihr _ res2 hsr h2)
    · rw [if_neg hboth] at h
      by_cases hneg : oriented_side pl s &&& ON_NEGATIVE_SIDE ≠ 0
      · rw [if_pos hneg] at h
        by_cases hh : l.holds s = true
        · rw [if_pos hh] at h
          cases par with
          | true =>
            simp only [if_true, Except.ok.injEq] at h
            subst h
            exact ⟨(sided_set_parent _ _).mpr hsr, fun e he => by
              rw [Removal.node, leaves_set_parent] at he
              exact List.mem_append.mpr (Or.inr he)⟩
          | false =>
            simp only [Bool.false_eq_true, if_false, Except.ok.injEq] at h
            subst h
            exact ⟨(sided_set_parent _ _).mpr hsr, fun e he => by
              rw [Removal.node, leaves_set_parent] at he
              exact List.mem_append.mpr (Or.inr he)⟩
        · rw [if_neg hh] at h
          cases h1 : remove_node lf par l s with
          | error e => rw [h1] at h; simp at h
          | ok res1 =>
            rw [h1] at h
            have ih := ihl _ res1 hsl h1
            cases res1 with
            | kept b l2 =>
              simp only [Except.ok.injEq] at h
              subst h
              exact hin l2 r polys2 ih.1 ih.2 hsr (fun e he => he)
            | moved l2 =>
              simp only [Except.ok.injEq] at h
              subst h
              exact hin l2 r polys2 ih.1 ih.2 hsr (fun e he => he)
            | rooted l2 =>
              simp only [Except.ok.injEq] at h
              subst h
              exact ⟨ih.1, fun e he => List.mem_append.mpr (Or.inl (ih.2 e he))⟩
      · rw [if_neg hneg] at h
        by_cases hrh : r.holds s = true
        · rw [if_pos hrh] at h
          cases par <;> simp at h
        · rw [if_neg hrh] at h
          cases h1 : remove_node lf par r s with
          | error e => rw [h1] at h; simp at h
          | ok res1 =>
            rw [h1] at h
            have ih := ihr _ res1 hsr h1
            cases res1 with
            | kept b r2 =>
              simp only [Except.ok.injEq] at h
              subst h
              exact hin l r2 polys2 hsl (fun e he => he) ih.1 ih.2
            | moved r2 =>
              simp only [Except.ok.injEq] at h
              subst h
              exact hin l r2 polys2 hsl (fun e he => he) ih.1 ih.2
            | rooted r2 =>
              simp only [Except.ok.injEq] at h
              subst h
              exact ⟨ih.1, fun e he => List.mem_append.mpr (Or.inr (ih.2 e he))⟩

theorem removable_drops_parent (n : Node) (s : Polyhedron_3) (h : n.removable s = true) :
    n.drops_parent s = false := by
  cases n with
  | LeafNode lp => rfl
  | InternalNode l r pl polys par =>
    simp only [Node.removable, Bool.and_eq_true, Bool.not_eq_true'] at h
    simp only [Node.drops_parent, h.1, Bool.and_false]

/-- The free function `remove` returns with a tree when its descent deletes
left-child Leaves only. -/
theorem remove_node_removable (lf up : Bool) (n : Node) (s : Polyhedron_3)
    (h : n.removable s = true) (hn : n.holds s = false) :
    ∃ res, remove_node lf up n s = Except.ok res := by
  induction n generalizing up with
  | LeafNode lp =>
    have hs : lp.same s = false := by simpa [Node.holds] using hn
    exact ⟨Removal.kept false (Node.LeafNode lp), by simp [remove_node, hs]⟩
  | InternalNode l r pl polys par ihl ihr =>
    simp only [Node.removable, Bool.and_eq_true, Bool.not_eq_true'] at h
    obtain ⟨hrh, h⟩ := h
    simp only [remove_node]
    generalize (if oriented_side pl s &&& ON_ORIENTED_BOUNDARY ≠ 0 then set_erase s polys
      else polys) = polys2
    by_cases hboth : oriented_side pl s &&& ON_NEGATIVE_SIDE ≠ 0 ∧
        oriented_side pl s &&& ON_POSITIVE_SIDE ≠ 0
    · rw [if_pos hboth] at h ⊢
      simp only [Bool.and_eq_true, Bool.not_eq_true'] at h
      obtain ⟨⟨hlh, hl⟩, hr⟩ := h
      obtain ⟨res1, h1⟩ := ihl par hl hlh
      obtain ⟨res2, h2⟩ := ihr par hr hrh
      simp only [hlh, hrh, removable_drops_parent l s hl, removable_drops_parent r s hr,
        Bool.or_self, Bool.false_eq_true, if_false, h1, h2, Removal.join]
      exact ⟨_, rfl⟩
    · rw [if_neg hboth] at h ⊢
      by_cases hneg : oriented_side pl s &&& ON_NEGATIVE_SIDE ≠ 0
      · rw [if_pos hneg] at h ⊢
        by_cases hlh : l.holds s = true
        · rw [if_pos hlh]
          cases par <;> exact ⟨_, rfl⟩
        · rw [if_neg hlh]
          simp only [hlh, Bool.false_or] at h
          obtain ⟨res1, h1⟩ := ihl par h (by simpa using hlh)
          rw [h1]
          cases res1 <;> exact ⟨_, rfl⟩
      · rw [if_neg hneg] at h ⊢
        simp only [hrh, Bool.false_eq_true, if_false]
        obtain ⟨res1, h1⟩ := ihr par h hrh
        rw [h1]
        cases res1 <;> exact ⟨_, rfl⟩

theorem rescue_moved (b : Bool) (res : Removal) (e : Fault) (n2 : Node) :
    Removal.rescue b res e ≠ Except.ok (Removal.moved n2) := by
  intro h
  cases res with
  | kept f x => simp [Removal.rescue] at h
  | moved x => simp [Removal.rescue] at h
  | rooted x =>
    cases e with
    | dangling v =>
      simp only [Removal.rescue] at h
      split_ifs at h
      simp at h
    | intersecting => simp [Removal.rescue] at h
    | memory => simp [Removal.rescue] at h
    | diverges => simp [Removal.rescue] at h

theorem join_moved (lf : Bool) (pl : Plane_3) (polys : List Polyhedron_3) (par : Bool)
    (r1 r2 : Except Fault Removal) (n2 : Node) :
    Removal.join lf pl polys par r1 r2 ≠ Except.ok (Removal.moved n2) := by
  intro h
  cases r1 with
  | error e1 =>
    cases r2 with
    | error e2 => simp [Removal.join] at h
    | ok b => exact rescue_moved _ _ _ _ (by simpa [Removal.join] using h)
  | ok a =>
    cases r2 with
    | error e2 => exact rescue_moved _ _ _ _ (by simpa [Removal.join] using h)
    | ok b => cases a <;> cases b <;> simp [Removal.join, Removal.both] at h

theorem remove_node_moved (lf up : Bool) (l r : Node) (pl : Plane_3)
    (polys : List Polyhedron_3) (s : Polyhedron_3) (n2 : Node) :
    remove_node lf up (Node.InternalNode l r pl polys false) s ≠ Except.ok (Removal.moved n2) := by
  intro h
  simp only [remove_node] at h
  generalize (if oriented_side pl s &&& ON_ORIENTED_BOUNDARY ≠ 0 then set_erase s polys
    else polys) = polys2 at h
  by_cases hboth : oriented_side pl s &&& ON_NEGATIVE_SIDE ≠ 0 ∧
      oriented_side pl s &&& ON_POSITIVE_SIDE ≠ 0
  · rw [if_pos hboth] at h
    by_cases hpre : (l.holds s || l.drops_parent s || r.drops_parent s) = true
    · rw [if_pos hpre] at h
      simp at h
    · rw [if_neg hpre] at h
      exact join_moved _ _ _ _ _ _ _ h
  · rw [if_neg hboth] at h
    by_cases hneg : oriented_side pl s &&& ON_NEGATIVE_SIDE ≠ 0
    · rw [if_pos hneg] at h
      by_cases hlh : l.holds s = true
      · rw [if_pos hlh] at h
        simp at h
      · rw [if_neg hlh] at h
        cases h1 : remove_node lf false l s with
        | error e => rw [h1] at h; simp at h
        | ok a => rw [h1] at h; cases a <;> simp at h
    · rw [if_neg hneg] at h
      by_cases hrh : r.holds s = true
      · rw [if_pos hrh] at h
        simp at h
      · rw [if_neg hrh] at h
        cases h1 : remove_node lf false r s with
        | error e => rw [h1] at h; simp at h
        | ok a => rw [h1] at h; cases a <;> simp at h

theorem remove_removable (lf : Bool) (t : BSPTree) (s : Polyhedron_3)
    (h : t.removable s = true) : ∃ b t2, t.remove lf s = Except.ok (b, t2) := by
  rcases t with ⟨root⟩
  cases root with
  | none => exact ⟨_, _, rfl⟩
  | some n =>
    cases n with
    | LeafNode rp =>
      simp only [BSPTree.remove]
      split_ifs <;> exact ⟨_, _, rfl⟩
    | InternalNode l r pl polys par =>
      simp only [BSPTree.removable, Node.has_children, Node.parent_set, Bool.true_and,
        Bool.and_eq_true, Bool.not_eq_true'] at h
      obtain ⟨hp, hr⟩ := h
      subst hp
      obtain ⟨res, h1⟩ := remove_node_removable lf false _ s hr rfl
      simp only [BSPTree.remove, h1]
      cases res with
      | kept b n2 => exact ⟨_, _, rfl⟩
      | moved n2 => exact absurd h1 (remove_node_moved lf false l r pl polys s n2)
      | rooted n2 => exact ⟨_, _, rfl⟩

/-! ### The claims on the invariants of the tree -/

/-- C11 (amended): on a tree that satisfies the closed separation invariant,
the tree after any `remove` that returns with a tree, no slot and no root
being left pointing at a deleted node, satisfies it as well; `remove` does
return with such a tree whenever the root has no parent and the descent meets
no Leaf holding the solid as a right child and none directly below a plane
that cuts the solid (a Leaf that is a right child is left out: line 235).
And the tree after `insert` of a solid satisfies the invariant when the solid
and the solids held in the tree each lie on one closed side of each of their
own planes and the descent of `insert` meets no plane that cuts the solid,
whatever `insert` returns and in whatever order the operands are evaluated. -/
theorem mutators_keep_sides (lf : Bool) (t : BSPTree) (s : Polyhedron_3) (ht : t.Sided) :
    (∀ b t2, t.remove lf s = Except.ok (b, t2) → t2.Sided) ∧
      (s.Supporting → (∀ e ∈ t.leaves, e.Supporting) → t.insert_spans s = false →
        (t.insert lf s).1.Sided) ∧
      (t.removable s = true → ∃ b t2, t.remove lf s = Except.ok (b, t2) ∧ t2.Sided) := by
  have key : (∀ b t2, t.remove lf s = Except.ok (b, t2) → t2.Sided) ∧
      (s.Supporting → (∀ e ∈ t.leaves, e.Supporting) → t.insert_spans s = false →
        (t.insert lf s).1.Sided) := by
    rcases t with ⟨root⟩
    constructor
    · intro b t2 h
      cases root with
      | none =>
        simp only [BSPTree.remove, Except.ok.injEq, Prod.mk.injEq] at h
        rw [← h.2]; exact ht
      | some n =>
        cases n with
        | LeafNode rp =>
          simp only [BSPTree.remove] at h
          split_ifs at h
          · simp only [Except.ok.injEq, Prod.mk.injEq] at h
            rw [← h.2]; exact ht
          · simp only [Except.ok.injEq, Prod.mk.injEq] at h
            rw [← h.2]; trivial
        | InternalNode l r pl polys par =>
          simp only [BSPTree.remove] at h
          cases h1 : remove_node lf false (Node.InternalNode l r pl polys par) s with
          | error e => rw [h1] at h; simp at h
          | ok res =>
            rw [h1] at h
            have hs := (remove_node_sided lf false _ s res ht h1).1
            cases res with
            | kept b2 n2 =>
              simp only [Except.ok.injEq, Prod.mk.injEq] at h
              rw [← h.2]; exact hs
            | moved n2 => simp at h
            | rooted n2 =>
              simp only [Except.ok.injEq, Prod.mk.injEq] at h
              rw [← h.2]; exact hs
    · intro hs hl hspan
      unfold BSPTree.insert
      by_cases hv : s.valid = true
      · simp only [hv, Bool.not_true, Bool.false_eq_true, if_false]
        cases root with
        | none => trivial
        | some n =>
          cases n with
          | LeafNode rp =>
            simp only []
            cases hsp : split rp s with
            | error e => exact ht
            | ok m => exact split_sided rp s m hsp (hl rp (by simp [BSPTree.leaves, Node.leaves])) hs
          | InternalNode l r pl polys par =>
            exact insert_node_sided lf _ s ht hs hl hspan
      · simp only [hv, Bool.not_false, if_true]
        exact ht
  refine ⟨key.1, key.2, fun h => ?_⟩
  obtain ⟨b, t2, h2⟩ := remove_removable lf t s h
  exact ⟨b, t2, h2, key.1 b t2 h2⟩

/-- Witness of C11 (amended): the tree built from three unit cubes in a row;
`remove` of the second cube, a left Leaf, and `insert` of a fourth cube in
the row. -/
theorem mutators_keep_sides_witness :
    row_tree.Sided ∧
      (row_tree.remove true cube100 = Except.ok (true,
        ⟨some (Node.InternalNode (Node.LeafNode cube000) (Node.LeafNode cube200_new)
          ⟨1, 0, 0, -1⟩ [cube000] false)⟩)) ∧
      BSPTree.Sided ⟨some (Node.InternalNode (Node.LeafNode cube000) (Node.LeafNode cube200_new)
          ⟨1, 0, 0, -1⟩ [cube000] false)⟩ ∧
      (row_tree.insert true (cube 3 ⟨3, 0, 0⟩ 1 1 1)).2 = Except.ok true ∧
      (row_tree.insert true (cube 3 ⟨3, 0, 0⟩ 1 1 1)).1.Sided ∧
      row_tree.removable cube100 = true ∧
      (∃ b t2, row_tree.remove true cube100 = Except.ok (b, t2) ∧ t2.Sided) :=
  ⟨by decide!, by decide!,
    (mutators_keep_sides true row_tree cube100 (by decide!)).1 true _ (by decide!),
    by decide!,
    (mutators_keep_sides true row_tree (cube 3 ⟨3, 0, 0⟩ 1 1 1) (by decide!)).2.1
      (by decide!) (by decide!) (by decide!),
    by decide!,
    (mutators_keep_sides true row_tree cube100 (by decide!)).2.2 (by decide!)⟩

/-- C11, counterexample: the tree of the two adjacent unit cubes satisfies
the closed separation invariant; the valid convex unit cube anchored at
`(1/2, 5, 0)` has no point in common with either and is cut by the plane
`x = 1` of the root.  `insert` goes into both children and returns `true`,
and afterwards the left subtree of the root holds a solid with vertices
strictly on the positive side of the plane of the root. -/
theorem insert_cut_solid_breaks_sides :
    pair_tree.Sided ∧ cube_far.valid = true ∧ cube_far.Convex ∧
      cube000.DisjointFrom cube_far ∧ cube100.DisjointFrom cube_far ∧
      (∀ lf, BSPTree.insert lf pair_tree cube_far = (spread_tree, Except.ok true)) ∧
      ¬ spread_tree.Sided :=
  ⟨by decide!, rfl, by decide!,
    disjoint_of_separated cube000 cube_far ⟨0, 1, 0, -1⟩ (by decide!) (by decide!),
    disjoint_of_separated cube100 cube_far ⟨0, 1, 0, -1⟩ (by decide!) (by decide!),
    by decide!, by decide!⟩


/-- C12 (amended): in the tree that the constructor returns for a collection
of solids, at every Internal node each solid of its subtree that has a vertex
on the plane has its identity in the boundary set; when no face plane of a
solid of the collection cuts a solid of the collection, each solid held in
the left subtree of an Internal node lies on the closed negative side of its
plane and each solid held in the right subtree on the closed positive
side. -/
theorem build_sides_and_contacts (v : List Polyhedron_3) (t : BSPTree)
    (h : BSPTree.build v = Except.ok t) : t.Recorded ∧ (uncut v → t.Sided) := by
  unfold BSPTree.build at h
  cases hc : create_node v.length v with
  | error e => rw [hc] at h; simp at h
  | ok r =>
    rw [hc] at h
    simp only [Except.ok.injEq] at h
    subst h
    cases r with
    | none => exact ⟨trivial, fun _ => trivial⟩
    | some n => exact ⟨create_node_recorded _ v n hc, fun hv => create_node_sided _ v n hc hv⟩

/-- Witness of C12 (amended): the 8 unit cubes of the lattice `{0,1}^3`. -/
theorem build_sides_and_contacts_witness :
    BSPTree.build lattice = Except.ok (built lattice) ∧ (built lattice).root ≠ none ∧
      uncut lattice ∧ (built lattice).Recorded ∧ (built lattice).Sided :=
  ⟨by decide!, by decide!, by decide!,
    (build_sides_and_contacts lattice (built lattice) (by decide!)).1,
    (build_sides_and_contacts lattice (built lattice) (by decide!)).2 (by decide!)⟩

/-- C12, counterexample: three valid convex boxes without a common point two
by two.  The plane `x = 1` chosen for the root cuts the third box, which goes
to both groups: the left subtree of the root holds a solid with vertices
strictly on the positive side of the plane of the root, the right subtree a
solid with vertices strictly on its negative side. -/
theorem build_keeps_cut_solid_on_both_sides :
    List.Pairwise Polyhedron_3.DisjointFrom [cube000, cube200, cube_far] ∧
      (∀ s ∈ [cube000, cube200, cube_far], s.valid = true ∧ s.Convex) ∧
      BSPTree.build [cube000, cube200, cube_far] = Except.ok cut_tree ∧
      ¬ cut_tree.Sided ∧
      (∃ l r polys par, cut_tree.root = some (Node.InternalNode l r ⟨1, 0, 0, -1⟩ polys par) ∧
        (∃ e ∈ l.leaves, ∃ q ∈ e.points, (⟨1, 0, 0, -1⟩ : Plane_3).oriented_side q
          = Oriented_side.ON_POSITIVE_SIDE) ∧
        (∃ e ∈ r.leaves, ∃ q ∈ e.points, (⟨1, 0, 0, -1⟩ : Plane_3).oriented_side q
          = Oriented_side.ON_NEGATIVE_SIDE)) := by
  refine ⟨?_, by decide!, by decide!, by decide!, ⟨_, _, _, _, rfl, by decide!, by decide!⟩⟩
  simp only [List.pairwise_cons, List.mem_cons, List.mem_singleton, forall_eq_or_imp, forall_eq,
    List.not_mem_nil, false_implies, implies_true, List.Pairwise.nil, and_true]
  exact ⟨⟨disjoint_of_separated cube000 cube200 ⟨1, 0, 0, -1⟩ (by decide!) (by decide!),
    disjoint_of_separated cube000 cube_far ⟨0, 1, 0, -1⟩ (by decide!) (by decide!)⟩,
    disjoint_of_separated cube200 cube_far ⟨0, 1, 0, -1⟩ (by decide!) (by decide!)⟩


/-- C13 (amended): in the tree that the constructor returns for a collection
of solids, every Leaf holds a solid of the collection; when no face plane of
a solid of the collection cuts a solid of the collection and every solid has
a vertex off each of these planes, the solids held in the Leaves are the
solids of the collection, each as often as it occurs there: none is
duplicated and none is lost. -/
theorem build_leaves (v : List Polyhedron_3) (t : BSPTree) (h : BSPTree.build v = Except.ok t) :
    (∀ e ∈ t.leaves, e ∈ v) ∧ (uncut_thick v → t.leaves.Perm v) := by
  unfold BSPTree.build at h
  cases hc : create_node v.length v with
  | error e => rw [hc] at h; simp at h
  | ok r =>
    rw [hc] at h
    simp only [Except.ok.injEq] at h
    subst h
    cases r with
    | none =>
      have hv : v = [] := by
        match v, hc with
        | [], _ => rfl
        | [a], hc => simp [create_node] at hc
        | [a, b], hc =>
          simp only [create_node] at hc
          cases hs : split a b <;> rw [hs] at hc <;> simp at hc
        | a :: b :: c :: rest, hc =>
          exfalso
          simp only [List.length_cons, create_node] at hc
          revert hc
          generalize find_divider (a :: b :: c :: rest) (candidates (a :: b :: c :: rest))
            Search.init = st
          cases create_node (rest.length + 2) st.left with
          | error e => simp
          | ok nl =>
            cases create_node (rest.length + 2) st.right with
            | error e => simp
            | ok nr => cases nl <;> cases nr <;> simp
      subst hv
      exact ⟨fun e he => by simp [BSPTree.leaves] at he, fun _ => List.Perm.refl _⟩
    | some n =>
      exact ⟨create_node_leaves_mem _ v n hc, fun hv => create_node_leaves_perm _ v n hc hv⟩

/-- Witness of C13 (amended): the 8 unit cubes of the lattice `{0,1}^3`. -/
theorem build_leaves_witness :
    BSPTree.build lattice = Except.ok (built lattice) ∧ uncut_thick lattice ∧
      (∀ e ∈ (built lattice).leaves, e ∈ lattice) ∧ (built lattice).leaves.Perm lattice :=
  ⟨by decide!, by decide!, (build_leaves lattice (built lattice) (by decide!)).1,
    (build_leaves lattice (built lattice) (by decide!)).2 (by decide!)⟩

/-- C13, counterexample: three valid convex boxes with the identities 0, 1
and 2, without a common point two by two.  The plane `x = 1` chosen for the
root cuts the third box, which goes to both groups: the tree that the
constructor returns holds it in two Leaves. -/
theorem build_duplicates_cut_solid :
    List.Pairwise Polyhedron_3.DisjointFrom [cube000, cube200, cube_far] ∧
      ([cube000, cube200, cube_far].map fun s => s.id) = [0, 1, 2] ∧
      (∀ s ∈ [cube000, cube200, cube_far], s.valid = true ∧ s.Convex) ∧
      BSPTree.build [cube000, cube200, cube_far] = Except.ok cut_tree ∧
      cut_tree.leaves = [cube000, cube_far, cube200, cube_far] ∧
      cut_tree.leaves.count cube_far = 2 := by
  refine ⟨?_, by decide, by decide!, by decide!, by decide!, by decide!⟩
  simp only [List.pairwise_cons, List.mem_cons, List.mem_singleton, forall_eq_or_imp, forall_eq,
    List.not_mem_nil, false_implies, implies_true, List.Pairwise.nil, and_true]
  exact ⟨⟨disjoint_of_separated cube000 cube200 ⟨1, 0, 0, -1⟩ (by decide!) (by decide!),
    disjoint_of_separated cube000 cube_far ⟨0, 1, 0, -1⟩ (by decide!) (by decide!)⟩,
    disjoint_of_separated cube200 cube_far ⟨0, 1, 0, -1⟩ (by decide!) (by decide!)⟩

/-! ### Containment test, printer, termination of the builder, results of insert -/

theorem digitChar_isDigit (d : Nat) (h : d < 10) : (Nat.digitChar d).isDigit = true := by
  interval_cases d <;> decide

theorem toDigitsCore_digits (fuel n : Nat) (ds : List Char) (c : Char)
    (hds : ∀ x ∈ ds, x.isDigit = true) (h : c ∈ Nat.toDigitsCore 10 fuel n ds) :
    c.isDigit = true := by
  induction fuel generalizing n ds with
  | zero => exact hds c h
  | succ fuel ih =>
    have hd : ∀ x ∈ Nat.digitChar (n % 10) :: ds, x.isDigit = true := by
      intro x hx
      rcases List.mem_cons.mp hx with hx | hx
      · rw [hx]; exact digitChar_isDigit _ (Nat.mod_lt _ (by decide))
      · exact hds x hx
    simp only [Nat.toDigitsCore] at h
    split_ifs at h
    · exact hd c h
    · exact ih _ _ hd h

theorem decimal_digits (n : Nat) (c : Char) (h : c ∈ decimal n) : c.isDigit = true :=
  toDigitsCore_digits _ n [] c (fun _ hx => by simp at hx) h

theorem decimal_no_newline (n : Nat) : '\n' ∉ decimal n := fun h =>
  absurd (decimal_digits n _ h) (by decide)

theorem count_leaf_line (depth : Nat) (s : Polyhedron_3) :
    (leaf_line depth s).count '\n' = 1 := by
  have h1 : (List.replicate depth '+').count '\n' = 0 := by
    apply List.count_eq_zero.mpr
    intro h
    exact absurd (List.eq_of_mem_replicate h) (by decide)
  have h2 : (decimal s.id).count '\n' = 0 := List.count_eq_zero.mpr (decimal_no_newline _)
  simp only [leaf_line, List.count_append, h1, h2]
  decide

theorem print_node_lines (n : Node) (depth : Nat) :
    print_node n depth = ((n.leaves_at depth).map fun e => leaf_line e.1 e.2).flatten := by
  induction n generalizing depth with
  | LeafNode p => simp [print_node, Node.leaves_at, leaf_line]
  | InternalNode l r pl polys par ihl ihr =>
    simp only [print_node, Node.leaves_at, List.map_append, List.flatten_append, ihl, ihr]

theorem leaves_at_snd (n : Node) (depth : Nat) :
    (n.leaves_at depth).map Prod.snd = n.leaves := by
  induction n generalizing depth with
  | LeafNode p => rfl
  | InternalNode l r pl polys par ihl ihr =>
    simp only [Node.leaves_at, Node.leaves, List.map_append, ihl, ihr]

theorem count_lines (es : List (Nat × Polyhedron_3)) :
    ((es.map fun e => leaf_line e.1 e.2).flatten).count '\n' = es.length := by
  induction es with
  | nil => rfl
  | cons e es ih =>
    simp only [List.map_cons, List.flatten_cons, List.count_append, count_leaf_line, ih,
      List.length_cons]
    omega

theorem point_in_polyhedron_spec (s : Polyhedron_3) (p : Point_3) :
    point_in_polyhedron s p = true ↔
      ∀ pl ∈ s.planes, pl.oriented_side p ≠ Oriented_side.ON_ORIENTED_BOUNDARY →
        ∀ q ∈ s.points, pl.oriented_side q ≠ Oriented_side.ON_ORIENTED_BOUNDARY →
          pl.oriented_side q = pl.oriented_side p := by
  simp only [point_in_polyhedron, List.all_eq_true]
  constructor
  · intro h pl hpl hp q hq hqb
    have h1 := h pl hpl
    rw [if_neg hp] at h1
    have h2 := List.all_eq_true.mp h1 q hq
    by_contra hne
    simp [hqb, hne] at h2
  · intro h pl hpl
    by_cases hp : pl.oriented_side p = Oriented_side.ON_ORIENTED_BOUNDARY
    · rw [if_pos hp]
    · rw [if_neg hp]
      apply List.all_eq_true.mpr
      intro q hq
      by_cases hqb : pl.oriented_side q = Oriented_side.ON_ORIENTED_BOUNDARY
      · simp [hqb]
      · simp [h pl hpl hp q hq hqb]

theorem insert_node_ok_true (lf : Bool) (n : Node) (s : Polyhedron_3) (b : Bool)
    (h : (insert_node lf n s).2 = Except.ok b) : b = true := by
  induction n generalizing b with
  | LeafNode lp =>
    simp only [insert_node] at h
    cases hs : split s lp with
    | ok m =>
      simp only [hs, Except.ok.injEq] at h
      exact h.symm
    | error f => simp [hs] at h
  | InternalNode l r pl polys par ihl ihr =>
    simp only [insert_node] at h
    rcases hl : insert_node lf l s with ⟨l2, resl⟩
    rcases hr : insert_node lf r s with ⟨r2, resr⟩
    rw [hl] at ihl
    rw [hr] at ihr
    simp only [hl, hr] at h
    cases resl with
    | error f =>
      cases resr with
      | error g =>
        clear ihl ihr
        split_ifs at h
      | ok b2 =>
        have h2 := ihr b2 rfl
        subst h2
        clear ihl ihr
        split_ifs at h
        simpa using h
    | ok b1 =>
      have h1 := ihl b1 rfl
      subst h1
      cases resr with
      | error g =>
        clear ihl ihr
        split_ifs at h
        simpa using h
      | ok b2 =>
        have h2 := ihr b2 rfl
        subst h2
        clear ihl ihr
        split_ifs at h <;> simpa using h

theorem insert_result (lf : Bool) (t : BSPTree) (s : Polyhedron_3) (hv : s.valid = true) :
    (t.insert lf s).2 = Except.ok true ∨ (t.insert lf s).2 = Except.error Fault.intersecting := by
  rcases t with ⟨root⟩
  unfold BSPTree.insert
  simp only [hv, Bool.not_true, Bool.false_eq_true, if_false]
  cases root with
  | none => exact Or.inl rfl
  | some n =>
    cases n with
    | LeafNode rp =>
      simp only []
      cases hs : split rp s with
      | ok m => exact Or.inl rfl
      | error e => exact Or.inr (by rw [split_error_kind rp s e hs])
    | InternalNode l r pl polys par =>
      simp only []
      cases hres : (insert_node lf (Node.InternalNode l r pl polys par) s).2 with
      | ok b => exact Or.inl (by rw [insert_node_ok_true lf _ s b hres])
      | error e => exact Or.inr (by rw [insert_node_error_kind lf _ s e hres])

theorem create_node_none (fuel : Nat) (v : List Polyhedron_3)
    (h : create_node fuel v = Except.ok none) : v = [] := by
  match fuel, v, h with
  | _, [], _ => rfl
  | _, [a], h => simp [create_node] at h
  | _, [a, b], h =>
    simp only [create_node] at h
    cases hs : split a b <;> rw [hs] at h <;> simp at h
  | 0, _ :: _ :: _ :: _, h => simp [create_node] at h
  | fuel + 1, a :: b :: c :: rest, h =>
    exfalso
    simp only [create_node] at h
    revert h
    generalize find_divider (a :: b :: c :: rest) (candidates (a :: b :: c :: rest))
      Search.init = st
    cases create_node fuel st.left with
    | error e => simp
    | ok nl =>
      cases create_node fuel st.right with
      | error e => simp
      | ok nr => cases nl <;> cases nr <;> simp

theorem create_node_left_error (fuel : Nat) (a b c : Polyhedron_3) (rest : List Polyhedron_3)
    (pl : Plane_3) (e : Fault) (hfd : first_divider (a :: b :: c :: rest) = some pl)
    (hl : create_node fuel (group_left pl (a :: b :: c :: rest)) = Except.error e) :
    create_node (fuel + 1) (a :: b :: c :: rest) = Except.error e := by
  have hst := find_divider_first (a :: b :: c :: rest) (candidates (a :: b :: c :: rest))
    Search.init pl hfd
  rw [create_node, hst]
  simp only [hl]

theorem create_node_right_error (fuel : Nat) (a b c : Polyhedron_3) (rest : List Polyhedron_3)
    (pl : Plane_3) (l : Option Node) (e : Fault)
    (hfd : first_divider (a :: b :: c :: rest) = some pl)
    (hl : create_node fuel (group_left pl (a :: b :: c :: rest)) = Except.ok l)
    (hr : create_node fuel (group_right pl (a :: b :: c :: rest)) = Except.error e) :
    create_node (fuel + 1) (a :: b :: c :: rest) = Except.error e := by
  have hst := find_divider_first (a :: b :: c :: rest) (candidates (a :: b :: c :: rest))
    Search.init pl hfd
  rw [create_node, hst]
  simp only [hl, hr]

/-- On a dividable input `create_node` gives one and the same result with
every fuel from the number of solids on: a tree, or the error of `split`. -/
theorem create_node_dividable (v : List Polyhedron_3) (h : Dividable v) :
    ∃ r, (∀ fuel, v.length ≤ fuel → create_node fuel v = r) ∧
      ((∃ o, r = Except.ok o) ∨ r = Except.error Fault.intersecting) := by
  induction h with
  | small v hlen =>
    match v, hlen with
    | [], _ => exact ⟨Except.ok none, fun fuel _ => by cases fuel <;> rfl, Or.inl ⟨_, rfl⟩⟩
    | [a], _ =>
      exact ⟨Except.ok (some (Node.LeafNode a)), fun fuel _ => by cases fuel <;> rfl,
        Or.inl ⟨_, rfl⟩⟩
    | [a, b], _ =>
      cases hs : split a b with
      | ok n =>
        exact ⟨Except.ok (some n), fun fuel _ => by cases fuel <;> simp [create_node, hs],
          Or.inl ⟨_, rfl⟩⟩
      | error e =>
        have he := split_error_kind a b e hs
        subst he
        exact ⟨Except.error Fault.intersecting,
          fun fuel _ => by cases fuel <;> simp [create_node, hs], Or.inr rfl⟩
    | _ :: _ :: _ :: _, hlen => simp at hlen
  | step v pl hlen hfd hl hr ihl ihr =>
    match v, hlen, hfd, hl, hr, ihl, ihr with
    | a :: b :: c :: rest, _, hfd, hl, hr, ihl, ihr =>
      obtain ⟨hlt1, hlt2⟩ := qualifies_lengths pl _ (first_divider_qualifies _ pl hfd)
      have hne : group_left pl (a :: b :: c :: rest) ≠ [] := by
        have hq := first_divider_qualifies _ pl hfd
        simp only [qualifies, Bool.and_eq_true, decide_eq_true_eq] at hq
        intro h0; exact hq.1.1.1 (by rw [h0]; rfl)
      have hne2 : group_right pl (a :: b :: c :: rest) ≠ [] := by
        have hq := first_divider_qualifies _ pl hfd
        simp only [qualifies, Bool.and_eq_true, decide_eq_true_eq] at hq
        intro h0; exact hq.1.2 (by rw [h0]; rfl)
      simp only [List.length_cons] at hlt1 hlt2
      obtain ⟨rl, hrl, hkl⟩ := ihl
      rcases hkl with ⟨ol, rfl⟩ | rfl
      · cases ol with
        | none => exact absurd (create_node_none _ _ (hrl _ (le_refl _))) hne
        | some l =>
          obtain ⟨rr, hrr, hkr⟩ := ihr (some l) (hrl _ (le_refl _))
          rcases hkr with ⟨orr, rfl⟩ | rfl
          · cases orr with
            | none => exact absurd (create_node_none _ _ (hrr _ (le_refl _))) hne2
            | some r =>
              refine ⟨Except.ok (some (Node.InternalNode (l.set_parent true) (r.set_parent true) pl
                (set_of_list (group_polys pl (a :: b :: c :: rest))) false)),
                fun fuel hf => ?_, Or.inl ⟨_, rfl⟩⟩
              match fuel, hf with
              | f + 1, hf =>
                simp only [List.length_cons] at hf
                exact create_node_step f a b c rest pl l r hfd (hrl f (by omega)) (hrr f (by omega))
          · refine ⟨Except.error Fault.intersecting, fun fuel hf => ?_, Or.inr rfl⟩
            match fuel, hf with
            | f + 1, hf =>
              simp only [List.length_cons] at hf
              exact create_node_right_error f a b c rest pl _ _ hfd (hrl f (by omega))
                (hrr f (by omega))
      · refine ⟨Except.error Fault.intersecting, fun fuel hf => ?_, Or.inr rfl⟩
        match fuel, hf with
        | f + 1, hf =>
          simp only [List.length_cons] at hf
          exact create_node_left_error f a b c rest pl _ hfd (hrl f (by omega))

theorem dividable_sound (fuel : Nat) (v : List Polyhedron_3) (h : dividable fuel v = true) :
    Dividable v := by
  induction fuel generalizing v with
  | zero =>
    match v, h with
    | [], _ => exact Dividable.small _ (by simp)
    | [a], _ => exact Dividable.small _ (by simp)
    | [a, b], _ => exact Dividable.small _ (by simp)
    | _ :: _ :: _ :: _, h => simp [dividable] at h
  | succ fuel ih =>
    match v, h with
    | [], _ => exact Dividable.small _ (by simp)
    | [a], _ => exact Dividable.small _ (by simp)
    | [a, b], _ => exact Dividable.small _ (by simp)
    | a :: b :: c :: rest, h =>
      simp only [dividable] at h
      cases hfd : first_divider (a :: b :: c :: rest) with
      | none => rw [hfd] at h; simp at h
      | some pl =>
        rw [hfd] at h
        simp only [Bool.and_eq_true] at h
        exact Dividable.step _ pl (by simp) hfd (ih _ h.1) (fun _ _ => ih _ h.2)

/-! ### The claims on the containment test, the printer, termination and the results of insert -/

/-- C21: `point_in_polyhedron` returns `true` exactly when, for every plane of
the solid that does not contain `p`, every vertex of the solid that is not on
that plane is on the side of `p`.  A plane that contains `p` never fails:
leaving out the planes that contain `p` does not change the result, and a
point on all planes of the solid is reported as contained. -/
theorem point_in_polyhedron_iff (s : Polyhedron_3) (p : Point_3) :
    (point_in_polyhedron s p = true ↔
      ∀ pl ∈ s.planes, pl.oriented_side p ≠ Oriented_side.ON_ORIENTED_BOUNDARY →
        ∀ q ∈ s.points, pl.oriented_side q ≠ Oriented_side.ON_ORIENTED_BOUNDARY →
          pl.oriented_side q = pl.oriented_side p) ∧
      (point_in_polyhedron s p = true ↔
        ∀ pl ∈ s.planes, pl.eval p ≠ 0 → ∀ q ∈ s.points, pl.eval q ≠ 0 →
          (pl.eval q < 0 ↔ pl.eval p < 0)) ∧
      point_in_polyhedron s p = point_in_polyhedron
        { s with planes := s.planes.filter fun pl =>
            decide (pl.oriented_side p ≠ Oriented_side.ON_ORIENTED_BOUNDARY) } p ∧
      ((∀ pl ∈ s.planes, pl.oriented_side p = Oriented_side.ON_ORIENTED_BOUNDARY) →
        point_in_polyhedron s p = true) := by
  have key := point_in_polyhedron_spec s p
  refine ⟨key, ?_, ?_, ?_⟩
  · rw [key]
    constructor
    · intro h pl hpl hp q hq hq0
      have h1 := h pl hpl (fun hb => hp ((side_bnd_iff pl p).mp hb)) q hq
        (fun hb => hq0 ((side_bnd_iff pl q).mp hb))
      rw [← side_neg_iff, ← side_neg_iff, h1]
    · intro h pl hpl hp q hq hqb
      have hp0 : pl.eval p ≠ 0 := fun h0 => hp ((side_bnd_iff pl p).mpr h0)
      have hq0 : pl.eval q ≠ 0 := fun h0 => hqb ((side_bnd_iff pl q).mpr h0)
      have h1 := h pl hpl hp0 q hq hq0
      rcases lt_or_gt_of_ne hp0 with h2 | h2
      · rw [(side_neg_iff pl p).mpr h2, (side_neg_iff pl q).mpr (h1.mpr h2)]
      · have h3 : 0 < pl.eval q := by
          rcases lt_or_gt_of_ne hq0 with h4 | h4
          · have := h1.mp h4; linarith
          · exact h4
        rw [(side_pos_iff pl p).mpr h2, (side_pos_iff pl q).mpr h3]
  · rw [Bool.eq_iff_iff, key, point_in_polyhedron_spec]
    simp only [List.mem_filter, decide_eq_true_eq]
    exact ⟨fun h pl hpl hp => h pl hpl.1 hp, fun h pl hpl hp => h pl ⟨hpl, hp⟩ hp⟩
  · intro h
    exact key.mpr fun pl hpl hp => absurd (h pl hpl) hp

/-- C22: `print` writes nothing for the empty tree; for a tree it writes, for
each Leaf in the order left to right and for nothing else, one line made of
as many plus signs as the depth of the Leaf (none for a root Leaf), the
decimal identity of its solid and the end of the line; the identity holds no
end of line, so there are as many lines as Leaves. -/
theorem print_writes_leaf_lines (n : Node) (depth : Nat) :
    print none depth = [] ∧
      print (some n) depth = ((n.leaves_at depth).map fun e => leaf_line e.1 e.2).flatten ∧
      (n.leaves_at depth).map Prod.snd = n.leaves ∧
      (∀ e ∈ n.leaves_at depth, depth ≤ e.1) ∧
      (print (some n) depth).count '\n' = n.leaves.length ∧
      (∀ k s, leaf_line k s = List.replicate k '+' ++ decimal s.id ++ ['\n'] ∧
        '\n' ∉ List.replicate k '+' ++ decimal s.id) ∧
      (∀ s, print (some (Node.LeafNode s)) 0 = decimal s.id ++ ['\n']) ∧
      print row_tree.root 0 = ['+', '0', '\n', '+', '+', '1', '\n', '+', '+', '2', '\n'] := by
  refine ⟨rfl, print_node_lines n depth, leaves_at_snd n depth, ?_, ?_, ?_, fun _ => rfl, by decide⟩
  · induction n generalizing depth with
    | LeafNode p =>
      intro e he
      simp only [Node.leaves_at, List.mem_singleton] at he
      rw [he]
    | InternalNode l r pl polys par ihl ihr =>
      intro e he
      simp only [Node.leaves_at, List.mem_append] at he
      rcases he with he | he
      · exact Nat.le_of_succ_le (ihl _ e he)
      · exact Nat.le_of_succ_le (ihr _ e he)
  · show (print_node n depth).count '\n' = _
    rw [print_node_lines, count_lines, ← leaves_at_snd n depth, List.length_map]
  · intro k s
    refine ⟨rfl, fun h => ?_⟩
    rcases List.mem_append.mp h with h | h
    · exact absurd (List.eq_of_mem_replicate h) (by decide)
    · exact decimal_no_newline _ h

/-- C23: on an input for which every call of `create_node` on more than two
solids finds a qualifying plane, the constructor ends, with a tree or with
the intersecting-solids error: `create_node` gives that same result with
every fuel from the number of solids on.  A call on more than two solids
with a qualifying plane calls itself on the two groups of the first such
plane, and each has fewer solids than the input. -/
theorem build_terminates (v : List Polyhedron_3) (h : Dividable v) :
    ((∃ t, BSPTree.build v = Except.ok t) ∨
        BSPTree.build v = Except.error Fault.intersecting) ∧
      (∃ r, r ≠ Except.error Fault.diverges ∧ ∀ fuel, v.length ≤ fuel → create_node fuel v = r) ∧
      (∀ pl, first_divider v = some pl →
        (find_divider v (candidates v) Search.init).left = group_left pl v ∧
        (find_divider v (candidates v) Search.init).right = group_right pl v ∧
        (group_left pl v).length < v.length ∧ (group_right pl v).length < v.length) := by
  obtain ⟨r, hr, hk⟩ := create_node_dividable v h
  refine ⟨?_, ⟨r, ?_, hr⟩, ?_⟩
  · unfold BSPTree.build
    rw [hr _ (le_refl _)]
    rcases hk with ⟨o, rfl⟩ | rfl
    · exact Or.inl ⟨_, rfl⟩
    · exact Or.inr rfl
  · rcases hk with ⟨o, rfl⟩ | rfl <;> simp
  · intro pl hfd
    have hst := find_divider_first v (candidates v) Search.init pl hfd
    rw [hst]
    exact ⟨rfl, rfl, qualifies_lengths pl v (first_divider_qualifies v pl hfd)⟩

/-- Witness of C23: the 8 unit cubes of the lattice `{0,1}^3`. -/
theorem build_terminates_witness :
    Dividable lattice ∧ (∃ t, BSPTree.build lattice = Except.ok t) :=
  ⟨dividable_sound 8 lattice (by decide!),
    (build_terminates lattice (dividable_sound 8 lattice (by decide!))).1.resolve_right
      (by decide!)⟩

/-- C24: for every tree and every valid solid, `insert` raises the
intersecting-solids error or returns `true`, whatever the evaluation order;
so a call that returns `false` was given a solid that fails `is_valid`. -/
theorem insert_true_or_raises (lf : Bool) (t : BSPTree) (s : Polyhedron_3)
    (hv : s.valid = true) :
    ((t.insert lf s).2 = Except.ok true ∨
        (t.insert lf s).2 = Except.error Fault.intersecting) ∧
      (∀ s2, (t.insert lf s2).2 = Except.ok false → s2.valid = false) := by
  refine ⟨insert_result lf t s hv, fun s2 h2 => ?_⟩
  by_contra hne
  have hv2 : s2.valid = true := by simpa using hne
  rcases insert_result lf t s2 hv2 with h3 | h3 <;> rw [h3] at h2 <;> simp at h2

/-- Witness of C24: the two-cube tree and a third cube in the row, which is
inserted, and on the tree of three boxes the box that overlaps one of them,
for which `insert` raises. -/
theorem insert_true_or_raises_witness :
    (pair_tree.insert true cube200_new).2 = Except.ok true ∧
      (overlap_tree.insert true overlap_s).2 = Except.error Fault.intersecting :=
  ⟨(insert_true_or_raises true pair_tree cube200_new rfl).1.resolve_right (by decide!),
    (insert_true_or_raises true overlap_tree overlap_s rfl).1.resolve_left (by decide!)⟩

/-! ### Interior points of solids that no plane cuts -/

theorem interior_off_plane (k : Polyhedron_3) (p : Point_3) (pl : Plane_3) (hp : k.Interior p)
    (h1 : one_side pl k) (h2 : ∃ q ∈ k.points, pl.eval q ≠ 0) : pl.eval p ≠ 0 := by
  obtain ⟨q, hq, hne⟩ := h2
  rcases h1 with h1 | h1
  · have hlt : pl.eval q < 0 := lt_of_le_of_ne (h1 q hq) hne
    exact ne_of_lt (interior_strict_neg k p pl hp h1 ⟨q, hq, hlt⟩)
  · have hlt : 0 < pl.eval q := lt_of_le_of_ne (h1 q hq) (Ne.symm hne)
    exact ne_of_gt (interior_strict_pos k p pl hp h1 ⟨q, hq, hlt⟩)

theorem reaches_leaf_node (l r : Node) (pl : Plane_3) (polys : List Polyhedron_3) (par : Bool)
    (p : Point_3) (h0 : pl.eval p ≠ 0) (hl : l.reaches_leaf p = true)
    (hr : r.reaches_leaf p = true) :
    (Node.InternalNode l r pl polys par).reaches_leaf p = true := by
  simp only [Node.reaches_leaf]
  cases hs : pl.oriented_side p with
  | ON_NEGATIVE_SIDE => exact hl
  | ON_ORIENTED_BOUNDARY => exact absurd ((side_bnd_iff pl p).mp hs) h0
  | ON_POSITIVE_SIDE => exact hr

theorem split_reaches_leaf (a b : Polyhedron_3) (n : Node) (p : Point_3)
    (h : split a b = Except.ok n) (hp : ∀ pl ∈ candidates [a, b], pl.eval p ≠ 0) :
    n.reaches_leaf p = true := by
  obtain ⟨own, oth, pl, hwho, hpl, _, hres⟩ := split_ok_shape a b n h
  have h0 : pl.eval p ≠ 0 := by
    apply hp
    simp only [candidates, List.flatMap_cons, List.flatMap_nil, List.append_nil, List.mem_append]
    rcases hwho with ⟨rfl, _⟩ | ⟨rfl, _⟩
    · exact Or.inl hpl
    · exact Or.inr hpl
  rcases hres with ⟨_, rfl⟩ | ⟨_, rfl⟩ | ⟨_, rfl⟩ | ⟨_, rfl⟩ <;>
    exact reaches_leaf_node _ _ pl _ _ p h0 rfl rfl

/-- A point off every candidate plane of the input is on no plane of the tree
that `create_node` returns: its descent ends at a Leaf. -/
theorem create_node_reaches_leaf (fuel : Nat) (v : List Polyhedron_3) (n : Node) (p : Point_3)
    (h : create_node fuel v = Except.ok (some n)) (hp : ∀ pl ∈ candidates v, pl.eval p ≠ 0) :
    n.reaches_leaf p = true := by
  induction fuel generalizing v n with
  | zero =>
    match v, h, hp with
    | [], h, _ => simp [create_node] at h
    | [a], h, _ =>
      simp only [create_node, Except.ok.injEq, Option.some.injEq] at h
      subst h
      rfl
    | [a, b], h, hp =>
      simp only [create_node] at h
      cases hs : split a b with
      | error e => rw [hs] at h; simp at h
      | ok m =>
        rw [hs] at h
        simp only [Except.ok.injEq, Option.some.injEq] at h
        subst h
        exact split_reaches_leaf a b m p hs hp
    | _ :: _ :: _ :: _, h, _ => simp [create_node] at h
  | succ fuel ih =>
    match v, h, hp with
    | [], h, _ => simp [create_node] at h
    | [a], h, _ =>
      simp only [create_node, Except.ok.injEq, Option.some.injEq] at h
      subst h
      rfl
    | [a, b], h, hp =>
      simp only [create_node] at h
      cases hs : split a b with
      | error e => rw [hs] at h; simp at h
      | ok m =>
        rw [hs] at h
        simp only [Except.ok.injEq, Option.some.injEq] at h
        subst h
        exact split_reaches_leaf a b m p hs hp
    | a :: b :: c :: rest, h, hp =>
      obtain ⟨pl, l, r, hfd, hl, hr, rfl⟩ := create_node_ok_shape fuel a b c rest n h
      refine reaches_leaf_node _ _ pl _ _ p (hp pl (first_divider_mem _ pl hfd)) ?_ ?_
      · rw [reaches_leaf_set_parent]
        exact ih _ l hl fun c hc => hp c (candidates_filter _ _ c hc)
      · rw [reaches_leaf_set_parent]
        exact ih _ r hr fun c hc => hp c (candidates_filter _ _ c hc)

theorem uncut_thick_supporting (v : List Polyhedron_3) (h : uncut_thick v) :
    ∀ s ∈ v, s.Supporting := by
  intro s hs pl hpl
  exact (h pl (by
    simp only [candidates, List.mem_flatMap]
    exact ⟨s, hs, hpl⟩) s hs).1

/-- C1 (amended): in the tree that the constructor returns for a collection of
solids whose planes are supporting planes, `locate` at a point `p` strictly
interior to a solid `k` of the collection returns a hit carrying `k` when no
face plane of a solid of the collection cuts `k` (each has the vertices of
`k` on one closed side, one of them off the plane), and in any case when the
descent of `locate` for `p` ends at a Leaf.  In particular it returns the hit
for every solid of a collection in which no face plane cuts a solid and every
solid has a vertex off each plane. -/
theorem locate_interior (v : List Polyhedron_3) (t : BSPTree) (k : Polyhedron_3) (p : Point_3)
    (hb : BSPTree.build v = Except.ok t) (hk : k ∈ v) (hp : k.Interior p) :
    (uncut_thick v → t.reaches_leaf p = true ∧ t.locate p = some k) ∧
      ((∀ s ∈ v, s.Supporting) → uncut_thick_in v k →
        t.reaches_leaf p = true ∧ t.locate p = some k) ∧
      ((∀ s ∈ v, s.Supporting) → t.reaches_leaf p = true → t.locate p = some k) := by
  unfold BSPTree.build at hb
  cases hc : create_node v.length v with
  | error e => simp [hc] at hb
  | ok r =>
    simp only [hc, Except.ok.injEq] at hb
    subst hb
    cases r with
    | none =>
      have hv := create_node_none _ v hc
      subst hv
      simp at hk
    | some n =>
      have h3 : (∀ s ∈ v, s.Supporting) → n.reaches_leaf p = true →
          locate_node n p = some k :=
        fun hsup hd => locate_interior_fuel v.length v n k p hc hsup hk hp hd
      have h2 : (∀ s ∈ v, s.Supporting) → uncut_thick_in v k →
          n.reaches_leaf p = true ∧ locate_node n p = some k := by
        intro hsup hcut
        have hd := create_node_reaches_leaf _ v n p hc fun pl hpl =>
          interior_off_plane k p pl hp (hcut pl hpl).1 (hcut pl hpl).2
        exact ⟨hd, h3 hsup hd⟩
      exact ⟨fun hv => h2 (uncut_thick_supporting v hv) fun pl hpl => hv pl hpl k hk, h2, h3⟩

/-- Witness of C1 (amended): the lattice of the 8 unit cubes, the cube anchored
at the origin and its centre; and the three boxes of which the third is cut
by the plane of the root, the second box, which no plane cuts, and its
centre. -/
theorem locate_interior_witness :
    uncut_thick lattice ∧ (built lattice).locate ⟨1/2, 1/2, 1/2⟩ = some cube000 ∧
      uncut_thick_in [cube000, cube200, cube_far] cube200 ∧
      cut_tree.locate ⟨5/2, 1/2, 1/2⟩ = some cube200 :=
  ⟨by decide!,
    ((locate_interior lattice (built lattice) cube000 ⟨1/2, 1/2, 1/2⟩ (by decide!) (by decide!)
      ⟨[1/8, 1/8, 1/8, 1/8, 1/8, 1/8, 1/8, 1/8], by decide!⟩).1 (by decide!)).2,
    by decide!,
    ((locate_interior [cube000, cube200, cube_far] cut_tree cube200 ⟨5/2, 1/2, 1/2⟩ (by decide!)
      (by decide!) ⟨[1/8, 1/8, 1/8, 1/8, 1/8, 1/8, 1/8, 1/8], by decide!⟩).2.1
        (by decide!) (by decide!)).2⟩

end BSP
